import Mathlib

/-!
# Wolf Instruments: MIDI transform pipeline, sample voices and visualizer FIFO

A shallow embedding of `Source/VisualizerFIFO.h`, `Source/MidiProcessor.cpp` and the
voice code of `Source/SynthEngine.cpp`, together with the properties proved about them.

Conventions of the embedding
* C++ `int` values are `Int`; list positions are obtained with `Int.toNat`. The size,
  the products and the sum of `Arpeggiator::getNextNote` are reduced to 32 bits
  (`wrapInt`), and the conversion of the source position of a voice to `int` is
  `castToInt`, which covers positions that do not fit an `int`. The step index and the
  sample counts are not reduced, and the gate length in samples is taken to fit an `int`
  (`truncToInt`).
* `double`/`float` quantities (step time, step duration, gate fraction, sample values,
  source position, pitch ratio) are exact rationals, and the `float` literals of the
  sources are the rationals they denote. Arithmetic on them is exact: a statement whose
  truth depends on the result of a rounded operation carries the hypothesis that the
  operation is exact (`IsDouble`, `ExactStepDuration`, `ExactStepTime`).
* The JUCE library classes used by the sources (`juce::AbstractFifo`,
  `juce::MidiBuffer`, `juce::MidiMessage`) are not part of the repository; the
  operations the sources call are modelled by the definitions of the sections
  `AbstractFifo` and `MidiBuffer` below. The envelope, filter and oscillator objects of a
  voice and `std::pow` are parameters (`VoiceLibrary`).
-/

namespace Wolf

/-! ## juce::AbstractFifo -/

/-- Cursor state of `juce::AbstractFifo`: `bufferSize` is the constructor
argument, `validStart` the read cursor and `validEnd` the write cursor. -/
structure AbstractFifo where
  bufferSize : Int
  validStart : Int
  validEnd : Int
deriving DecidableEq, Repr

/-- Result of `prepareToWrite` / `prepareToRead`: two index regions. -/
structure FifoRegions where
  startIndex1 : Int
  blockSize1 : Int
  startIndex2 : Int
  blockSize2 : Int
deriving DecidableEq, Repr

namespace AbstractFifo

/-- Number of items ready to be read: `ve >= vs ? ve - vs : bufferSize - (vs - ve)`. -/
def getNumReady (f : AbstractFifo) : Int :=
  if f.validEnd ≥ f.validStart then f.validEnd - f.validStart
  else f.bufferSize - (f.validStart - f.validEnd)

/-- Free space as the library reports it: `bufferSize - getNumReady() - 1`.
One cell always stays unused so that equal cursors mean "empty". -/
def getFreeSpace (f : AbstractFifo) : Int :=
  f.bufferSize - f.getNumReady - 1

/-- Regions into which up to `numToWrite` items may be written. -/
def prepareToWrite (f : AbstractFifo) (numToWrite : Int) : FifoRegions :=
  let vs := f.validStart
  let ve := f.validEnd
  let freeSpace := if ve ≥ vs then f.bufferSize - (ve - vs) else vs - ve
  let numToWrite := min numToWrite (freeSpace - 1)
  if numToWrite ≤ 0 then
    { startIndex1 := 0, blockSize1 := 0, startIndex2 := 0, blockSize2 := 0 }
  else
    let blockSize1 := min (f.bufferSize - ve) numToWrite
    let numToWrite := numToWrite - blockSize1
    { startIndex1 := ve, blockSize1 := blockSize1, startIndex2 := 0,
      blockSize2 := if numToWrite ≤ 0 then 0 else min numToWrite vs }

/-- Advance the write cursor by `numWritten`, wrapping at `bufferSize`. -/
def finishedWrite (f : AbstractFifo) (numWritten : Int) : AbstractFifo :=
  let newEnd := f.validEnd + numWritten
  { f with validEnd := if newEnd ≥ f.bufferSize then newEnd - f.bufferSize else newEnd }

/-- Regions from which up to `numWanted` items may be read. -/
def prepareToRead (f : AbstractFifo) (numWanted : Int) : FifoRegions :=
  let vs := f.validStart
  let ve := f.validEnd
  let numReady := if ve ≥ vs then ve - vs else f.bufferSize - (vs - ve)
  let numWanted := min numWanted numReady
  if numWanted ≤ 0 then
    { startIndex1 := 0, blockSize1 := 0, startIndex2 := 0, blockSize2 := 0 }
  else
    let blockSize1 := min (f.bufferSize - vs) numWanted
    let numWanted := numWanted - blockSize1
    { startIndex1 := vs, blockSize1 := blockSize1, startIndex2 := 0,
      blockSize2 := if numWanted ≤ 0 then 0 else min numWanted ve }

/-- Advance the read cursor by `numRead`, wrapping at `bufferSize`. -/
def finishedRead (f : AbstractFifo) (numRead : Int) : AbstractFifo :=
  let newStart := f.validStart + numRead
  { f with validStart := if newStart ≥ f.bufferSize then newStart - f.bufferSize else newStart }

end AbstractFifo

/-! ## VisualizerFIFO -/

/-- The constant `VisualizerFIFO::queueSize`. -/
def queueSize : Nat := 4096

/-- State of `VisualizerFIFO`: the sample array and the cursor object. Samples are
only ever copied, so the sample type is left abstract (`0` is the value a fresh
`std::vector<float>` is filled with). -/
structure VisualizerFIFO (α : Type) where
  buffer : List α
  fifo : AbstractFifo

/-- A `juce::AudioBuffer<float>` seen as its list of channels; `getNumSamples` is the
length of a channel. -/
abbrev AudioBuffer (α : Type) := List (List α)

/-- The call `std::copy (src, src + n, dst + start)` on an array held as a list:
the `n = src.length` cells from `start` on are replaced by `src`. -/
def copyInto {α : Type} (dst : List α) (start : Nat) (src : List α) : List α :=
  dst.take start ++ src ++ dst.drop (start + src.length)

/-- The cells `[start, start + size)` of an array, as `std::copy` reads them. -/
def readRange {α : Type} (buf : List α) (start size : Nat) : List α :=
  (buf.drop start).take size

namespace VisualizerFIFO

variable {α : Type}

/-- `VisualizerFIFO::push`: copy as much of channel 0 as the cursor object allows. -/
def push (v : VisualizerFIFO α) (source : AudioBuffer α) : VisualizerFIFO α :=
  match source with
  | [] => v
  | channelData :: _ =>
    let numSamples : Int := channelData.length
    let r := v.fifo.prepareToWrite numSamples
    let size1 := r.blockSize1
    let size2 := r.blockSize2
    let b1 :=
      if size1 > 0 then
        copyInto v.buffer r.startIndex1.toNat (readRange channelData 0 size1.toNat)
      else v.buffer
    let b2 :=
      if size2 > 0 then
        copyInto b1 r.startIndex2.toNat (readRange channelData size1.toNat size2.toNat)
      else b1
    { buffer := b2, fifo := v.fifo.finishedWrite (size1 + size2) }

/-- `VisualizerFIFO::pop`: drain everything ready into `destination`. The result is
the new channel state and the new contents of `destination`. -/
def pop [Zero α] (v : VisualizerFIFO α) (destination : List α) :
    VisualizerFIFO α × List α :=
  let numSamples := v.fifo.getNumReady
  if numSamples > 0 then
    let temp : List α := List.replicate numSamples.toNat 0
    let r := v.fifo.prepareToRead numSamples
    let size1 := r.blockSize1
    let size2 := r.blockSize2
    let t1 :=
      if size1 > 0 then copyInto temp 0 (readRange v.buffer r.startIndex1.toNat size1.toNat)
      else temp
    let t2 :=
      if size2 > 0 then
        copyInto t1 size1.toNat (readRange v.buffer r.startIndex2.toNat size2.toNat)
      else t1
    ({ v with fifo := v.fifo.finishedRead (size1 + size2) }, destination ++ t2)
  else (v, destination)

/-- Well-formed channel state: the array has `queueSize` cells, the cursor object was
built with `queueSize`, and both cursors are valid indices. -/
def WF (v : VisualizerFIFO α) : Prop :=
  v.buffer.length = queueSize ∧ v.fifo.bufferSize = queueSize ∧
  0 ≤ v.fifo.validStart ∧ v.fifo.validStart < queueSize ∧
  0 ≤ v.fifo.validEnd ∧ v.fifo.validEnd < queueSize

/-- The unread samples of a channel, oldest first: the cells from the read cursor up
to the write cursor, wrapping at the end of the array. -/
def unread (v : VisualizerFIFO α) : List α :=
  let vs := v.fifo.validStart.toNat
  let ve := v.fifo.validEnd.toNat
  if ve ≥ vs then readRange v.buffer vs (ve - vs)
  else readRange v.buffer vs (v.buffer.length - vs) ++ readRange v.buffer 0 ve

end VisualizerFIFO

end Wolf

namespace Wolf

/-! ## juce::MidiMessage and juce::MidiBuffer -/

/-- Modelled from the spec: `juce::MidiMessage` is a JUCE library class whose source is
not part of the repository. The event kinds are those of the spec's event interface
(note-on (note, velocity), note-off (note), all-notes-off, other), with the channel
the sources pass to `MidiMessage::noteOn` / `noteOff`. A velocity is a 7-bit MIDI data
value, so the cast `(juce::uint8) vel` of the sources preserves it; note numbers are
plain integers and are not clamped or reduced by the constructors. -/
inductive MidiMessage where
  | noteOn (channel : Nat) (noteNumber : Int) (velocity : Fin 128)
  | noteOff (channel : Nat) (noteNumber : Int)
  | allNotesOff (channel : Nat)
  | other (data : List Nat)
deriving DecidableEq, Repr

namespace MidiMessage

/-- `MidiMessage::isNoteOn`. -/
def isNoteOn : MidiMessage → Bool
  | noteOn _ _ _ => true
  | _ => false

/-- `MidiMessage::isNoteOff`. -/
def isNoteOff : MidiMessage → Bool
  | noteOff _ _ => true
  | _ => false

/-- `MidiMessage::isAllNotesOff`. -/
def isAllNotesOff : MidiMessage → Bool
  | allNotesOff _ => true
  | _ => false

/-- `MidiMessage::getNoteNumber` (only called on note messages). -/
def getNoteNumber : MidiMessage → Int
  | noteOn _ n _ => n
  | noteOff _ n => n
  | _ => 0

/-- `MidiMessage::getVelocity`; a note-off built by `noteOff (channel, note)` carries
velocity 0. -/
def getVelocity : MidiMessage → Fin 128
  | noteOn _ _ v => v
  | _ => 0

end MidiMessage

/-- One entry of a `juce::MidiBuffer`: a message and its sample offset in the block. -/
structure MidiEvent where
  message : MidiMessage
  samplePosition : Int
deriving DecidableEq, Repr

/-- The contents of a `juce::MidiBuffer`, in iteration order. -/
abbrev MidiBuffer := List MidiEvent

/-- `juce::MidiBuffer::addEvent (message, sampleNumber)`: the library keeps a buffer in
sample-position order by inserting the new event after every stored event whose
position is not greater than `sampleNumber` (so after the events at the same position). -/
def addEvent : MidiBuffer → MidiMessage → Int → MidiBuffer
  | [], msg, pos => [⟨msg, pos⟩]
  | e :: rest, msg, pos =>
    if e.samplePosition ≤ pos then e :: addEvent rest msg pos
    else ⟨msg, pos⟩ :: e :: rest

/-- Offsets in non-decreasing order: the state every `juce::MidiBuffer` is in. -/
def OffsetSorted (buf : MidiBuffer) : Prop :=
  buf.Pairwise (fun a b => a.samplePosition ≤ b.samplePosition)

instance (buf : MidiBuffer) : Decidable (OffsetSorted buf) :=
  inferInstanceAs (Decidable (List.Pairwise
    (fun a b : MidiEvent => a.samplePosition ≤ b.samplePosition) buf))

/-! ## ChordEngine -/

/-- State of `ChordEngine`: the selected chord mode. -/
structure ChordEngine where
  chordMode : Int
deriving DecidableEq, Repr

namespace ChordEngine

/-- `ChordEngine::setParameters`: `keys` is accepted and ignored. -/
def setParameters (_c : ChordEngine) (mode _keys : Int) : ChordEngine :=
  { chordMode := mode }

/-- The lambda `addEvent` of `ChordEngine::process`: a note-on keeps the velocity, a
note-off is rebuilt by `noteOff (1, note)`; both go to the original sample position. -/
def addNote (isOn : Bool) (vel : Fin 128) (samplePosition : Int)
    (processedBuf : MidiBuffer) (note : Int) : MidiBuffer :=
  if isOn then addEvent processedBuf (MidiMessage.noteOn 1 note vel) samplePosition
  else addEvent processedBuf (MidiMessage.noteOff 1 note) samplePosition

/-- The body of the `for` loop of `ChordEngine::process`. -/
def processEvent (chordMode : Int) (processedBuf : MidiBuffer) (metadata : MidiEvent) :
    MidiBuffer :=
  let msg := metadata.message
  if msg.isNoteOn || msg.isNoteOff then
    let root := msg.getNoteNumber
    let vel := msg.getVelocity
    let isOn := msg.isNoteOn
    let add := addNote isOn vel metadata.samplePosition
    let b := add processedBuf root
    if chordMode = 1 then add (add b (root + 4)) (root + 7)
    else if chordMode = 2 then add (add b (root + 3)) (root + 7)
    else if chordMode = 3 then add (add (add b (root + 4)) (root + 7)) (root + 10)
    else if chordMode = 4 then add (add (add b (root + 4)) (root + 7)) (root + 14)
    else b
  else addEvent processedBuf msg metadata.samplePosition

/-- `ChordEngine::process`: the buffer left in `midiMessages`. -/
def process (c : ChordEngine) (midiMessages : MidiBuffer) : MidiBuffer :=
  if c.chordMode = 0 then midiMessages
  else midiMessages.foldl (processEvent c.chordMode) []

/-- The chord tones of the spec, as semitone offsets from the root, for the modes
off, major, minor, seventh and ninth. -/
def chordDegrees (mode : Int) : List Int :=
  if mode = 1 then [0, 4, 7]
  else if mode = 2 then [0, 3, 7]
  else if mode = 3 then [0, 4, 7, 10]
  else if mode = 4 then [0, 4, 7, 14]
  else [0]

/-- The replacement the spec prescribes for one event: a note-on / note-off for `root`
becomes one event of the same kind per chord tone at the same offset (and velocity);
any other event is kept. -/
def expandEventSpec (mode : Int) (e : MidiEvent) : List MidiEvent :=
  match e.message with
  | MidiMessage.noteOn _ root vel =>
    (chordDegrees mode).map fun d => ⟨MidiMessage.noteOn 1 (root + d) vel, e.samplePosition⟩
  | MidiMessage.noteOff _ root =>
    (chordDegrees mode).map fun d => ⟨MidiMessage.noteOff 1 (root + d), e.samplePosition⟩
  | _ => [e]

end ChordEngine

end Wolf

namespace Wolf

/-! ## Arpeggiator -/

/-- The struct `ActiveNote`: a generated note whose note-off is still pending, with the
number of samples left until it is due. -/
structure ActiveNote where
  noteNumber : Int
  samplesRemaining : Int
deriving DecidableEq, Repr

/-- What the sources read from `juce::AudioPlayHead::PositionInfo`: the optional tempo. -/
structure PositionInfo where
  bpm : Option ℚ

/-- What the sources read from `juce::AudioPlayHead`: the optional position. -/
structure AudioPlayHead where
  position : Option PositionInfo

/-- The data members of `Arpeggiator` that `MidiProcessor.cpp` uses. The class
declaration (`MidiProcessor.h`) is not among the sources, so no initial values are
fixed here. -/
structure Arpeggiator where
  currentSampleRate : ℚ
  rateDiv : ℚ
  arpMode : Int
  numOctaves : Int
  gateLength : ℚ
  enabled : Bool
  sortedNotes : List Int
  currentStep : Int
  noteTime : ℚ
  activeNotes : List ActiveNote

/-- The conversion `static_cast<int>` of a `double` whose integer part fits an `int`:
truncation toward zero. -/
def truncToInt (q : ℚ) : Int :=
  if 0 ≤ q then ⌊q⌋ else -⌊-q⌋

/-- The conversion `(int)` of any `double`: truncation toward zero when the integer part
fits an `int`. For any other value the conversion is undefined in C++; the conversion
instruction of x86 then yields `INT_MIN`, which is the value taken here. -/
def castToInt (q : ℚ) : Int :=
  if -2147483648 ≤ truncToInt q ∧ truncToInt q ≤ 2147483647 then truncToInt q
  else -2147483648

/-- The value an `int` takes for the arithmetic result `x`: the result reduced to 32 bits
in two's complement. Overflow of a signed operation is undefined in C++; the wrap-around
of the compiled multiplication and addition is the value taken here. -/
def wrapInt (x : Int) : Int :=
  (x + 2147483648) % 4294967296 - 2147483648

/-- The rationals that are values of the type `double` (IEEE 754 binary64, subnormal
values included): `m * 2 ^ e` with `|m| < 2 ^ 53` and `-1074 ≤ e ≤ 971`. An operation on
`double` values whose mathematical result is such a rational is performed without
rounding. -/
def IsDouble (q : ℚ) : Prop :=
  ∃ m e : Int, |m| < 2 ^ 53 ∧ -1074 ≤ e ∧ e ≤ 971 ∧ q = m * (2 : ℚ) ^ e

namespace Arpeggiator

/-- `Arpeggiator::prepare`. -/
def prepare (a : Arpeggiator) (sampleRate : ℚ) : Arpeggiator :=
  { a with currentSampleRate := sampleRate }

/-- `Arpeggiator::reset`. -/
def reset (a : Arpeggiator) : Arpeggiator :=
  { a with sortedNotes := [], currentStep := 0, noteTime := 0, activeNotes := [] }

/-- `Arpeggiator::setParameters` (the parameter `on` is called `isOn` here). -/
def setParameters (a : Arpeggiator) (rate : ℚ) (mode octaves : Int) (gate : ℚ) (isOn : Bool) :
    Arpeggiator :=
  { a with rateDiv := rate, arpMode := mode, numOctaves := octaves, gateLength := gate,
           enabled := isOn }

/-- `Arpeggiator::handleNoteOn`; `std::sort` is the ascending sort of the list. -/
def handleNoteOn (a : Arpeggiator) (note : Int) (_velocity : Fin 128) : Arpeggiator :=
  let wasEmpty := a.sortedNotes.isEmpty
  let found := a.sortedNotes.any (fun n => n == note)
  let a1 :=
    if !found then
      { a with sortedNotes := (a.sortedNotes ++ [note]).insertionSort (· ≤ ·) }
    else a
  if wasEmpty then { a1 with currentStep := 0, noteTime := 1000000 } else a1

/-- `Arpeggiator::handleNoteOff`: `std::remove` followed by `erase`. -/
def handleNoteOff (a : Arpeggiator) (note : Int) : Arpeggiator :=
  { a with sortedNotes := a.sortedNotes.filter (fun n => n != note) }

/-- `Arpeggiator::getNextNote`. The size of the vector, the two products and the sum
are `int` values (`wrapInt`). The C++ operators `%` and `/` on `int` truncate toward zero;
an index outside the vector (undefined behaviour in C++) reads 0 here. -/
def getNextNote (a : Arpeggiator) : Int :=
  if a.sortedNotes.isEmpty then -1
  else
    let numNotes : Int := wrapInt a.sortedNotes.length
    let totalSteps := wrapInt (numNotes * a.numOctaves)
    if totalSteps = 0 then -1
    else
      let wrappedStep := Int.tmod a.currentStep totalSteps
      let noteIndex := Int.tmod wrappedStep numNotes
      let octaveOffset := Int.tdiv wrappedStep numNotes
      let note := wrapInt (a.sortedNotes.getD noteIndex.toNat 0 + wrapInt (octaveOffset * 12))
      if note > 127 then 127 else note

/-- `Arpeggiator::getSamplesPerStep`. The rate selector is a `float` and is compared with
the values of the `float` literals `0.1f`, `0.4f` and `0.7f`, which are the rationals
`13421773 / 2 ^ 27`, `13421773 / 2 ^ 25` and `11744051 / 2 ^ 24` (about 0.1000000015,
0.4000000060 and 0.6999999881). -/
def getSamplesPerStep (a : Arpeggiator) (playHead : Option AudioPlayHead) : ℚ :=
  let bpm0 : ℚ :=
    match playHead with
    | some ph =>
      match ph.position with
      | some pos =>
        match pos.bpm with
        | some b => b
        | none => 120
      | none => 120
    | none => 120
  let bpm : ℚ := if bpm0 < 20 then 120 else bpm0
  let quarterNoteSamples : ℚ := (60 / bpm) * a.currentSampleRate
  if a.rateDiv ≤ 13421773 / 134217728 then quarterNoteSamples
  else if a.rateDiv ≤ 13421773 / 33554432 then quarterNoteSamples / 2
  else if a.rateDiv ≤ 11744051 / 16777216 then quarterNoteSamples / 4
  else quarterNoteSamples / 8

/-- The loop over `activeNotes` that `Arpeggiator::process` runs in both its disabled
branch (on `midiMessages`) and its enabled branch (on `processedMidi`): a pending
note-off that falls inside the block is emitted and erased, any other entry is
decremented by the block length. The result is the list left in `activeNotes` and the
buffer with the emitted note-offs added. -/
def drainPending (numSamples : Int) : List ActiveNote → MidiBuffer → List ActiveNote × MidiBuffer
  | [], buf => ([], buf)
  | it :: rest, buf =>
    let noteOffPos := it.samplesRemaining
    if noteOffPos < numSamples then
      drainPending numSamples rest (addEvent buf (MidiMessage.noteOff 1 it.noteNumber) noteOffPos)
    else
      let r := drainPending numSamples rest buf
      ({ it with samplesRemaining := it.samplesRemaining - numSamples } :: r.1, r.2)

/-- One iteration of the input loop of `Arpeggiator::process` (step 2): notes are
captured, "all notes off" resets, anything else is copied to `processedMidi`. -/
def captureEvent (s : Arpeggiator × MidiBuffer) (metadata : MidiEvent) :
    Arpeggiator × MidiBuffer :=
  match metadata.message with
  | MidiMessage.noteOn _ n v => (s.1.handleNoteOn n v, s.2)
  | MidiMessage.noteOff _ n => (s.1.handleNoteOff n, s.2)
  | MidiMessage.allNotesOff _ => (s.1.reset, s.2)
  | msg => (s.1, addEvent s.2 msg metadata.samplePosition)

/-- The variables of the stepping loop of `Arpeggiator::process`. -/
structure StepLoop where
  arp : Arpeggiator
  processedMidi : MidiBuffer
  samplesRemaining : Int
  currentSamplePos : Int

/-- The `if (noteTime >= samplesPerStep)` block of the stepping loop: a step fires. -/
def fireStep (numSamples : Int) (samplesPerStep : ℚ) (s : StepLoop) : StepLoop :=
  let a := { s.arp with noteTime := s.arp.noteTime - samplesPerStep }
  let noteToPlay := a.getNextNote
  let s1 : StepLoop :=
    if noteToPlay > 0 then
      let out := addEvent s.processedMidi (MidiMessage.noteOn 1 noteToPlay 100) s.currentSamplePos
      let gateSamples := truncToInt (samplesPerStep * a.gateLength)
      if s.currentSamplePos + gateSamples < numSamples then
        { s with arp := a,
                 processedMidi := addEvent out (MidiMessage.noteOff 1 noteToPlay)
                   (s.currentSamplePos + gateSamples) }
      else
        { s with arp := { a with activeNotes := a.activeNotes ++
                     [{ noteNumber := noteToPlay,
                        samplesRemaining := gateSamples - (numSamples - s.currentSamplePos) }] },
                 processedMidi := out }
    else { s with arp := a }
  { s1 with arp := { s1.arp with currentStep := s1.arp.currentStep + 1 } }

/-- The body of the `while (samplesRemaining > 0)` loop. -/
def stepBody (numSamples : Int) (samplesPerStep : ℚ) (s : StepLoop) : StepLoop :=
  let s1 := if s.arp.noteTime ≥ samplesPerStep then fireStep numSamples samplesPerStep s else s
  let processAmount : Int := min s1.samplesRemaining 32
  { s1 with arp := { s1.arp with noteTime := s1.arp.noteTime + processAmount },
            samplesRemaining := s1.samplesRemaining - processAmount,
            currentSamplePos := s1.currentSamplePos + processAmount }

/-- The `while (samplesRemaining > 0)` loop, run for at most `fuel` iterations. -/
def stepLoop (numSamples : Int) (samplesPerStep : ℚ) : Nat → StepLoop → StepLoop
  | 0, s => s
  | fuel + 1, s =>
    if s.samplesRemaining > 0 then stepLoop numSamples samplesPerStep fuel
      (stepBody numSamples samplesPerStep s)
    else s

/-- The step duration `Arpeggiator::process` works with: the value of
`getSamplesPerStep`, replaced by 10000 when it is below 100. -/
def effectiveSamplesPerStep (a : Arpeggiator) (playHead : Option AudioPlayHead) : ℚ :=
  if a.getSamplesPerStep playHead < 100 then 10000 else a.getSamplesPerStep playHead

/-- Sections 2 and 3 of `Arpeggiator::process` (enabled branch): the input loop builds
`processedMidi` from an empty buffer, then the pending note-off loop runs on it. -/
def captureAndDrain (a : Arpeggiator) (midiMessages : MidiBuffer) (numSamples : Int) :
    Arpeggiator × MidiBuffer :=
  let c := midiMessages.foldl captureEvent (a, [])
  let r := drainPending numSamples c.1.activeNotes c.2
  ({ c.1 with activeNotes := r.1 }, r.2)

/-- The statement `if (noteTime > samplesPerStep) noteTime = samplesPerStep;`. -/
def clampNoteTime (a : Arpeggiator) (samplesPerStep : ℚ) : Arpeggiator :=
  if a.noteTime > samplesPerStep then { a with noteTime := samplesPerStep } else a

/-- The variables of the stepping loop when it is entered: `noteTime` clamped,
`samplesRemaining = numSamples`, `currentSamplePos = 0`. -/
def loopStart (a : Arpeggiator) (processedMidi : MidiBuffer) (numSamples : Int)
    (samplesPerStep : ℚ) : StepLoop :=
  { arp := clampNoteTime a samplesPerStep, processedMidi := processedMidi,
    samplesRemaining := numSamples, currentSamplePos := 0 }

/-- Section 4 of `Arpeggiator::process`: note generation. Every iteration of the
stepping loop consumes at least one sample, so `numSamples` iterations are enough fuel. -/
def generate (a : Arpeggiator) (processedMidi : MidiBuffer) (numSamples : Int)
    (playHead : Option AudioPlayHead) : Arpeggiator × MidiBuffer :=
  if a.sortedNotes.isEmpty then (a, processedMidi)
  else
    let samplesPerStep := effectiveSamplesPerStep a playHead
    let l := stepLoop numSamples samplesPerStep numSamples.toNat
      (loopStart a processedMidi numSamples samplesPerStep)
    (l.arp, l.processedMidi)

/-- `Arpeggiator::process`: the new state and the buffer left in `midiMessages`. -/
def process (a : Arpeggiator) (midiMessages : MidiBuffer) (numSamples : Int)
    (playHead : Option AudioPlayHead) : Arpeggiator × MidiBuffer :=
  if !a.enabled then
    let r := drainPending numSamples a.activeNotes midiMessages
    ({ a with activeNotes := r.1 }, r.2)
  else
    let c := captureAndDrain a midiMessages numSamples
    generate c.1 c.2 numSamples playHead

end Arpeggiator

end Wolf

namespace Wolf
namespace Arpeggiator

/-! ## Invariants and drivers used to state the properties -/

/-- Every pending release has a non-negative remaining count. -/
def PendingNonneg (a : Arpeggiator) : Prop :=
  ∀ x ∈ a.activeNotes, 0 ≤ x.samplesRemaining

/-- Invariant of the stepping loop: the position and the remaining count add up to the
block length, the gate fraction is non-negative and so is every pending count. -/
def StepLoop.Inv (numSamples : Int) (s : StepLoop) : Prop :=
  s.currentSamplePos + s.samplesRemaining = numSamples ∧ 0 ≤ s.currentSamplePos ∧
  0 ≤ s.arp.gateLength ∧ PendingNonneg s.arp

/-- A buffer in offset order all of whose offsets lie inside the block. -/
def InBlock (numSamples : Int) (buf : MidiBuffer) : Prop :=
  OffsetSorted buf ∧ ∀ e ∈ buf, 0 ≤ e.samplePosition ∧ e.samplePosition < numSamples

/-- The state of the loop after `j` iterations in which no step fires. -/
def idleState (s : StepLoop) (j : Nat) : StepLoop :=
  { s with arp := { s.arp with noteTime := s.arp.noteTime + 32 * (j : ℚ) },
           samplesRemaining := s.samplesRemaining - 32 * j,
           currentSamplePos := s.currentSamplePos + 32 * j }

/-- The sequencer state after the input loop (section 2) has captured the block's
events: the held set, step index and step time the note generation starts from. -/
def capturedState (a : Arpeggiator) (midiMessages : MidiBuffer) : Arpeggiator :=
  (midiMessages.foldl captureEvent (a, [])).1

/-- The sample offset `k = ceil (stepDuration - t)` at which the accumulated step time
`t` reaches the step duration. -/
def stepBoundary (t samplesPerStep : ℚ) : Int :=
  ⌈samplesPerStep - t⌉

/-- The first multiple of 32 at or after `k`: where the stepping loop, which advances in
chunks of 32 samples, next tests the step time. -/
def gridOffset (k : Int) : Int :=
  32 * ((k + 31) / 32)

/-- The state `a` with its pending-release list replaced by `l`. -/
def withActive (a : Arpeggiator) (l : List ActiveNote) : Arpeggiator :=
  { a with activeNotes := l }

/-- The output buffer after a firing step whose note is `note`, at offset `pos` with a
gate of `g` samples (nothing is added when the note is not positive). -/
def fireOutput (numSamples note pos g : Int) (buf : MidiBuffer) : MidiBuffer :=
  if 0 < note then
    if pos + g < numSamples then
      addEvent (addEvent buf (MidiMessage.noteOn 1 note 100) pos) (MidiMessage.noteOff 1 note)
        (pos + g)
    else addEvent buf (MidiMessage.noteOn 1 note 100) pos
  else buf

/-- The pending release a firing step appends, if any. -/
def firePending (numSamples note pos g : Int) : List ActiveNote :=
  if 0 < note ∧ ¬ (pos + g < numSamples) then
    [{ noteNumber := note, samplesRemaining := g - (numSamples - pos) }]
  else []

/-- The events one firing step adds to the block's output when its note `f.1` is played
at offset `f.2` with a gate of `g` samples: the note-on, and the note-off when it falls
inside the block. -/
def stepEvents (numSamples g : Int) (f : Int × Int) : List MidiEvent :=
  ⟨MidiMessage.noteOn 1 f.1 100, f.2⟩ ::
    (if f.2 + g < numSamples then [⟨MidiMessage.noteOff 1 f.1, f.2 + g⟩] else [])

/-- The pending release one firing step records when its note-off falls past the end of
the block: the count is what is left of the gate after the rest of the block. -/
def stepPending (numSamples g : Int) (f : Int × Int) : Option ActiveNote :=
  if f.2 + g < numSamples then none
  else some { noteNumber := f.1, samplesRemaining := g - (numSamples - f.2) }

/-- One later audio block: the values handed to `setParameters` before the block and the
arguments of `process`. -/
structure Block where
  rate : ℚ
  mode : Int
  octaves : Int
  gate : ℚ
  isOn : Bool
  midiMessages : MidiBuffer
  numSamples : Int
  playHead : Option AudioPlayHead

/-- `setParameters` followed by `process` for one block. -/
def runBlock (a : Arpeggiator) (b : Block) : Arpeggiator × MidiBuffer :=
  (a.setParameters b.rate b.mode b.octaves b.gate b.isOn).process b.midiMessages b.numSamples
    b.playHead

/-- A sequence of blocks processed one after the other: the final state and the output
of every block. -/
def runBlocks : Arpeggiator → List Block → Arpeggiator × List MidiBuffer
  | a, [] => (a, [])
  | a, b :: bs => ((runBlocks (runBlock a b).1 bs).1, (runBlock a b).2 :: (runBlocks (runBlock a b).1 bs).2)

/-- States reachable from a `reset` by the public operations, every gate fraction set
along the way being non-negative. -/
inductive Reachable : Arpeggiator → Prop where
  | reset (a : Arpeggiator) (hg : 0 ≤ a.gateLength) : Reachable a.reset
  | prepare (a : Arpeggiator) (sampleRate : ℚ) (h : Reachable a) : Reachable (a.prepare sampleRate)
  | setParameters (a : Arpeggiator) (rate : ℚ) (mode octaves : Int) (gate : ℚ) (isOn : Bool)
      (hg : 0 ≤ gate) (h : Reachable a) : Reachable (a.setParameters rate mode octaves gate isOn)
  | process (a : Arpeggiator) (midiMessages : MidiBuffer) (numSamples : Int)
      (playHead : Option AudioPlayHead) (h : Reachable a) :
      Reachable (a.process midiMessages numSamples playHead).1

/-- The tempo `getSamplesPerStep` works with, in the words of the spec: the host tempo
when a play head, a position and a tempo value are all present and the tempo is at least
20 BPM, and 120 BPM otherwise. -/
def tempoSpec (playHead : Option AudioPlayHead) : ℚ :=
  match playHead with
  | some ⟨some ⟨some b⟩⟩ => if 20 ≤ b then b else 120
  | _ => 120

/-- The divisor of the rate selector, in the words of the spec: 1, 2, 4 or 8 for the
quarter, eighth, sixteenth and thirty-second-note selector. -/
def rateDivisorSpec (rateDiv : ℚ) : ℚ :=
  if rateDiv ≤ 1 / 10 then 1 else if rateDiv ≤ 4 / 10 then 2 else if rateDiv ≤ 7 / 10 then 4 else 8

/-- The divisor of the rate selector with the thresholds the source compares with, the
values of the `float` literals `0.1f`, `0.4f` and `0.7f`. -/
def rateDivisorFloat (rateDiv : ℚ) : ℚ :=
  if rateDiv ≤ 13421773 / 134217728 then 1
  else if rateDiv ≤ 13421773 / 33554432 then 2
  else if rateDiv ≤ 11744051 / 16777216 then 4
  else 8

/-- The three `double` operations of `getSamplesPerStep` are exact for the tempo `b`, the
sample rate and the selector of `a`: the quotient `60 / b`, its product with the sample
rate and the quotient of that by the divisor are values of the type `double`. -/
def ExactStepDuration (a : Arpeggiator) (playHead : Option AudioPlayHead) : Prop :=
  IsDouble (60 / tempoSpec playHead) ∧
  IsDouble (60 / tempoSpec playHead * a.currentSampleRate) ∧
  IsDouble (60 / tempoSpec playHead * a.currentSampleRate / rateDivisorFloat a.rateDiv)

/-- A step time to which the stepping loop adds the samples of a block without rounding:
a multiple of `2 ^ -20` of magnitude at most `2 ^ 32`. With the block length below
`2 ^ 31`, every sum `t + 32 * j` formed in the block is then `m * 2 ^ -20` with
`|m| < 2 ^ 53`, a value of the type `double`. -/
def ExactStepTime (t : ℚ) : Prop :=
  (∃ m : Int, t = m / 1048576) ∧ |t| ≤ 4294967296

/-- The note numbers derived from a held set: a held note raised by a whole number of
octaves below the octave span, capped at the ceiling 127. -/
def Derivable (held : List Int) (octaves : Int) (n : Int) : Prop :=
  ∃ h ∈ held, ∃ o : Int, 0 ≤ o ∧ o < |octaves| ∧ n = min 127 (h + 12 * o)

/-- The octave span is small enough for the arithmetic of `getNextNote` to stay inside the
range of `int`: the number of held notes times the magnitude of the span is below `2 ^ 31`,
so is 12 times the magnitude, and every held note is an `int` that stays below `2 ^ 31`
when 12 times the magnitude is added. -/
def SpanFits (held : List Int) (octaves : Int) : Prop :=
  (∀ h ∈ held, -2147483648 ≤ h ∧ h + 12 * |octaves| < 2147483648) ∧
  (held.length : Int) * |octaves| < 2147483648 ∧ 12 * |octaves| < 2147483648

/-- The states a sequencer goes through: a freshly constructed sequencer, whose held list
is an empty `std::vector` (the initial values of the other members are in
`MidiProcessor.h`, which is not among the sources, and are left arbitrary), and every state
obtained from one by a call of a member function. -/
inductive FromInitial : Arpeggiator → Prop where
  | initial (a : Arpeggiator) (h : a.sortedNotes = []) : FromInitial a
  | prepare (a : Arpeggiator) (sampleRate : ℚ) (h : FromInitial a) :
      FromInitial (a.prepare sampleRate)
  | reset (a : Arpeggiator) (h : FromInitial a) : FromInitial a.reset
  | setParameters (a : Arpeggiator) (rate : ℚ) (mode octaves : Int) (gate : ℚ) (isOn : Bool)
      (h : FromInitial a) : FromInitial (a.setParameters rate mode octaves gate isOn)
  | handleNoteOn (a : Arpeggiator) (note : Int) (velocity : Fin 128) (h : FromInitial a) :
      FromInitial (a.handleNoteOn note velocity)
  | handleNoteOff (a : Arpeggiator) (note : Int) (h : FromInitial a) :
      FromInitial (a.handleNoteOff note)
  | process (a : Arpeggiator) (midiMessages : MidiBuffer) (numSamples : Int)
      (playHead : Option AudioPlayHead) (h : FromInitial a) :
      FromInitial (a.process midiMessages numSamples playHead).1

/-- The state `a` with its stored mode selector replaced by `mode`. -/
def withMode (a : Arpeggiator) (mode : Int) : Arpeggiator :=
  { a with arpMode := mode }

/-- Two events that agree up to the channel and velocity of a note-on: the same offset,
and either the same message or two note-ons for the same note. A note-on carries a
velocity of 1 to 127 (a note-on message with velocity 0 is a note-off to JUCE). -/
def SameUpToVelocity (e1 e2 : MidiEvent) : Prop :=
  e1.samplePosition = e2.samplePosition ∧
  (e1.message = e2.message ∨
    ∃ (c1 c2 : Nat) (n : Int) (v1 v2 : Fin 128), v1 ≠ 0 ∧ v2 ≠ 0 ∧
      e1.message = MidiMessage.noteOn c1 n v1 ∧ e2.message = MidiMessage.noteOn c2 n v2)

/-- The loop variables `s` with the stored mode selector of the sequencer replaced. -/
def StepLoop.withMode (s : StepLoop) (mode : Int) : StepLoop :=
  { s with arp := Arpeggiator.withMode s.arp mode }

end Arpeggiator
end Wolf

namespace Wolf

/-! ## HowlingSound and HowlingVoice -/

/-- `juce::ADSR::Parameters`. -/
structure ADSRParameters where
  attack : ℚ
  decay : ℚ
  sustain : ℚ
  release : ℚ
deriving DecidableEq, Repr

/-- The library code `SynthEngine.cpp` calls and the repository does not contain: the
operations of `juce::ADSR`, `juce::dsp::StateVariableTPTFilter` and `juce::dsp::Oscillator`
on their own state, and `std::pow`. They are parameters of the embedding; each operation
maps the state of its object to the new state (and the value returned, if any).
`pow_zero` is the guarantee of the C standard that `pow (x, 0)` is 1 for every `x`. -/
structure VoiceLibrary where
  ADSR : Type
  Filter : Type
  Oscillator : Type
  adsrSetSampleRate : ADSR → ℚ → ADSR
  adsrSetParameters : ADSR → ADSRParameters → ADSR
  adsrNoteOn : ADSR → ADSR
  adsrNoteOff : ADSR → ADSR
  adsrReset : ADSR → ADSR
  adsrGetNextSample : ADSR → ℚ × ADSR
  filterSetCutoffFrequency : Filter → ℚ → Filter
  filterSetResonance : Filter → ℚ → Filter
  filterProcessSample : Filter → ℚ → ℚ × Filter
  lfoSetFrequency : Oscillator → ℚ → Oscillator
  lfoProcessSample : Oscillator → ℚ → ℚ × Oscillator
  pow : ℚ → ℚ → ℚ
  pow_zero : ∀ x : ℚ, pow x 0 = 1

namespace AudioBuffer

/-- `juce::AudioBuffer::getNumChannels`. -/
def getNumChannels {α : Type} (b : AudioBuffer α) : Int :=
  b.length

/-- `juce::AudioBuffer::getNumSamples`: the length of a channel (0 without channels). -/
def getNumSamples {α : Type} (b : AudioBuffer α) : Int :=
  match b with
  | [] => 0
  | channel :: _ => channel.length

end AudioBuffer

/-- The members of `HowlingSound` that `HowlingVoice` reads through `getAudioData`,
`getSourceSampleRate`, `getMidiNoteForNormalPitch`, `isLooping`, `attack` and `release`
(the class declaration, `SynthEngine.h`, is not among the sources). Sample values are
exact rationals. -/
structure HowlingSound where
  data : AudioBuffer ℚ
  sourceSampleRate : ℚ
  midiNoteForNormalPitch : Int
  attack : ℚ
  release : ℚ
  looping : Bool
deriving DecidableEq, Repr

/-- The state of a `HowlingVoice`: the members of the base class `juce::SynthesiserVoice`
that the sources use (`getSampleRate`, `getCurrentlyPlayingSound`, `clearCurrentNote`) and
the members of the class itself. The current sound is `none` when the voice has no sound
or the `dynamic_cast` to `HowlingSound` fails. -/
structure HowlingVoice (L : VoiceLibrary) where
  currentSampleRate : ℚ
  currentlyPlayingNote : Int
  currentlyPlayingSound : Option HowlingSound
  sourceSamplePosition : ℚ
  pitchRatio : ℚ
  level : ℚ
  isLooping : Bool
  lfoDepth : ℚ
  adsrParams : ADSRParameters
  adsr : L.ADSR
  filter : L.Filter
  lfo : L.Oscillator

/-- The read `in[i]` of a channel of the sample data; an index outside the channel
(undefined behaviour in C++) reads 0 here. -/
def readSample (channel : List ℚ) (i : Int) : ℚ :=
  if i < 0 then 0 else channel.getD i.toNat 0

/-- The statement `*out += x` on cell `i` of an output channel; a cell outside the channel
(undefined behaviour in C++) is not written here. -/
def addSample (channel : List ℚ) (i : Int) (x : ℚ) : List ℚ :=
  if i < 0 then channel else channel.set i.toNat (channel.getD i.toNat 0 + x)

/-- The read `in[i]` of a channel of the sample data, together with the record of the
index it reads at. -/
def readTraced (channel : List ℚ) (i : Int) : ℚ × List Int :=
  (readSample channel i, [i])

/-- The linear interpolation of `HowlingVoice::renderNextBlock`: the values `l` and `r`
read from the sample data at the source position, together with the indices of all the
reads `inL[...]` and `inR[...]` it performs, in order. -/
def interpolateTraced (data : AudioBuffer ℚ) (isLooping : Bool) (sourceSamplePosition : ℚ) :
    (ℚ × ℚ) × List Int :=
  let inL := data.getD 0 []
  let currentPos := castToInt sourceSamplePosition
  let nextPos := currentPos + 1
  let alpha := sourceSamplePosition - currentPos
  let invAlpha := 1 - alpha
  if currentPos < AudioBuffer.getNumSamples data then
    let currentL := readTraced inL currentPos
    let nextL :=
      if nextPos < AudioBuffer.getNumSamples data then readTraced inL nextPos
      else if isLooping then readTraced inL (Int.tmod nextPos (AudioBuffer.getNumSamples data))
      else (0, [])
    let l := currentL.1 * invAlpha + nextL.1 * alpha
    if AudioBuffer.getNumChannels data > 1 then
      let inR := data.getD 1 []
      let currentR := readTraced inR currentPos
      let nextR :=
        if nextPos < AudioBuffer.getNumSamples data then readTraced inR nextPos
        else if isLooping then readTraced inR (Int.tmod nextPos (AudioBuffer.getNumSamples data))
        else (0, [])
      ((l, currentR.1 * invAlpha + nextR.1 * alpha),
        currentL.2 ++ nextL.2 ++ currentR.2 ++ nextR.2)
    else ((l, l), currentL.2 ++ nextL.2)
  else ((0, 0), [])

/-- The values `l` and `r` of the interpolation. -/
def interpolate (data : AudioBuffer ℚ) (isLooping : Bool) (sourceSamplePosition : ℚ) : ℚ × ℚ :=
  (interpolateTraced data isLooping sourceSamplePosition).1

/-- The variables of the sample loop of `HowlingVoice::renderNextBlock`: the voice, the
output buffer, and the cell the pointers `outL` and `outR` point at. -/
structure RenderLoop (L : VoiceLibrary) where
  voice : HowlingVoice L
  outputBuffer : AudioBuffer ℚ
  writePos : Int

namespace HowlingVoice

variable {L : VoiceLibrary}

/-- `juce::SynthesiserVoice::clearCurrentNote`. -/
def clearCurrentNote (v : HowlingVoice L) : HowlingVoice L :=
  { v with currentlyPlayingNote := -1, currentlyPlayingSound := none }

/-- `HowlingVoice::startNote`; `sound` is `none` when the `dynamic_cast` fails. -/
def startNote (v : HowlingVoice L) (midiNoteNumber : Int) (velocity : ℚ)
    (sound : Option HowlingSound) (_currentPitchWheelPosition : Int) : HowlingVoice L :=
  match sound with
  | some howlingSound =>
    let sourceRate := howlingSound.sourceSampleRate
    let rootNote := howlingSound.midiNoteForNormalPitch
    let semitones := midiNoteNumber - rootNote
    let pitchFactor := L.pow 2 ((semitones : ℚ) / 12)
    let params : ADSRParameters :=
      { attack := howlingSound.attack, decay := 0, sustain := 1, release := howlingSound.release }
    { v with
      sourceSamplePosition := 0
      level := velocity
      isLooping := howlingSound.looping
      pitchRatio := pitchFactor * (sourceRate / v.currentSampleRate)
      adsrParams := params
      adsr := L.adsrNoteOn
        (L.adsrSetParameters (L.adsrSetSampleRate v.adsr v.currentSampleRate) params) }
  | none => v.clearCurrentNote

/-- `HowlingVoice::stopNote`. -/
def stopNote (v : HowlingVoice L) (_velocity : ℚ) (allowTailOff : Bool) : HowlingVoice L :=
  if allowTailOff then { v with adsr := L.adsrNoteOff v.adsr }
  else { v.clearCurrentNote with adsr := L.adsrReset v.adsr }

/-- The statements `if (outL) *outL++ += l * level * env; if (outR) *outR++ += r * level *
env;` at cell `writePos`, given the two products: channel 0 is written when the buffer has
a channel, channel 1 when it has more than one. -/
def writeOutput (outputBuffer : AudioBuffer ℚ) (writePos : Int) (left right : ℚ) :
    AudioBuffer ℚ :=
  let out1 :=
    if AudioBuffer.getNumChannels outputBuffer > 0 then
      outputBuffer.set 0 (addSample (outputBuffer.getD 0 []) writePos left)
    else outputBuffer
  if AudioBuffer.getNumChannels outputBuffer > 1 then
    out1.set 1 (addSample (out1.getD 1 []) writePos right)
  else out1

/-- The end of an iteration of the sample loop: the source position advances by
`pitchRatio * pitchMod`, then a looping voice wraps around and a non-looping voice that
reached the end of the sample clears its note and leaves the loop (flag `true`). -/
def advancePosition (v : HowlingVoice L) (numSamples : Int) (pitchMod : ℚ) :
    HowlingVoice L × Bool :=
  let position := v.sourceSamplePosition + v.pitchRatio * pitchMod
  if v.isLooping then
    if position ≥ numSamples then ({ v with sourceSamplePosition := position - numSamples }, false)
    else ({ v with sourceSamplePosition := position }, false)
  else
    if position ≥ numSamples then
      (({ v with sourceSamplePosition := position }).clearCurrentNote, true)
    else ({ v with sourceSamplePosition := position }, false)

/-- One iteration of the loop `while (--numSamples >= 0)` of `renderNextBlock`; the flag
tells whether the iteration left the loop through `break`. The last component is the
record of the indices at which the iteration reads the sample data. -/
def renderSampleTraced (playingSound : HowlingSound) (s : RenderLoop L) :
    (RenderLoop L × Bool) × List Int :=
  let v := s.voice
  let lfoOut := L.lfoProcessSample v.lfo 0
  let pitchMod : ℚ := 1 + lfoOut.1 * v.lfoDepth * (5 / 100)
  let traced := interpolateTraced playingSound.data v.isLooping v.sourceSamplePosition
  let lr := traced.1
  let fl := L.filterProcessSample v.filter lr.1
  let fr :=
    if AudioBuffer.getNumChannels s.outputBuffer > 1 then L.filterProcessSample fl.2 lr.2
    else (lr.2, fl.2)
  let envOut := L.adsrGetNextSample v.adsr
  let out := writeOutput s.outputBuffer s.writePos (fl.1 * v.level * envOut.1)
    (fr.1 * v.level * envOut.1)
  let next := advancePosition { v with lfo := lfoOut.2, filter := fr.2, adsr := envOut.2 }
    (AudioBuffer.getNumSamples playingSound.data) pitchMod
  ((⟨next.1, out, s.writePos + 1⟩, next.2), traced.2)

/-- The state one iteration of the sample loop leaves, and its `break` flag. -/
def renderSample (playingSound : HowlingSound) (s : RenderLoop L) : RenderLoop L × Bool :=
  (renderSampleTraced playingSound s).1

/-- The loop `while (--numSamples >= 0)` of `renderNextBlock`, for a count of `n`: the
variables it leaves and the record of the indices at which it read the sample data, in
order. -/
def renderLoopTraced (playingSound : HowlingSound) : Nat → RenderLoop L → RenderLoop L × List Int
  | 0, s => (s, [])
  | n + 1, s =>
    let r := renderSampleTraced playingSound s
    if r.1.2 then (r.1.1, r.2)
    else
      let rest := renderLoopTraced playingSound n r.1.1
      (rest.1, r.2 ++ rest.2)

/-- The variables the sample loop leaves after a count of `n`. -/
def renderLoop (playingSound : HowlingSound) (n : Nat) (s : RenderLoop L) : RenderLoop L :=
  (renderLoopTraced playingSound n s).1

/-- `HowlingVoice::renderNextBlock`: the new voice state and the output buffer, and the
record of the indices at which the sample data was read. Nothing is done when the voice
has no current sound. -/
def renderNextBlockTraced (v : HowlingVoice L) (outputBuffer : AudioBuffer ℚ)
    (startSample numSamples : Int) : (HowlingVoice L × AudioBuffer ℚ) × List Int :=
  match v.currentlyPlayingSound with
  | some playingSound =>
    let r := renderLoopTraced playingSound numSamples.toNat ⟨v, outputBuffer, startSample⟩
    ((r.1.voice, r.1.outputBuffer), r.2)
  | none => ((v, outputBuffer), [])

/-- `HowlingVoice::renderNextBlock`: the new voice state and the output buffer. -/
def renderNextBlock (v : HowlingVoice L) (outputBuffer : AudioBuffer ℚ)
    (startSample numSamples : Int) : HowlingVoice L × AudioBuffer ℚ :=
  (renderNextBlockTraced v outputBuffer startSample numSamples).1

end HowlingVoice

end Wolf

namespace Wolf

/-! ## Voice parameter updates, the engine, reads of the sample data -/

namespace HowlingVoice

variable {L : VoiceLibrary}

/-- `HowlingVoice::updateADSR`. -/
def updateADSR (v : HowlingVoice L) (params : ADSRParameters) : HowlingVoice L :=
  { v with adsrParams := params, adsr := L.adsrSetParameters v.adsr params }

/-- `HowlingVoice::updateFilter`. -/
def updateFilter (v : HowlingVoice L) (cutoff resonance : ℚ) : HowlingVoice L :=
  { v with filter := L.filterSetResonance (L.filterSetCutoffFrequency v.filter cutoff) resonance }

/-- `HowlingVoice::updateLFO`. -/
def updateLFO (v : HowlingVoice L) (rate depth : ℚ) : HowlingVoice L :=
  { v with lfo := L.lfoSetFrequency v.lfo rate, lfoDepth := depth }

end HowlingVoice

/-- The voices of a `SynthEngine` (`juce::Synthesiser::getVoice (i)` for
`i < getNumVoices ()`); `initialize` adds 16 of them, all of class `HowlingVoice`. -/
structure SynthEngine (L : VoiceLibrary) where
  voices : List (HowlingVoice L)

namespace SynthEngine

variable {L : VoiceLibrary}

/-- `SynthEngine::updateParams`. -/
def updateParams (e : SynthEngine L)
    (attack decay sustain release cutoff resonance lfoRate lfoDepth : ℚ) : SynthEngine L :=
  let params : ADSRParameters :=
    { attack := attack, decay := decay, sustain := sustain, release := release }
  { e with voices := e.voices.map (fun voice =>
      ((voice.updateADSR params).updateFilter cutoff resonance).updateLFO lfoRate lfoDepth) }

end SynthEngine

/-! ## A library instance with state, for the examples -/

/-- The stages of an envelope of class `juce::ADSR`. -/
inductive EnvelopeStage where
  | idle
  | attack
  | decay
  | sustain
  | release
deriving DecidableEq, Repr

/-- An envelope for the examples. It follows the JUCE class `juce::ADSR` (whose source is
not part of the repository): a stage, the parameters, the sample rate, the current value
and the three rates. -/
structure Envelope where
  state : EnvelopeStage
  parameters : ADSRParameters
  sampleRate : ℚ
  envelopeVal : ℚ
  attackRate : ℚ
  decayRate : ℚ
  releaseRate : ℚ
deriving DecidableEq, Repr

namespace Envelope

/-- After `ADSR::isActive`. -/
def isActive (e : Envelope) : Bool :=
  e.state != EnvelopeStage.idle

/-- After `ADSR::reset`. -/
def reset (e : Envelope) : Envelope :=
  { e with envelopeVal := 0, state := EnvelopeStage.idle }

/-- After `ADSR::goToNextState`. -/
def goToNextState (e : Envelope) : Envelope :=
  match e.state with
  | EnvelopeStage.attack =>
    { e with state := if e.decayRate > 0 then EnvelopeStage.decay else EnvelopeStage.sustain }
  | EnvelopeStage.decay => { e with state := EnvelopeStage.sustain }
  | EnvelopeStage.release => e.reset
  | _ => e

/-- The rate of a stage: the distance divided by the duration in samples, or -1 for a
duration that is not positive. -/
def getRate (distance timeInSeconds sr : ℚ) : ℚ :=
  if timeInSeconds > 0 then distance / (timeInSeconds * sr) else -1

/-- After `ADSR::recalculateRates`. -/
def recalculateRates (e : Envelope) : Envelope :=
  let e1 : Envelope :=
    { e with
      attackRate := getRate 1 e.parameters.attack e.sampleRate
      decayRate := getRate (1 - e.parameters.sustain) e.parameters.decay e.sampleRate
      releaseRate := getRate e.parameters.sustain e.parameters.release e.sampleRate }
  if (e1.state = EnvelopeStage.attack ∧ e1.attackRate ≤ 0) ∨
      (e1.state = EnvelopeStage.decay ∧
        (e1.decayRate ≤ 0 ∨ e1.envelopeVal ≤ e1.parameters.sustain)) ∨
      (e1.state = EnvelopeStage.release ∧ e1.releaseRate ≤ 0) then
    e1.goToNextState
  else e1

/-- After `ADSR::setSampleRate`. -/
def setSampleRate (e : Envelope) (newSampleRate : ℚ) : Envelope :=
  { e with sampleRate := newSampleRate }

/-- After `ADSR::setParameters`. -/
def setParameters (e : Envelope) (newParameters : ADSRParameters) : Envelope :=
  ({ e with parameters := newParameters }).recalculateRates

/-- After `ADSR::noteOn`. -/
def noteOn (e : Envelope) : Envelope :=
  if e.attackRate > 0 then { e with state := EnvelopeStage.attack }
  else if e.decayRate > 0 then { e with envelopeVal := 1, state := EnvelopeStage.decay }
  else { e with envelopeVal := e.parameters.sustain, state := EnvelopeStage.sustain }

/-- After `ADSR::noteOff`. -/
def noteOff (e : Envelope) : Envelope :=
  if e.state ≠ EnvelopeStage.idle then
    if e.parameters.release > 0 then
      { e with
        releaseRate := e.envelopeVal / (e.parameters.release * e.sampleRate)
        state := EnvelopeStage.release }
    else e.reset
  else e

/-- After `ADSR::getNextSample`: the value returned and the new state. -/
def getNextSample (e : Envelope) : ℚ × Envelope :=
  match e.state with
  | EnvelopeStage.idle => (0, e)
  | EnvelopeStage.attack =>
    let e1 := { e with envelopeVal := e.envelopeVal + e.attackRate }
    let e2 := if e1.envelopeVal ≥ 1 then ({ e1 with envelopeVal := 1 }).goToNextState else e1
    (e2.envelopeVal, e2)
  | EnvelopeStage.decay =>
    let e1 := { e with envelopeVal := e.envelopeVal - e.decayRate }
    let e2 :=
      if e1.envelopeVal ≤ e1.parameters.sustain then
        ({ e1 with envelopeVal := e1.parameters.sustain }).goToNextState
      else e1
    (e2.envelopeVal, e2)
  | EnvelopeStage.sustain =>
    (e.parameters.sustain, { e with envelopeVal := e.parameters.sustain })
  | EnvelopeStage.release =>
    let e1 := { e with envelopeVal := e.envelopeVal - e.releaseRate }
    let e2 := if e1.envelopeVal ≤ 0 then e1.goToNextState else e1
    (e2.envelopeVal, e2)

end Envelope

/-- A library instance with state, for the examples: the envelope is `Envelope`, the
filter is a one-pole low-pass that keeps its last output, and the oscillator keeps a phase
and a frequency and returns its input (so that the pitch is not modulated). -/
def statefulLibrary : VoiceLibrary :=
  { ADSR := Envelope, Filter := ℚ, Oscillator := ℚ × ℚ,
    adsrSetSampleRate := Envelope.setSampleRate,
    adsrSetParameters := Envelope.setParameters,
    adsrNoteOn := Envelope.noteOn,
    adsrNoteOff := Envelope.noteOff,
    adsrReset := Envelope.reset,
    adsrGetNextSample := Envelope.getNextSample,
    filterSetCutoffFrequency := fun s _ => s,
    filterSetResonance := fun s _ => s,
    filterProcessSample := fun s x => ((s + x) / 2, (s + x) / 2),
    lfoSetFrequency := fun s f => (s.1, f),
    lfoProcessSample := fun s x => (x, (s.1 + s.2, s.2)),
    pow := fun x y => if y = 0 then 1 else x ^ ⌊y⌋,
    pow_zero := fun _ => if_pos rfl }

end Wolf

namespace Wolf

/-! ## Example inputs -/

/-- A channel as constructed: zeroed array, both cursors at cell 0. -/
def emptyAtZero : VisualizerFIFO Nat :=
  { buffer := List.replicate 4096 0, fifo := { bufferSize := 4096, validStart := 0, validEnd := 0 } }

/-- An empty channel whose cursors stand two cells before the end of the array, so that
the next write wraps around. -/
def emptyNearEnd : VisualizerFIFO Nat :=
  { buffer := List.replicate 4096 0,
    fifo := { bufferSize := 4096, validStart := 4094, validEnd := 4094 } }

/-- A channel holding three unread samples across the end of the array. -/
def holdingThree : VisualizerFIFO Nat :=
  { buffer := List.replicate 4096 0,
    fifo := { bufferSize := 4096, validStart := 4094, validEnd := 1 } }

/-- An enabled sequencer at 44100 Hz with nothing held and nothing pending: rate
selector 0.5 (sixteenth notes), one octave, gate fraction 0.5. -/
def exampleArp : Arpeggiator :=
  { currentSampleRate := 44100, rateDiv := 1 / 2, arpMode := 0, numOctaves := 1,
    gateLength := 1 / 2, enabled := true, sortedNotes := [], currentStep := 0, noteTime := 0,
    activeNotes := [] }

/-- A sequencer at 48000 Hz, thirty-second notes, holding note 60, with no step time
accumulated. -/
def gridExampleArp : Arpeggiator :=
  { currentSampleRate := 48000, rateDiv := 1, arpMode := 0, numOctaves := 1,
    gateLength := 1 / 2, enabled := true, sortedNotes := [60], currentStep := 0, noteTime := 0,
    activeNotes := [] }

/-- A host reporting a tempo of 240 BPM: with `gridExampleArp` the step duration is
`60 / 240 * 48000 / 8 = 1500` samples. -/
def gridExamplePlayHead : Option AudioPlayHead :=
  some { position := some { bpm := some 240 } }

/-- A block in which note 60 is pressed and released at the same offset. -/
def pressAndRelease : MidiBuffer :=
  [{ message := MidiMessage.noteOn 1 60 100, samplePosition := 0 },
   { message := MidiMessage.noteOff 1 60, samplePosition := 0 }]

/-- A block in which MIDI note 0 is pressed at offset 0. -/
def pressNoteZero : MidiBuffer :=
  [{ message := MidiMessage.noteOn 1 0 100, samplePosition := 0 }]

/-- A block in which note 60 is pressed at offset 0, followed by a controller event. -/
def pressAndController : MidiBuffer :=
  [{ message := MidiMessage.noteOn 1 60 100, samplePosition := 0 },
   { message := MidiMessage.other [176, 1, 64], samplePosition := 10 }]

/-- Two later blocks: 2048 samples with the sequencer switched off, then 1024 samples
with it switched on again, both without input events. -/
def laterBlocks : List Arpeggiator.Block :=
  [{ rate := 1 / 2, mode := 0, octaves := 1, gate := 1 / 2, isOn := false, midiMessages := [],
     numSamples := 2048, playHead := none },
   { rate := 1 / 2, mode := 0, octaves := 1, gate := 1 / 2, isOn := true, midiMessages := [],
     numSamples := 1024, playHead := none }]

/-- The end-to-end chord scenario of the spec: a note-on (60, velocity 100) at offset 0. -/
def chordScenarioInput : MidiBuffer :=
  [{ message := MidiMessage.noteOn 1 60 100, samplePosition := 0 }]

/-- A sequencer that was switched off while two releases were pending. -/
def disabledArp : Arpeggiator :=
  { currentSampleRate := 44100, rateDiv := 1 / 2, arpMode := 0, numOctaves := 1,
    gateLength := 1 / 2, enabled := false, sortedNotes := [60], currentStep := 3, noteTime := 40,
    activeNotes := [{ noteNumber := 60, samplesRemaining := 10 },
                    { noteNumber := 64, samplesRemaining := 100 }] }

/-- A block in which note 72 is pressed at offset 5. -/
def pressSeventyTwo : MidiBuffer :=
  [{ message := MidiMessage.noteOn 1 72 90, samplePosition := 5 }]

/-- An enabled sequencer in the middle of an arpeggio over two octaves: note 120 held,
step index 1, a step due. -/
def highNoteArp : Arpeggiator :=
  { currentSampleRate := 44100, rateDiv := 1 / 2, arpMode := 0, numOctaves := 2,
    gateLength := 1 / 2, enabled := true, sortedNotes := [120], currentStep := 1,
    noteTime := 5513, activeNotes := [] }

/-- A library instance for the examples: an envelope that is constantly 1, a filter and an
oscillator that return their input, and integer powers for `pow`. -/
def exampleLibrary : VoiceLibrary :=
  { ADSR := Unit, Filter := Unit, Oscillator := Unit,
    adsrSetSampleRate := fun s _ => s,
    adsrSetParameters := fun s _ => s,
    adsrNoteOn := fun s => s,
    adsrNoteOff := fun s => s,
    adsrReset := fun s => s,
    adsrGetNextSample := fun s => (1, s),
    filterSetCutoffFrequency := fun s _ => s,
    filterSetResonance := fun s _ => s,
    filterProcessSample := fun s x => (x, s),
    lfoSetFrequency := fun s _ => s,
    lfoProcessSample := fun s x => (x, s),
    pow := fun x y => if y = 0 then 1 else x ^ ⌊y⌋,
    pow_zero := fun _ => if_pos rfl }

/-- A mono sound of four samples recorded at 44100 Hz with root note 60, not looping. -/
def exampleSound : HowlingSound :=
  { data := [[1, 2, 3, 4]], sourceSampleRate := 44100, midiNoteForNormalPitch := 60,
    attack := 0, release := 0, looping := false }

/-- A voice of an engine running at 44100 Hz that plays `exampleSound` from its start at
its original pitch. -/
def exampleVoice : HowlingVoice exampleLibrary :=
  { currentSampleRate := 44100, currentlyPlayingNote := 60,
    currentlyPlayingSound := some exampleSound, sourceSamplePosition := 0, pitchRatio := 1,
    level := 1, isLooping := false, lfoDepth := 0,
    adsrParams := { attack := 0, decay := 0, sustain := 1, release := 0 },
    adsr := (), filter := (), lfo := () }

/-- A mono output buffer of eight zero samples. -/
def silentBuffer : AudioBuffer ℚ :=
  [[0, 0, 0, 0, 0, 0, 0, 0]]

/-- A sequencer running at 100 Hz: a quarter note at 120 BPM lasts 50 samples. -/
def slowRateArp : Arpeggiator :=
  { currentSampleRate := 100, rateDiv := 0, arpMode := 0, numOctaves := 1,
    gateLength := 1 / 2, enabled := true, sortedNotes := [60], currentStep := 0, noteTime := 0,
    activeNotes := [] }

/-- An enabled sequencer holding note 60 with one release pending, for note 64. -/
def pendingArp : Arpeggiator :=
  { currentSampleRate := 44100, rateDiv := 1 / 2, arpMode := 0, numOctaves := 1,
    gateLength := 1 / 2, enabled := true, sortedNotes := [60], currentStep := 1, noteTime := 0,
    activeNotes := [{ noteNumber := 64, samplesRemaining := 10 }] }

/-- A block that holds an "all notes off" event at offset 0 and presses note 72 at
offset 5. -/
def panicThenPress : MidiBuffer :=
  [{ message := MidiMessage.allNotesOff 1, samplePosition := 0 },
   { message := MidiMessage.noteOn 1 72 90, samplePosition := 5 }]

/-- The block `pressAndController` with the note-on sent on channel 3 with velocity 1. -/
def pressSoftly : MidiBuffer :=
  [{ message := MidiMessage.noteOn 3 60 1, samplePosition := 0 },
   { message := MidiMessage.other [176, 1, 64], samplePosition := 10 }]

/-- A mono looping sound of four samples recorded at 44100 Hz with root note 60; its
release lasts two samples. -/
def loopingSound : HowlingSound :=
  { data := [[1, 2, 3, 4]], sourceSampleRate := 44100, midiNoteForNormalPitch := 60,
    attack := 0, release := 2 / 44100, looping := true }

/-- A sequencer at 44100 Hz whose rate selector is the value of the `float` literal
`0.1f`, which is above the decimal 0.1. -/
def floatTenthArp : Arpeggiator :=
  { currentSampleRate := 44100, rateDiv := 13421773 / 134217728, arpMode := 0, numOctaves := 1,
    gateLength := 1 / 2, enabled := true, sortedNotes := [], currentStep := 0, noteTime := 0,
    activeNotes := [] }

/-- An envelope as constructed: idle, value 0, sample rate 44100. -/
def restingEnvelope : Envelope :=
  { state := EnvelopeStage.idle,
    parameters := { attack := 0, decay := 0, sustain := 1, release := 0 },
    sampleRate := 44100, envelopeVal := 0, attackRate := -1, decayRate := -1, releaseRate := -1 }

/-- A voice of an engine running at 44100 Hz to which the synthesiser has bound
`loopingSound`, before `startNote` is called; the filter holds the value `x`. -/
def boundVoice (x : ℚ) : HowlingVoice statefulLibrary :=
  { currentSampleRate := 44100, currentlyPlayingNote := 60,
    currentlyPlayingSound := some loopingSound, sourceSamplePosition := 0, pitchRatio := 1,
    level := 0, isLooping := false, lfoDepth := 0,
    adsrParams := { attack := 0, decay := 0, sustain := 1, release := 0 },
    adsr := restingEnvelope, filter := x, lfo := (0, 0) }

/-- The voice `boundVoice 0` triggered with note 60 at full velocity. -/
def triggeredVoice : HowlingVoice statefulLibrary :=
  (boundVoice 0).startNote 60 1 (some loopingSound) 8192

/-- The envelope of the triggered example voice: it holds the value 1 in its sustain
stage, and its release rate is 1/2 per sample. -/
def sustainedEnvelope : Envelope :=
  { state := EnvelopeStage.sustain,
    parameters := { attack := 0, decay := 0, sustain := 1, release := 2 / 44100 },
    sampleRate := 44100, envelopeVal := 1, attackRate := -1, decayRate := -1,
    releaseRate := 1 / 2 }

end Wolf

/-! # Properties -/

namespace Wolf

/-! ## Lemmas on array copies -/

theorem getElem?_readRange {α : Type} (buf : List α) (start size i : Nat) :
    (readRange buf start size)[i]? = if i < size then buf[start + i]? else none := by
  unfold readRange
  rw [List.getElem?_take, List.getElem?_drop]

theorem length_readRange {α : Type} (buf : List α) (start size : Nat) :
    (readRange buf start size).length = min size (buf.length - start) := by
  unfold readRange
  simp

theorem getElem?_copyInto {α : Type} (dst src : List α) (start i : Nat)
    (h : start + src.length ≤ dst.length) :
    (copyInto dst start src)[i]? =
      if i < start then dst[i]?
      else if i < start + src.length then src[i - start]? else dst[i]? := by
  unfold copyInto
  have h1 : (List.take start dst).length = start := by simp; omega
  rw [List.append_assoc, List.getElem?_append, h1]
  split_ifs with h2 h3
  · rw [List.getElem?_take]; simp [h2]
  · rw [List.getElem?_append]
    have : i - start < src.length := by omega
    simp [this]
  · rw [List.getElem?_append]
    have : ¬ (i - start < src.length) := by omega
    simp only [this, if_false, List.getElem?_drop]
    congr 1; omega

theorem length_copyInto {α : Type} (dst src : List α) (start : Nat)
    (h : start + src.length ≤ dst.length) :
    (copyInto dst start src).length = dst.length := by
  unfold copyInto
  simp
  omega

end Wolf

namespace Wolf

theorem getElem?_congr {α : Type} {l : List α} {a b : Nat} (h : a = b) : l[a]? = l[b]? := by
  rw [h]

theorem copyInto_nil {α : Type} (dst : List α) (start : Nat) : copyInto dst start [] = dst := by
  simp [copyInto]

theorem copyInto_if {α : Type} (c : Int) (t buf : List α) (k st : Nat) :
    (if 0 < c then copyInto t k (readRange buf st c.toNat) else t) =
      copyInto t k (readRange buf st c.toNat) := by
  split_ifs with h
  · rfl
  · have : c.toNat = 0 := by omega
    rw [this]
    simp [readRange, copyInto]

theorem readRange_zero {α : Type} (buf : List α) (start : Nat) : readRange buf start 0 = [] := by
  simp [readRange]

namespace VisualizerFIFO

variable {α : Type}

/-- What `prepareToWrite` returns on a well-formed cursor state. -/
theorem prepareToWrite_spec (f : AbstractFifo) (n : Int) (hn : 0 ≤ n)
    (hs0 : 0 ≤ f.validStart) (hs1 : f.validStart < f.bufferSize)
    (he0 : 0 ≤ f.validEnd) (he1 : f.validEnd < f.bufferSize) :
    0 ≤ min n f.getFreeSpace ∧
    (f.prepareToWrite n).blockSize1 = min (f.bufferSize - f.validEnd) (min n f.getFreeSpace) ∧
    (f.prepareToWrite n).blockSize2 = min n f.getFreeSpace - (f.prepareToWrite n).blockSize1 ∧
    (0 < (f.prepareToWrite n).blockSize1 → (f.prepareToWrite n).startIndex1 = f.validEnd) ∧
    (f.prepareToWrite n).startIndex2 = 0 ∧
    (f.validStart ≤ f.validEnd →
      f.validEnd + min n f.getFreeSpace < f.validStart + f.bufferSize) ∧
    (f.validEnd < f.validStart → f.validEnd + min n f.getFreeSpace < f.validStart) ∧
    ((f.prepareToWrite n).startIndex1 = f.validEnd ∨ (f.prepareToWrite n).startIndex1 = 0) := by
  obtain ⟨bs, vs, ve⟩ := f
  simp only [AbstractFifo.prepareToWrite, AbstractFifo.getFreeSpace, AbstractFifo.getNumReady] at *
  by_cases h1 : vs ≤ ve
  · by_cases h2 : min n (bs - (ve - vs) - 1) ≤ 0
    · simp only [ge_iff_le, h1, h2, if_true]
      refine ⟨?_, ?_, ?_, ?_, ?_, ?_, ?_, ?_⟩ <;> intros <;> first | trivial | omega | exact Or.inl trivial | exact Or.inr trivial
    · by_cases h3 : min n (bs - (ve - vs) - 1) - min (bs - ve) (min n (bs - (ve - vs) - 1)) ≤ 0
      · simp only [ge_iff_le, h1, h2, h3, if_true, if_false]
        refine ⟨?_, ?_, ?_, ?_, ?_, ?_, ?_, ?_⟩ <;> intros <;> first | trivial | omega | exact Or.inl trivial
      · simp only [ge_iff_le, h1, h2, h3, if_true, if_false]
        refine ⟨?_, ?_, ?_, ?_, ?_, ?_, ?_, ?_⟩ <;> intros <;> first | trivial | omega | exact Or.inl trivial
  · by_cases h2 : min n (vs - ve - 1) ≤ 0
    · simp only [ge_iff_le, h1, h2, if_true, if_false]
      refine ⟨?_, ?_, ?_, ?_, ?_, ?_, ?_, ?_⟩ <;> intros <;> first | trivial | omega | exact Or.inl trivial | exact Or.inr trivial
    · by_cases h3 : min n (vs - ve - 1) - min (bs - ve) (min n (vs - ve - 1)) ≤ 0
      · simp only [ge_iff_le, h1, h2, h3, if_true, if_false]
        refine ⟨?_, ?_, ?_, ?_, ?_, ?_, ?_, ?_⟩ <;> intros <;> first | trivial | omega | exact Or.inl trivial
      · simp only [ge_iff_le, h1, h2, h3, if_true, if_false]
        refine ⟨?_, ?_, ?_, ?_, ?_, ?_, ?_, ?_⟩ <;> intros <;> first | trivial | omega

/-- What `prepareToRead` returns on a well-formed cursor state when asked for
everything that is ready. -/
theorem prepareToRead_spec (f : AbstractFifo)
    (hs0 : 0 ≤ f.validStart) (hs1 : f.validStart < f.bufferSize)
    (he0 : 0 ≤ f.validEnd) (he1 : f.validEnd < f.bufferSize) (hr : 0 < f.getNumReady) :
    (f.prepareToRead f.getNumReady).startIndex1 = f.validStart ∧
    (f.prepareToRead f.getNumReady).startIndex2 = 0 ∧
    (f.prepareToRead f.getNumReady).blockSize1 = min (f.bufferSize - f.validStart) f.getNumReady ∧
    (f.prepareToRead f.getNumReady).blockSize2 =
      f.getNumReady - (f.prepareToRead f.getNumReady).blockSize1 := by
  obtain ⟨bs, vs, ve⟩ := f
  simp only [AbstractFifo.prepareToRead, AbstractFifo.getNumReady] at *
  by_cases h1 : vs ≤ ve
  · simp only [ge_iff_le, h1, if_true, min_self] at hr ⊢
    have h2 : ¬ (ve - vs ≤ 0) := by omega
    by_cases h3 : ve - vs - min (bs - vs) (ve - vs) ≤ 0
    · simp only [h2, h3, if_true, if_false]
      refine ⟨?_, ?_, ?_, ?_⟩ <;> first | trivial | omega
    · simp only [h2, h3, if_true, if_false]
      refine ⟨?_, ?_, ?_, ?_⟩ <;> first | trivial | omega
  · simp only [ge_iff_le, h1, if_false, min_self] at hr ⊢
    have h2 : ¬ (bs - (vs - ve) ≤ 0) := by omega
    by_cases h3 : bs - (vs - ve) - min (bs - vs) (bs - (vs - ve)) ≤ 0
    · simp only [h2, h3, if_true, if_false]
      refine ⟨?_, ?_, ?_, ?_⟩ <;> first | trivial | omega
    · simp only [h2, h3, if_true, if_false]
      refine ⟨?_, ?_, ?_, ?_⟩ <;> first | trivial | omega

end VisualizerFIFO

end Wolf

namespace Wolf
namespace VisualizerFIFO

variable {α : Type}

/-- Index form of `unread`: the `i`-th unread sample sits `i` cells after the read
cursor, wrapping at `queueSize`. -/
theorem getElem?_unread (v : VisualizerFIFO α) (h : WF v) (i : Nat) :
    (unread v)[i]? =
      if (i : Int) < v.fifo.getNumReady then
        (if v.fifo.validStart.toNat + i < queueSize then v.buffer[v.fifo.validStart.toNat + i]?
         else v.buffer[v.fifo.validStart.toNat + i - queueSize]?)
      else none := by
  obtain ⟨buf, ⟨bs, vs, ve⟩⟩ := v
  obtain ⟨hb, hbs, h1, h2, h3, h4⟩ := h
  simp only at hb hbs h1 h2 h3 h4
  subst hbs
  lift vs to ℕ using h1
  lift ve to ℕ using h3
  simp only [unread, AbstractFifo.getNumReady, Int.toNat_ofNat, queueSize] at *
  by_cases hc : vs ≤ ve
  · have hc' : (vs : Int) ≤ ve := by omega
    simp only [ge_iff_le, hc, hc', if_true, getElem?_readRange]
    split_ifs <;> first | omega | exact getElem?_congr (by omega) | exact rfl
  · have hc' : ¬ ((vs : Int) ≤ ve) := by omega
    simp only [ge_iff_le, hc, hc', if_false, List.getElem?_append, length_readRange,
      getElem?_readRange, hb]
    split_ifs <;> first | omega | exact getElem?_congr (by omega) | exact rfl

end VisualizerFIFO
end Wolf

namespace Wolf
namespace VisualizerFIFO

variable {α : Type}

theorem getNumReady_bounds (v : VisualizerFIFO α) (h : WF v) :
    0 ≤ v.fifo.getNumReady ∧ v.fifo.getNumReady < queueSize := by
  obtain ⟨buf, ⟨bs, vs, ve⟩⟩ := v
  obtain ⟨hb, hbs, h1, h2, h3, h4⟩ := h
  simp only [AbstractFifo.getNumReady, queueSize] at *
  subst hbs
  split_ifs <;> omega

theorem length_unread (v : VisualizerFIFO α) (h : WF v) :
    ((unread v).length : Int) = v.fifo.getNumReady := by
  obtain ⟨buf, ⟨bs, vs, ve⟩⟩ := v
  obtain ⟨hb, hbs, h1, h2, h3, h4⟩ := h
  simp only [unread, AbstractFifo.getNumReady, queueSize] at *
  subst hbs
  lift vs to ℕ using h1
  lift ve to ℕ using h3
  simp only [Int.toNat_ofNat]
  by_cases hc : vs ≤ ve
  · have hc' : (vs : Int) ≤ ve := by omega
    simp only [ge_iff_le, hc, hc', if_true, length_readRange, hb]
    omega
  · have hc' : ¬ ((vs : Int) ≤ ve) := by omega
    simp only [ge_iff_le, hc, hc', if_false, length_readRange, hb, List.length_append]
    omega

/-- The whole effect of `pop` on a well-formed channel: the destination receives the
unread samples and the read cursor catches up with the write cursor. -/
theorem pop_spec [Zero α] (v : VisualizerFIFO α) (h : WF v) (d : List α) :
    pop v d =
      ({ buffer := v.buffer,
         fifo := { bufferSize := queueSize, validStart := v.fifo.validEnd,
                   validEnd := v.fifo.validEnd } },
       d ++ unread v) := by
  have hr := getNumReady_bounds v h
  have hlen := length_unread v h
  have hget := getElem?_unread v h
  obtain ⟨hb, hbs, h1, h2, h3, h4⟩ := h
  by_cases hpos : 0 < v.fifo.getNumReady
  · obtain ⟨p1, p2, p3, p4⟩ := prepareToRead_spec v.fifo h1 (by omega) h3 (by omega) hpos
    have q1 : 0 < (v.fifo.prepareToRead v.fifo.getNumReady).blockSize1 := by omega
    simp only [pop, gt_iff_lt, hpos, if_true, p1, p2, q1, copyInto_if]
    generalize (v.fifo.prepareToRead v.fifo.getNumReady).blockSize1 = b1 at *
    generalize (v.fifo.prepareToRead v.fifo.getNumReady).blockSize2 = b2 at *
    have hnr : v.fifo.getNumReady =
        if v.fifo.validStart ≤ v.fifo.validEnd then v.fifo.validEnd - v.fifo.validStart
        else v.fifo.bufferSize - (v.fifo.validStart - v.fifo.validEnd) := by
      simp [AbstractFifo.getNumReady]
    generalize v.fifo.getNumReady = n at *
    obtain ⟨buf, ⟨bs, vs, ve⟩⟩ := v
    simp only [queueSize] at *
    subst hbs
    have hsum : b1 + b2 = n := by omega
    have hb2 : 0 ≤ b2 := by omega
    have hend : (if vs + (b1 + b2) ≥ ((4096 : ℕ) : ℤ) then vs + (b1 + b2) - ((4096 : ℕ) : ℤ)
        else vs + (b1 + b2)) = ve := by
      rw [hsum, hnr]; split_ifs <;> omega
    clear hnr p1 p2 p4 hr
    lift vs to ℕ using h1
    lift n to ℕ using (by omega)
    lift b1 to ℕ using (by omega)
    lift b2 to ℕ using hb2
    simp only [Int.toNat_ofNat, Int.toNat_zero] at *
    refine Prod.ext ?_ ?_
    · simp only [AbstractFifo.finishedRead, hend]
    · simp only
      congr 1
      have l1 : (readRange buf vs b1).length = b1 := by
        rw [length_readRange, hb]; omega
      have l2 : (readRange buf 0 b2).length = b2 := by
        rw [length_readRange, hb]; omega
      have l3 : (copyInto (List.replicate n (0 : α)) 0 (readRange buf vs b1)).length = n := by
        rw [length_copyInto]
        · simp
        · rw [l1]; simp; omega
      apply List.ext_getElem?
      intro i
      rw [hget i, getElem?_copyInto _ _ _ _ (by rw [l3, l2]; omega),
        getElem?_copyInto _ _ _ _ (by rw [l1]; simp; omega), l1, l2]
      simp only [getElem?_readRange, List.getElem?_replicate, Nat.not_lt_zero, if_false,
        Nat.zero_add, Nat.sub_zero]
      clear hget hlen l1 l2 l3 hend
      by_cases c1 : i < b1
      · have c2 : (i : Int) < n := by omega
        have c3 : vs + i < 4096 := by omega
        simp only [c1, c2, c3, if_true]
      · by_cases c2 : i < b1 + b2
        · have c3 : i - b1 < b2 := by omega
          have c4 : (i : Int) < n := by omega
          have c5 : ¬ (vs + i < 4096) := by omega
          simp only [c1, c2, c3, c4, c5, if_true, if_false]
          exact getElem?_congr (by omega)
        · have c4 : ¬ ((i : Int) < n) := by omega
          have c5 : ¬ (i < n) := by omega
          simp only [c1, c2, c4, c5, if_false]
  · have hz : v.fifo.getNumReady = 0 := by omega
    have hu : unread v = [] := by
      apply List.eq_nil_of_length_eq_zero
      omega
    simp only [pop, gt_iff_lt, hpos, if_false, hu, List.append_nil]
    obtain ⟨buf, ⟨bs, vs, ve⟩⟩ := v
    simp only [AbstractFifo.getNumReady, queueSize] at *
    subst hbs
    have : vs = ve := by
      split_ifs at hz <;> omega
    subst this
    rfl

end VisualizerFIFO
end Wolf

namespace Wolf
namespace VisualizerFIFO

variable {α : Type}

/-- Contents of the array after the two copies of `push`: a cell holds a new sample
exactly when its ring distance from the write cursor is below the number written. -/
theorem getElem?_written (buf x : List α) (s1 b1 b2 ve w j : Nat)
    (hb : buf.length = 4096) (hve : ve < 4096) (hw : w < 4096) (hx : w ≤ x.length)
    (h1 : b1 = min (4096 - ve) w) (h2 : b1 + b2 = w) (h3 : 0 < b1 → s1 = ve)
    (h4 : s1 = ve ∨ s1 = 0) (hj : j < 4096) :
    (copyInto (copyInto buf s1 (readRange x 0 b1)) 0 (readRange x b1 b2))[j]? =
      if (if ve ≤ j then j - ve else j + 4096 - ve) < w then
        x[if ve ≤ j then j - ve else j + 4096 - ve]?
      else buf[j]? := by
  have l1 : (readRange x 0 b1).length = b1 := by
    rw [length_readRange]; omega
  have l2 : (readRange x b1 b2).length = b2 := by
    rw [length_readRange]; omega
  have hs1 : s1 + b1 ≤ 4096 := by
    rcases h4 with h4 | h4 <;> omega
  have l3 : (copyInto buf s1 (readRange x 0 b1)).length = 4096 := by
    rw [length_copyInto _ _ _ (by rw [l1, hb]; exact hs1), hb]
  rw [getElem?_copyInto _ _ _ _ (by rw [l2, l3]; omega),
    getElem?_copyInto _ _ _ _ (by rw [l1, hb]; exact hs1), l1, l2]
  simp only [getElem?_readRange, Nat.not_lt_zero, if_false, Nat.zero_add, Nat.sub_zero]
  clear l1 l2 l3 hb hx
  by_cases hb1 : 0 < b1
  · have := h3 hb1
    subst this
    clear h3 h4
    by_cases c1 : j < b2
    · have c2 : ¬ (s1 ≤ j) := by omega
      have c3 : j + 4096 - s1 < w := by omega
      simp only [c1, c2, c3, if_true, if_false]
      exact getElem?_congr (by omega)
    · by_cases c2 : j < s1
      · have c3 : ¬ (s1 ≤ j) := by omega
        have c4 : ¬ (j + 4096 - s1 < w) := by omega
        simp only [c1, c2, c3, c4, if_true, if_false]
      · have c3 : s1 ≤ j := by omega
        by_cases c4 : j < s1 + b1
        · have c5 : j - s1 < b1 := by omega
          have c6 : j - s1 < w := by omega
          simp only [c1, c2, c3, c4, c5, c6, if_true, if_false]
        · have c6 : ¬ (j - s1 < w) := by omega
          simp only [c1, c2, c3, c4, c6, if_true, if_false]
  · have e1 : b1 = 0 := by omega
    have e3 : w = 0 := by omega
    have e2 : b2 = 0 := by omega
    subst e1 e2 e3
    simp only [Nat.not_lt_zero, if_false, Nat.add_zero]
    split_ifs <;> rfl

/-- Reading the ring from the read cursor after such a write yields the old unread
samples followed by the new ones. -/
theorem ring_read_written (buf buf2 x : List α) (vs ve n w i : Nat)
    (hvs : vs < 4096) (hve : ve < 4096) (hn : n + w < 4096)
    (hring : ve = if vs + n < 4096 then vs + n else vs + n - 4096)
    (hA : ∀ j : Nat, j < 4096 → buf2[j]? =
        if (if ve ≤ j then j - ve else j + 4096 - ve) < w then
          x[if ve ≤ j then j - ve else j + 4096 - ve]?
        else buf[j]?) :
    (if i < n + w then
        (if vs + i < 4096 then buf2[vs + i]? else buf2[vs + i - 4096]?)
      else none) =
    if i < n then (if vs + i < 4096 then buf[vs + i]? else buf[vs + i - 4096]?)
    else if i - n < w then x[i - n]? else none := by
  by_cases hi : i < n + w
  · rw [if_pos hi]
    by_cases hj : vs + i < 4096
    · rw [if_pos hj, hA _ hj]
      by_cases c1 : i < n
      · have c2 : ¬ ((if ve ≤ vs + i then vs + i - ve else vs + i + 4096 - ve) < w) := by
          split_ifs at hring ⊢ <;> omega
        rw [if_neg c2, if_pos c1, if_pos hj]
      · have c2 : (if ve ≤ vs + i then vs + i - ve else vs + i + 4096 - ve) = i - n := by
          split_ifs at hring ⊢ <;> omega
        have c3 : i - n < w := by omega
        rw [c2, if_pos c3, if_neg c1, if_pos c3]
    · rw [if_neg hj, hA _ (by omega)]
      by_cases c1 : i < n
      · have c2 : ¬ ((if ve ≤ vs + i - 4096 then vs + i - 4096 - ve
            else vs + i - 4096 + 4096 - ve) < w) := by
          split_ifs at hring ⊢ <;> omega
        rw [if_neg c2, if_pos c1, if_neg hj]
      · have c2 : (if ve ≤ vs + i - 4096 then vs + i - 4096 - ve
            else vs + i - 4096 + 4096 - ve) = i - n := by
          split_ifs at hring ⊢ <;> omega
        have c3 : i - n < w := by omega
        rw [c2, if_pos c3, if_neg c1, if_pos c3]
  · rw [if_neg hi]
    have c1 : ¬ (i < n) := by omega
    have c3 : ¬ (i - n < w) := by omega
    rw [if_neg c1, if_neg c3]

/-- The whole effect of `push` on a well-formed channel: the state stays well-formed,
the read cursor does not move, and the unread samples are extended by the longest
prefix of channel 0 that fits the free space reported by the cursor object. -/
theorem push_spec (v : VisualizerFIFO α) (h : WF v) (x : List α) (rest : List (List α)) :
    WF (push v (x :: rest)) ∧
    (push v (x :: rest)).fifo.getNumReady =
      v.fifo.getNumReady + min (x.length : Int) v.fifo.getFreeSpace ∧
    unread (push v (x :: rest)) =
      unread v ++ x.take (min (x.length : Int) v.fifo.getFreeSpace).toNat := by
  have hr := getNumReady_bounds v h
  have hlen := length_unread v h
  have hget := getElem?_unread v h
  obtain ⟨hb, hbs, h1, h2, h3, h4⟩ := h
  obtain ⟨w0, p1, p2, p3, p4, p5, p6, p7⟩ :=
    prepareToWrite_spec v.fifo x.length (by omega) h1 (by omega) h3 (by omega)
  have hfree : v.fifo.getFreeSpace = v.fifo.bufferSize - v.fifo.getNumReady - 1 := rfl
  have hnr : v.fifo.getNumReady =
      if v.fifo.validStart ≤ v.fifo.validEnd then v.fifo.validEnd - v.fifo.validStart
      else v.fifo.bufferSize - (v.fifo.validStart - v.fifo.validEnd) := by
    simp [AbstractFifo.getNumReady]
  have hpush : push v (x :: rest) =
      { buffer := copyInto (copyInto v.buffer (v.fifo.prepareToWrite x.length).startIndex1.toNat
            (readRange x 0 (v.fifo.prepareToWrite x.length).blockSize1.toNat)) 0
            (readRange x (v.fifo.prepareToWrite x.length).blockSize1.toNat
              (v.fifo.prepareToWrite x.length).blockSize2.toNat),
        fifo := v.fifo.finishedWrite ((v.fifo.prepareToWrite x.length).blockSize1 +
            (v.fifo.prepareToWrite x.length).blockSize2) } := by
    simp only [push, gt_iff_lt, copyInto_if, p4, Int.toNat_zero]
  rw [hpush]
  clear hpush p4
  generalize (v.fifo.prepareToWrite x.length).blockSize1 = b1 at *
  generalize (v.fifo.prepareToWrite x.length).blockSize2 = b2 at *
  generalize (v.fifo.prepareToWrite x.length).startIndex1 = s1 at *
  generalize hw : min (x.length : Int) v.fifo.getFreeSpace = w at *
  generalize v.fifo.getNumReady = n at *
  generalize v.fifo.getFreeSpace = fr at *
  generalize hL : x.length = L at *
  obtain ⟨buf, ⟨bs, vs, ve⟩⟩ := v
  simp only [queueSize] at *
  subst hbs
  -- all quantities are natural numbers
  have hn0 : 0 ≤ n := hr.1
  have hb1 : 0 ≤ b1 := by rw [p1]; omega
  have hb2 : 0 ≤ b2 := by rw [p2, p1]; omega
  have hs0 : 0 ≤ s1 := by rcases p7 with e | e <;> omega
  have hwL : w ≤ L := by rw [← hw]; omega
  have hnw : n + w < 4096 := by rw [← hw, hfree]; omega
  have hring : ve = if vs + n < 4096 then vs + n else vs + n - 4096 := by
    rw [hnr]; split_ifs <;> omega
  have hsum : b1 + b2 = w := by omega
  clear hw hfree hnr p5 p6 p2 hr
  lift vs to ℕ using h1
  lift ve to ℕ using h3
  lift n to ℕ using hn0
  lift w to ℕ using w0
  lift b1 to ℕ using hb1
  lift b2 to ℕ using hb2
  lift s1 to ℕ using hs0
  simp only [Int.toNat_ofNat] at *
  have hring' : ve = if vs + n < 4096 then vs + n else vs + n - 4096 := by
    split_ifs at hring ⊢ <;> omega
  have hA := fun j => getElem?_written buf x s1 b1 b2 ve w j
    hb (by omega) (by omega) (by omega) (by omega)
    (by omega) (fun hh => by have := p3 (by omega); omega) (by omega)
  have hs1 : s1 + b1 ≤ 4096 := by rcases p7 with e | e <;> omega
  have l1 : (readRange x 0 b1).length = b1 := by
    rw [length_readRange]; omega
  have l2 : (readRange x b1 b2).length = b2 := by
    rw [length_readRange]; omega
  have l3 : (copyInto buf s1 (readRange x 0 b1)).length = 4096 := by
    rw [length_copyInto _ _ _ (by rw [l1, hb]; exact hs1), hb]
  have l4 : (copyInto (copyInto buf s1 (readRange x 0 b1)) 0 (readRange x b1 b2)).length =
      4096 := by
    rw [length_copyInto _ _ _ (by rw [l2, l3]; omega), l3]
  clear p1 p3 p7 l1 l2 l3 hs1
  have hve' : (if (ve : Int) + (↑b1 + ↑b2) ≥ ((4096 : ℕ) : ℤ) then
      (ve : Int) + (↑b1 + ↑b2) - ((4096 : ℕ) : ℤ) else (ve : Int) + (↑b1 + ↑b2)) =
      ((if ve + w < 4096 then ve + w else ve + w - 4096 : ℕ) : ℤ) := by
    split_ifs <;> omega
  have hwf : WF (⟨copyInto (copyInto buf s1 (readRange x 0 b1)) 0 (readRange x b1 b2),
      AbstractFifo.finishedWrite ⟨((4096 : ℕ) : ℤ), vs, ve⟩ (↑b1 + ↑b2)⟩ : VisualizerFIFO α) := by
    simp only [AbstractFifo.finishedWrite, hve']
    refine ⟨l4, rfl, Int.natCast_nonneg _, h2, Int.natCast_nonneg _, ?_⟩
    simp only [queueSize]
    split_ifs <;> omega
  have hnum : (AbstractFifo.finishedWrite ⟨((4096 : ℕ) : ℤ), vs, ve⟩ (↑b1 + ↑b2)).getNumReady =
      (n : Int) + w := by
    simp only [AbstractFifo.finishedWrite, hve', AbstractFifo.getNumReady]
    split_ifs at hring ⊢ <;> omega
  refine ⟨hwf, hnum, ?_⟩
  have hlen' : (unread ⟨buf, ⟨((4096 : ℕ) : ℤ), vs, ve⟩⟩).length = n := by omega
  apply List.ext_getElem?
  intro i
  rw [getElem?_unread _ hwf, hnum, List.getElem?_append, hget i, hlen', List.getElem?_take]
  simp only [queueSize, AbstractFifo.finishedWrite, Int.toNat_ofNat]
  have key := ring_read_written buf
    (copyInto (copyInto buf s1 (readRange x 0 b1)) 0 (readRange x b1 b2)) x vs ve n
    w i (by omega) (by omega) (by omega) hring' hA
  have e1 : ((i : Int) < (n : Int) + w) = (i < n + w) := by
    apply propext; constructor <;> intro hh <;> omega
  have e2 : ((i : Int) < n) = (i < n) := by
    apply propext; constructor <;> intro hh <;> omega
  simp only [e1, e2]
  rw [key]
  split_ifs <;> rfl

end VisualizerFIFO
end Wolf

namespace Wolf
namespace VisualizerFIFO

variable {α : Type}

/-- An empty channel is one whose cursors coincide. -/
theorem unread_eq_nil_iff (v : VisualizerFIFO α) (h : WF v) :
    unread v = [] ↔ v.fifo.validStart = v.fifo.validEnd := by
  have hlen := length_unread v h
  obtain ⟨hb, hbs, h1, h2, h3, h4⟩ := h
  have hnr : v.fifo.getNumReady =
      if v.fifo.validStart ≤ v.fifo.validEnd then v.fifo.validEnd - v.fifo.validStart
      else v.fifo.bufferSize - (v.fifo.validStart - v.fifo.validEnd) := by
    simp [AbstractFifo.getNumReady]
  rw [hbs] at hnr
  simp only [queueSize] at *
  constructor
  · intro hu
    rw [hu] at hlen
    simp only [List.length_nil, Nat.cast_zero] at hlen
    split_ifs at hnr <;> omega
  · intro he
    apply List.eq_nil_of_length_eq_zero
    split_ifs at hnr <;> omega

/-- Free space of a well-formed channel in terms of its unread samples. -/
theorem getFreeSpace_eq (v : VisualizerFIFO α) (h : WF v) :
    v.fifo.getFreeSpace = (queueSize : Int) - (unread v).length - 1 := by
  rw [length_unread v h, AbstractFifo.getFreeSpace, h.2.1]

/-- A push followed by a pop appends to the destination the old unread samples and then
the accepted prefix of the pushed samples. -/
theorem pop_push [Zero α] (v : VisualizerFIFO α) (h : WF v) (x d : List α)
    (rest : List (List α)) :
    (pop (push v (x :: rest)) d).2 =
      d ++ (unread v ++ x.take (min (x.length : Int) v.fifo.getFreeSpace).toNat) := by
  obtain ⟨hwf, _, hun⟩ := push_spec v h x rest
  rw [pop_spec _ hwf, hun]

end VisualizerFIFO
end Wolf

namespace Wolf

/-! ## Lemmas on `addEvent` -/

theorem addEvent_eq_append (buf : MidiBuffer) (msg : MidiMessage) (pos : Int)
    (h : ∀ e ∈ buf, e.samplePosition ≤ pos) : addEvent buf msg pos = buf ++ [⟨msg, pos⟩] := by
  induction buf with
  | nil => rfl
  | cons e rest ih =>
    have h1 : e.samplePosition ≤ pos := h e (List.mem_cons_self _ _)
    have h2 : ∀ e' ∈ rest, e'.samplePosition ≤ pos := fun e' he' =>
      h e' (List.mem_cons_of_mem _ he')
    simp only [addEvent, h1, if_true, ih h2, List.cons_append]

namespace ChordEngine

/-- On an accumulator whose offsets do not exceed the event's offset, one loop
iteration appends the spec's replacement of the event. -/
theorem processEvent_eq_append (mode : Int) (hm : mode = 1 ∨ mode = 2 ∨ mode = 3 ∨ mode = 4)
    (acc : MidiBuffer) (e : MidiEvent) (h : ∀ a ∈ acc, a.samplePosition ≤ e.samplePosition) :
    processEvent mode acc e = acc ++ expandEventSpec mode e := by
  obtain ⟨msg, pos⟩ := e
  have step : ∀ (b : MidiBuffer) (m : MidiMessage), (∀ a ∈ b, a.samplePosition ≤ pos) →
      addEvent b m pos = b ++ [⟨m, pos⟩] ∧ ∀ a ∈ b ++ [⟨m, pos⟩], a.samplePosition ≤ pos := by
    intro b m hb
    refine ⟨addEvent_eq_append b m pos hb, ?_⟩
    intro a ha
    rcases List.mem_append.mp ha with ha | ha
    · exact hb a ha
    · simp only [List.mem_singleton] at ha
      rw [ha]
  have chain : ∀ (mk : Int → MidiMessage) (n : Int) (ds : List Int) (b : MidiBuffer),
      (∀ a ∈ b, a.samplePosition ≤ pos) →
      ds.foldl (fun b d => addEvent b (mk (n + d)) pos) b =
        b ++ ds.map (fun d => (⟨mk (n + d), pos⟩ : MidiEvent)) := by
    intro mk n ds
    induction ds with
    | nil => intro b _; simp
    | cons d ds ih =>
      intro b hb
      obtain ⟨e1, h1⟩ := step b (mk (n + d)) hb
      simp only [List.foldl_cons, List.map_cons, e1, ih _ h1, List.append_assoc,
        List.singleton_append]
  cases msg with
  | noteOn c n v =>
    have hc := chain (fun k => MidiMessage.noteOn 1 k v) n (chordDegrees mode) acc h
    rcases hm with rfl | rfl | rfl | rfl <;>
    simpa [processEvent, expandEventSpec, chordDegrees, addNote, MidiMessage.isNoteOn,
      MidiMessage.isNoteOff, MidiMessage.getNoteNumber, MidiMessage.getVelocity] using hc
  | noteOff c n =>
    have hc := chain (fun k => MidiMessage.noteOff 1 k) n (chordDegrees mode) acc h
    rcases hm with rfl | rfl | rfl | rfl <;>
    simpa [processEvent, expandEventSpec, chordDegrees, addNote, MidiMessage.isNoteOn,
      MidiMessage.isNoteOff, MidiMessage.getNoteNumber, MidiMessage.getVelocity] using hc
  | allNotesOff c =>
    simp only [processEvent, MidiMessage.isNoteOn, MidiMessage.isNoteOff, Bool.or_self,
      Bool.false_eq_true, if_false, expandEventSpec]
    exact (step acc _ h).1
  | other d =>
    simp only [processEvent, MidiMessage.isNoteOn, MidiMessage.isNoteOff, Bool.or_self,
      Bool.false_eq_true, if_false, expandEventSpec]
    exact (step acc _ h).1

/-- Every event the spec puts in place of `e` keeps the offset of `e`. -/
theorem samplePosition_expandEventSpec (mode : Int) (e a : MidiEvent)
    (h : a ∈ expandEventSpec mode e) : a.samplePosition = e.samplePosition := by
  obtain ⟨msg, pos⟩ := e
  cases msg <;> simp only [expandEventSpec, List.mem_map, List.mem_singleton] at h
  · obtain ⟨d, _, rfl⟩ := h; rfl
  · obtain ⟨d, _, rfl⟩ := h; rfl
  · rw [h]
  · rw [h]

/-- The loop of `ChordEngine::process` over an offset-sorted input, started from an
accumulator that lies before the input. -/
theorem foldl_processEvent (mode : Int) (hm : mode = 1 ∨ mode = 2 ∨ mode = 3 ∨ mode = 4)
    (input : MidiBuffer) (hs : OffsetSorted input) (acc : MidiBuffer)
    (h : ∀ a ∈ acc, ∀ e ∈ input, a.samplePosition ≤ e.samplePosition) :
    input.foldl (processEvent mode) acc = acc ++ input.flatMap (expandEventSpec mode) := by
  induction input generalizing acc with
  | nil => simp
  | cons e rest ih =>
    have hs' := List.pairwise_cons.mp hs
    have he : ∀ a ∈ acc, a.samplePosition ≤ e.samplePosition := fun a ha =>
      h a ha e (List.mem_cons_self _ _)
    rw [List.foldl_cons, processEvent_eq_append mode hm acc e he, ih hs'.2, List.flatMap_cons,
      List.append_assoc]
    intro a ha e' he'
    rcases List.mem_append.mp ha with ha | ha
    · exact h a ha e' (List.mem_cons_of_mem _ he')
    · rw [samplePosition_expandEventSpec mode e a ha]
      exact hs'.1 e' he'

end ChordEngine
end Wolf

/-! ## Claims on the visualizer FIFO and the chord engine -/

namespace Wolf

theorem WF_replicate (vs ve : Int) (h1 : 0 ≤ vs) (h2 : vs < 4096) (h3 : 0 ≤ ve)
    (h4 : ve < 4096) :
    VisualizerFIFO.WF (⟨List.replicate 4096 0, ⟨4096, vs, ve⟩⟩ : VisualizerFIFO Nat) := by
  exact ⟨List.length_replicate _ _, rfl, h1, h2, h3, h4⟩

/-- C1: for the chord modes major, minor, seventh and ninth (chordMode 1..4) and every
input buffer (a `MidiBuffer` is in offset order), `ChordEngine::process` outputs exactly
the input with each note-on / note-off for `root` replaced, in input order, by one event
of the same kind per chord tone (root first) at the original offset and velocity, every
other event being kept unchanged. -/
theorem C1_chord_expansion (c : ChordEngine)
    (hm : c.chordMode = 1 ∨ c.chordMode = 2 ∨ c.chordMode = 3 ∨ c.chordMode = 4)
    (input : MidiBuffer) (hs : OffsetSorted input) :
    c.process input = input.flatMap (ChordEngine.expandEventSpec c.chordMode) := by
  have h0 : c.chordMode ≠ 0 := by omega
  simp only [ChordEngine.process, h0, if_false]
  simpa using ChordEngine.foldl_processEvent c.chordMode hm input hs [] (by simp)

/-- C1, the scenario of the spec: note-on (60, 100) at offset 0 in mode major yields
note-ons 60, 64, 67 with velocity 100 at offset 0. -/
theorem C1_chord_expansion_witness :
    ChordEngine.process { chordMode := 1 } chordScenarioInput =
      [{ message := MidiMessage.noteOn 1 60 100, samplePosition := 0 },
       { message := MidiMessage.noteOn 1 64 100, samplePosition := 0 },
       { message := MidiMessage.noteOn 1 67 100, samplePosition := 0 }] :=
  (C1_chord_expansion { chordMode := 1 } (Or.inl rfl) chordScenarioInput (by decide)).trans
    (by decide)

/-- C4 (as amended): on an empty channel, cursors at any position, a push of at most
`queueSize - 1 = 4095` samples followed by one pop into an empty destination returns
exactly the pushed samples, in order. -/
theorem C4_push_pop_roundtrip {α : Type} [Zero α] (v : VisualizerFIFO α)
    (h : VisualizerFIFO.WF v) (he : v.fifo.validStart = v.fifo.validEnd)
    (x : List α) (rest : List (List α)) (hx : x.length ≤ queueSize - 1) :
    (VisualizerFIFO.pop (VisualizerFIFO.push v (x :: rest)) []).2 = x := by
  have hu := (VisualizerFIFO.unread_eq_nil_iff v h).mpr he
  have hf := VisualizerFIFO.getFreeSpace_eq v h
  rw [VisualizerFIFO.pop_push v h, hu, hf, hu]
  simp only [List.nil_append, List.length_nil, queueSize] at *
  apply List.take_of_length_le
  omega

/-- C4 (as amended), on a write that wraps around the end of the array. -/
theorem C4_push_pop_roundtrip_witness :
    VisualizerFIFO.WF emptyNearEnd ∧
    emptyNearEnd.fifo.validStart = emptyNearEnd.fifo.validEnd ∧
    [1, 2, 3, 4, 5].length ≤ queueSize - 1 ∧
    (VisualizerFIFO.pop (VisualizerFIFO.push emptyNearEnd [[1, 2, 3, 4, 5]]) []).2 =
      [1, 2, 3, 4, 5] :=
  ⟨WF_replicate 4094 4094 (by decide) (by decide) (by decide) (by decide), rfl, by decide,
    C4_push_pop_roundtrip emptyNearEnd
      (WF_replicate 4094 4094 (by decide) (by decide) (by decide) (by decide)) rfl
      [1, 2, 3, 4, 5] [] (by decide)⟩

/-- C4 fails as stated: pushing `queueSize = 4096` samples into the empty channel and
popping does not return the pushed samples (only the first 4095 are accepted). -/
theorem C4_counterexample :
    (List.replicate 4096 1).length ≤ queueSize ∧
    (VisualizerFIFO.pop (VisualizerFIFO.push emptyAtZero [List.replicate 4096 1]) []).2 ≠
      List.replicate 4096 1 := by
  have hwf : VisualizerFIFO.WF emptyAtZero :=
    WF_replicate 0 0 (by decide) (by decide) (by decide) (by decide)
  have hu : VisualizerFIFO.unread emptyAtZero = [] :=
    (VisualizerFIFO.unread_eq_nil_iff _ hwf).mpr rfl
  have hf : emptyAtZero.fifo.getFreeSpace = 4095 := by decide
  refine ⟨by rw [List.length_replicate]; decide, ?_⟩
  rw [VisualizerFIFO.pop_push emptyAtZero hwf, hu, hf]
  intro hc
  have hl := congrArg List.length hc
  rw [List.nil_append, List.nil_append, List.length_take, List.length_replicate] at hl
  omega

end Wolf

namespace Wolf

/-- C5: a push into a channel holding the unread samples `u` leaves the channel holding
`u` followed by the first `min |x| free` samples of the pushed sequence `x`, where
`free` is the free space the cursor object reports before the push
(`queueSize - 1 - |u|`); unread samples are neither overwritten nor reordered, only
excess new samples are dropped, and the number of unread samples stays below
`queueSize`. -/
theorem C5_push_keeps_unread {α : Type} (v : VisualizerFIFO α) (h : VisualizerFIFO.WF v)
    (x : List α) (rest : List (List α)) :
    VisualizerFIFO.unread (VisualizerFIFO.push v (x :: rest)) =
      VisualizerFIFO.unread v ++ x.take (min (x.length : Int) v.fifo.getFreeSpace).toNat ∧
    v.fifo.getFreeSpace = (queueSize : Int) - (VisualizerFIFO.unread v).length - 1 ∧
    (VisualizerFIFO.unread (VisualizerFIFO.push v (x :: rest))).length ≤ queueSize ∧
    VisualizerFIFO.WF (VisualizerFIFO.push v (x :: rest)) := by
  obtain ⟨hwf, hnum, hun⟩ := VisualizerFIFO.push_spec v h x rest
  refine ⟨hun, VisualizerFIFO.getFreeSpace_eq v h, ?_, hwf⟩
  have h1 := VisualizerFIFO.length_unread _ hwf
  have h2 := VisualizerFIFO.getNumReady_bounds _ hwf
  omega

/-- C5 on a channel that holds three samples across the end of the array. -/
theorem C5_push_keeps_unread_witness :
    VisualizerFIFO.WF holdingThree ∧
    VisualizerFIFO.unread (VisualizerFIFO.push holdingThree [[8, 9]]) =
      VisualizerFIFO.unread holdingThree ++
        [8, 9].take (min (([8, 9] : List Nat).length : Int) holdingThree.fifo.getFreeSpace).toNat :=
  ⟨WF_replicate 4094 1 (by decide) (by decide) (by decide) (by decide),
    (C5_push_keeps_unread holdingThree
      (WF_replicate 4094 1 (by decide) (by decide) (by decide) (by decide)) [8, 9] []).1⟩

/-- C6 (as amended): for every `K > 0`, pushing `queueSize + K` samples into an empty
channel and then popping reads back exactly `queueSize - 1 = 4095` samples, and they
are the first 4095 samples of the input; the excess at the end of the input is dropped. -/
theorem C6_overflow_keeps_head {α : Type} [Zero α] (v : VisualizerFIFO α)
    (h : VisualizerFIFO.WF v) (he : v.fifo.validStart = v.fifo.validEnd)
    (K : Nat) (hK : 0 < K) (x : List α) (rest : List (List α))
    (hx : x.length = queueSize + K) :
    (VisualizerFIFO.pop (VisualizerFIFO.push v (x :: rest)) []).2 = x.take (queueSize - 1) ∧
    (VisualizerFIFO.pop (VisualizerFIFO.push v (x :: rest)) []).2.length = queueSize - 1 := by
  have hu := (VisualizerFIFO.unread_eq_nil_iff v h).mpr he
  have hf := VisualizerFIFO.getFreeSpace_eq v h
  rw [VisualizerFIFO.pop_push v h, hu, hf, hu]
  simp only [List.nil_append, List.length_nil, queueSize, List.length_take] at *
  have e : (min (x.length : Int) (((4096 : ℕ) : ℤ) - ((0 : ℕ) : ℤ) - 1)).toNat = 4095 := by
    omega
  rw [e]
  exact ⟨rfl, by omega⟩

/-- C6 (as amended) at `K = 1` on the freshly constructed channel. -/
theorem C6_overflow_keeps_head_witness :
    VisualizerFIFO.WF emptyAtZero ∧ 0 < 1 ∧ (List.range 4097).length = queueSize + 1 ∧
    (VisualizerFIFO.pop (VisualizerFIFO.push emptyAtZero [List.range 4097]) []).2 =
      (List.range 4097).take (queueSize - 1) :=
  ⟨WF_replicate 0 0 (by decide) (by decide) (by decide) (by decide), by decide,
    List.length_range 4097,
    (C6_overflow_keeps_head emptyAtZero
      (WF_replicate 0 0 (by decide) (by decide) (by decide) (by decide)) rfl 1 (by decide)
      (List.range 4097) [] (List.length_range 4097)).1⟩

/-- C6 fails as stated: after pushing `queueSize + 1` samples into the empty channel, the
pop does not return `queueSize` samples equal to the last `queueSize` samples of the
input. -/
theorem C6_counterexample :
    ¬ ((VisualizerFIFO.pop (VisualizerFIFO.push emptyAtZero [List.range 4097]) []).2.length =
          queueSize ∧
        (VisualizerFIFO.pop (VisualizerFIFO.push emptyAtZero [List.range 4097]) []).2 =
          (List.range 4097).drop 1) := by
  have hwf : VisualizerFIFO.WF emptyAtZero :=
    WF_replicate 0 0 (by decide) (by decide) (by decide) (by decide)
  have hu : VisualizerFIFO.unread emptyAtZero = [] :=
    (VisualizerFIFO.unread_eq_nil_iff _ hwf).mpr rfl
  have hf : emptyAtZero.fifo.getFreeSpace = 4095 := by decide
  rw [VisualizerFIFO.pop_push emptyAtZero hwf, hu, hf]
  rintro ⟨hl, -⟩
  rw [List.nil_append, List.nil_append, List.length_take, List.length_range] at hl
  simp only [queueSize] at hl
  omega

/-- C7: a pop from a channel holding the unread samples `u` leaves the destination equal
to its old contents followed by all of `u` in FIFO order and leaves the channel empty,
so that an immediately following pop adds nothing; on an empty channel the destination
is unchanged. -/
theorem C7_pop_drains_all {α : Type} [Zero α] (v : VisualizerFIFO α)
    (h : VisualizerFIFO.WF v) (d : List α) :
    (VisualizerFIFO.pop v d).2 = d ++ VisualizerFIFO.unread v ∧
    VisualizerFIFO.unread (VisualizerFIFO.pop v d).1 = [] ∧
    (∀ d' : List α, (VisualizerFIFO.pop (VisualizerFIFO.pop v d).1 d').2 = d') ∧
    (VisualizerFIFO.unread v = [] → (VisualizerFIFO.pop v d).2 = d) := by
  have hp := VisualizerFIFO.pop_spec v h d
  have hwf : VisualizerFIFO.WF (VisualizerFIFO.pop v d).1 := by
    rw [hp]
    exact ⟨h.1, rfl, h.2.2.2.2.1, h.2.2.2.2.2, h.2.2.2.2.1, h.2.2.2.2.2⟩
  have hempty : VisualizerFIFO.unread (VisualizerFIFO.pop v d).1 = [] := by
    rw [VisualizerFIFO.unread_eq_nil_iff _ hwf, hp]
  refine ⟨by rw [hp], hempty, ?_, ?_⟩
  · intro d'
    rw [VisualizerFIFO.pop_spec _ hwf, hempty, List.append_nil]
  · intro hu
    rw [hp, hu, List.append_nil]

/-- C7 on a channel that holds three samples across the end of the array. -/
theorem C7_pop_drains_all_witness :
    VisualizerFIFO.WF holdingThree ∧
    (VisualizerFIFO.pop holdingThree [1, 2]).2 = [1, 2] ++ VisualizerFIFO.unread holdingThree ∧
    VisualizerFIFO.unread (VisualizerFIFO.pop holdingThree [1, 2]).1 = [] :=
  ⟨WF_replicate 4094 1 (by decide) (by decide) (by decide) (by decide),
    (C7_pop_drains_all holdingThree
      (WF_replicate 4094 1 (by decide) (by decide) (by decide) (by decide)) [1, 2]).1,
    (C7_pop_drains_all holdingThree
      (WF_replicate 4094 1 (by decide) (by decide) (by decide) (by decide)) [1, 2]).2.1⟩

end Wolf

namespace Wolf

/-! ## Lemmas on `addEvent`, continued -/

theorem mem_addEvent (buf : MidiBuffer) (msg : MidiMessage) (pos : Int) (e : MidiEvent) :
    e ∈ addEvent buf msg pos ↔ e = ⟨msg, pos⟩ ∨ e ∈ buf := by
  induction buf with
  | nil => simp [addEvent]
  | cons x rest ih =>
    simp only [addEvent]
    split_ifs with h
    · simp only [List.mem_cons, ih]
      tauto
    · simp only [List.mem_cons]

theorem offsetSorted_addEvent (buf : MidiBuffer) (msg : MidiMessage) (pos : Int)
    (h : OffsetSorted buf) : OffsetSorted (addEvent buf msg pos) := by
  unfold OffsetSorted at *
  induction buf with
  | nil => simp [addEvent]
  | cons x rest ih =>
    obtain ⟨h1, h2⟩ := List.pairwise_cons.mp h
    simp only [addEvent]
    split_ifs with hx
    · refine List.pairwise_cons.mpr ⟨?_, ih h2⟩
      intro e he
      rcases (mem_addEvent rest msg pos e).mp he with rfl | he
      · exact hx
      · exact h1 e he
    · refine List.pairwise_cons.mpr ⟨?_, h⟩
      intro e he
      have hlt : pos < x.samplePosition := not_le.mp hx
      rcases List.mem_cons.mp he with rfl | he
      · exact le_of_lt hlt
      · exact le_trans (le_of_lt hlt) (h1 e he)

theorem addEvent_perm (buf : MidiBuffer) (msg : MidiMessage) (pos : Int) :
    (addEvent buf msg pos).Perm (⟨msg, pos⟩ :: buf) := by
  induction buf with
  | nil => simp [addEvent]
  | cons x rest ih =>
    simp only [addEvent]
    split_ifs with hx
    · exact (List.Perm.cons x ih).trans (List.Perm.swap _ _ _)
    · exact List.Perm.refl _

theorem truncToInt_nonneg (q : ℚ) (h : 0 ≤ q) : 0 ≤ truncToInt q := by
  simp only [truncToInt, h, if_true]
  exact Int.floor_nonneg.mpr h

namespace Arpeggiator

/-! ## The pending note-off loop -/

theorem drainPending_fst (numSamples : Int) (active : List ActiveNote) (buf : MidiBuffer) :
    (drainPending numSamples active buf).1 =
      (active.filter (fun a => decide (¬ a.samplesRemaining < numSamples))).map
        (fun a => { a with samplesRemaining := a.samplesRemaining - numSamples }) := by
  induction active generalizing buf with
  | nil => rfl
  | cons a rest ih =>
    simp only [drainPending]
    split_ifs with h
    · rw [ih, List.filter_cons]
      simp [h]
    · rw [List.filter_cons]
      simp [h, ih]

theorem mem_drainPending (numSamples : Int) (active : List ActiveNote) (buf : MidiBuffer)
    (e : MidiEvent) :
    e ∈ (drainPending numSamples active buf).2 ↔
      e ∈ buf ∨ ∃ a ∈ active, a.samplesRemaining < numSamples ∧
        e = ⟨MidiMessage.noteOff 1 a.noteNumber, a.samplesRemaining⟩ := by
  induction active generalizing buf with
  | nil => simp [drainPending]
  | cons a rest ih =>
    simp only [drainPending]
    split_ifs with h
    · rw [ih, mem_addEvent]
      constructor
      · rintro (h1 | ⟨b, hb, hb2⟩)
        · rcases h1 with rfl | h1
          · exact Or.inr ⟨a, List.mem_cons_self _ _, h, rfl⟩
          · exact Or.inl h1
        · exact Or.inr ⟨b, List.mem_cons_of_mem _ hb, hb2⟩
      · rintro (h1 | ⟨b, hb, hb2, hb3⟩)
        · exact Or.inl (Or.inr h1)
        · rcases List.mem_cons.mp hb with rfl | hb
          · exact Or.inl (Or.inl hb3)
          · exact Or.inr ⟨b, hb, hb2, hb3⟩
    · simp only
      rw [ih]
      constructor
      · rintro (h1 | ⟨b, hb, hb2⟩)
        · exact Or.inl h1
        · exact Or.inr ⟨b, List.mem_cons_of_mem _ hb, hb2⟩
      · rintro (h1 | ⟨b, hb, hb2, hb3⟩)
        · exact Or.inl h1
        · rcases List.mem_cons.mp hb with rfl | hb
          · exact absurd hb2 h
          · exact Or.inr ⟨b, hb, hb2, hb3⟩

theorem offsetSorted_drainPending (numSamples : Int) (active : List ActiveNote)
    (buf : MidiBuffer) (h : OffsetSorted buf) :
    OffsetSorted (drainPending numSamples active buf).2 := by
  induction active generalizing buf with
  | nil => exact h
  | cons a rest ih =>
    simp only [drainPending]
    split_ifs with hc
    · exact ih _ (offsetSorted_addEvent _ _ _ h)
    · exact ih _ h

/-! ## The input loop -/

/-- Fields of the sequencer that the input loop never changes. -/
theorem captureEvent_config (s : Arpeggiator × MidiBuffer) (e : MidiEvent) :
    (captureEvent s e).1.gateLength = s.1.gateLength ∧
    (captureEvent s e).1.numOctaves = s.1.numOctaves ∧
    (captureEvent s e).1.rateDiv = s.1.rateDiv ∧
    (captureEvent s e).1.currentSampleRate = s.1.currentSampleRate ∧
    (captureEvent s e).1.enabled = s.1.enabled ∧
    (captureEvent s e).1.arpMode = s.1.arpMode := by
  obtain ⟨msg, pos⟩ := e
  cases msg with
  | noteOn c n v =>
    simp only [captureEvent, handleNoteOn]
    split_ifs <;> simp
  | noteOff c n => simp [captureEvent, handleNoteOff]
  | allNotesOff c => simp [captureEvent, reset]
  | other d => simp [captureEvent]

theorem foldl_captureEvent_config (input : MidiBuffer) (s : Arpeggiator × MidiBuffer) :
    (input.foldl captureEvent s).1.gateLength = s.1.gateLength ∧
    (input.foldl captureEvent s).1.numOctaves = s.1.numOctaves ∧
    (input.foldl captureEvent s).1.rateDiv = s.1.rateDiv ∧
    (input.foldl captureEvent s).1.currentSampleRate = s.1.currentSampleRate ∧
    (input.foldl captureEvent s).1.enabled = s.1.enabled ∧
    (input.foldl captureEvent s).1.arpMode = s.1.arpMode := by
  induction input generalizing s with
  | nil => simp
  | cons e rest ih =>
    rw [List.foldl_cons]
    have h1 := ih (captureEvent s e)
    have h2 := captureEvent_config s e
    refine ⟨h1.1.trans h2.1, h1.2.1.trans h2.2.1, h1.2.2.1.trans h2.2.2.1,
      h1.2.2.2.1.trans h2.2.2.2.1, h1.2.2.2.2.1.trans h2.2.2.2.2.1,
      h1.2.2.2.2.2.trans h2.2.2.2.2.2⟩

end Arpeggiator
end Wolf

namespace Wolf
namespace Arpeggiator

theorem captureEvent_activeNotes (s : Arpeggiator × MidiBuffer) (e : MidiEvent)
    (x : ActiveNote) (hx : x ∈ (captureEvent s e).1.activeNotes) : x ∈ s.1.activeNotes := by
  obtain ⟨msg, pos⟩ := e
  cases msg with
  | noteOn c n v =>
    simp only [captureEvent, handleNoteOn] at hx
    split_ifs at hx <;> exact hx
  | noteOff c n => exact hx
  | allNotesOff c => simp [captureEvent, reset] at hx
  | other d => exact hx

theorem foldl_captureEvent_activeNotes (input : MidiBuffer) (s : Arpeggiator × MidiBuffer)
    (x : ActiveNote) (hx : x ∈ (input.foldl captureEvent s).1.activeNotes) :
    x ∈ s.1.activeNotes := by
  induction input generalizing s with
  | nil => exact hx
  | cons e rest ih =>
    rw [List.foldl_cons] at hx
    exact captureEvent_activeNotes s e x (ih _ hx)

theorem captureEvent_snd (s : Arpeggiator × MidiBuffer) (e : MidiEvent) :
    (captureEvent s e).2 =
      if e.message.isNoteOn || e.message.isNoteOff || e.message.isAllNotesOff then s.2
      else addEvent s.2 e.message e.samplePosition := by
  obtain ⟨msg, pos⟩ := e
  cases msg <;> rfl

theorem foldl_captureEvent_sorted (input : MidiBuffer) (s : Arpeggiator × MidiBuffer)
    (h : OffsetSorted s.2) : OffsetSorted (input.foldl captureEvent s).2 := by
  induction input generalizing s with
  | nil => exact h
  | cons e rest ih =>
    rw [List.foldl_cons]
    apply ih
    rw [captureEvent_snd]
    split_ifs
    · exact h
    · exact offsetSorted_addEvent _ _ _ h

theorem foldl_captureEvent_mem (input : MidiBuffer) (s : Arpeggiator × MidiBuffer)
    (x : MidiEvent) (hx : x ∈ (input.foldl captureEvent s).2) :
    x ∈ s.2 ∨ (x ∈ input ∧ x.message.isNoteOn = false ∧ x.message.isNoteOff = false ∧
      x.message.isAllNotesOff = false) := by
  induction input generalizing s with
  | nil => exact Or.inl hx
  | cons e rest ih =>
    rw [List.foldl_cons] at hx
    rcases ih _ hx with h | ⟨h1, h2⟩
    · rw [captureEvent_snd] at h
      split_ifs at h with hc
      · exact Or.inl h
      · rcases (mem_addEvent _ _ _ _).mp h with rfl | h
        · refine Or.inr ⟨List.mem_cons_self _ _, ?_⟩
          simp only [Bool.or_eq_true, not_or, Bool.not_eq_true] at hc
          exact ⟨hc.1.1, hc.1.2, hc.2⟩
        · exact Or.inl h
    · exact Or.inr ⟨List.mem_cons_of_mem _ h1, h2⟩

/-! ## The stepping loop -/

theorem fireStep_frame (numSamples : Int) (samplesPerStep : ℚ) (s : StepLoop) :
    (fireStep numSamples samplesPerStep s).samplesRemaining = s.samplesRemaining ∧
    (fireStep numSamples samplesPerStep s).currentSamplePos = s.currentSamplePos ∧
    (fireStep numSamples samplesPerStep s).arp.gateLength = s.arp.gateLength := by
  simp only [fireStep]
  split_ifs <;> simp

theorem fireStep_inv (numSamples : Int) (samplesPerStep : ℚ) (s : StepLoop)
    (hsps : 0 ≤ samplesPerStep) (h : StepLoop.Inv numSamples s) :
    StepLoop.Inv numSamples (fireStep numSamples samplesPerStep s) := by
  obtain ⟨h1, h2, h3, h6⟩ := h
  obtain ⟨f1, f2, f3⟩ := fireStep_frame numSamples samplesPerStep s
  have hg : 0 ≤ truncToInt (samplesPerStep * s.arp.gateLength) :=
    truncToInt_nonneg _ (mul_nonneg hsps h3)
  refine ⟨by rw [f1, f2]; exact h1, by rw [f2]; exact h2, by rw [f3]; exact h3, ?_⟩
  simp only [fireStep, PendingNonneg]
  split_ifs with c1 c2
  · exact h6
  · intro x hx
    simp only [List.mem_append, List.mem_singleton] at hx
    rcases hx with hx | rfl
    · exact h6 x hx
    · simp only; omega
  · exact h6

theorem fireStep_inBlock (numSamples : Int) (samplesPerStep : ℚ) (s : StepLoop)
    (hsps : 0 ≤ samplesPerStep) (hrem : 0 < s.samplesRemaining)
    (h : StepLoop.Inv numSamples s) (hb : InBlock numSamples s.processedMidi) :
    InBlock numSamples (fireStep numSamples samplesPerStep s).processedMidi := by
  obtain ⟨h1, h2, h3, h6⟩ := h
  obtain ⟨h4, h5⟩ := hb
  have hg : 0 ≤ truncToInt (samplesPerStep * s.arp.gateLength) :=
    truncToInt_nonneg _ (mul_nonneg hsps h3)
  constructor
  · simp only [fireStep]
    split_ifs
    · exact offsetSorted_addEvent _ _ _ (offsetSorted_addEvent _ _ _ h4)
    · exact offsetSorted_addEvent _ _ _ h4
    · exact h4
  · simp only [fireStep]
    split_ifs with c1 c2
    · intro e he
      rcases (mem_addEvent _ _ _ _).mp he with rfl | he
      · exact ⟨by simp only; omega, c2⟩
      · rcases (mem_addEvent _ _ _ _).mp he with rfl | he
        · exact ⟨h2, by simp only; omega⟩
        · exact h5 e he
    · intro e he
      rcases (mem_addEvent _ _ _ _).mp he with rfl | he
      · exact ⟨h2, by simp only; omega⟩
      · exact h5 e he
    · exact h5

theorem stepBody_inv (numSamples : Int) (samplesPerStep : ℚ) (s : StepLoop)
    (hsps : 0 ≤ samplesPerStep) (hrem : 0 < s.samplesRemaining)
    (h : StepLoop.Inv numSamples s) :
    StepLoop.Inv numSamples (stepBody numSamples samplesPerStep s) := by
  have key : ∀ s1 : StepLoop, StepLoop.Inv numSamples s1 → 0 < s1.samplesRemaining →
      StepLoop.Inv numSamples
        { s1 with arp := { s1.arp with noteTime := s1.arp.noteTime +
                             ((min s1.samplesRemaining 32 : Int) : ℚ) },
                  samplesRemaining := s1.samplesRemaining - min s1.samplesRemaining 32,
                  currentSamplePos := s1.currentSamplePos + min s1.samplesRemaining 32 } := by
    intro s1 ⟨h1, h2, h3, h6⟩ hr
    exact ⟨by simp only; omega, by simp only; omega, h3, h6⟩
  simp only [stepBody]
  split_ifs with hc
  · apply key _ (fireStep_inv numSamples samplesPerStep s hsps h)
    rw [(fireStep_frame numSamples samplesPerStep s).1]
    exact hrem
  · exact key s h hrem

theorem stepBody_processedMidi (numSamples : Int) (samplesPerStep : ℚ) (s : StepLoop) :
    (stepBody numSamples samplesPerStep s).processedMidi =
      if s.arp.noteTime ≥ samplesPerStep then
        (fireStep numSamples samplesPerStep s).processedMidi
      else s.processedMidi := by
  simp only [stepBody]
  split_ifs <;> rfl

theorem stepBody_inBlock (numSamples : Int) (samplesPerStep : ℚ) (s : StepLoop)
    (hsps : 0 ≤ samplesPerStep) (hrem : 0 < s.samplesRemaining)
    (h : StepLoop.Inv numSamples s) (hb : InBlock numSamples s.processedMidi) :
    InBlock numSamples (stepBody numSamples samplesPerStep s).processedMidi := by
  rw [stepBody_processedMidi]
  split_ifs
  · exact fireStep_inBlock numSamples samplesPerStep s hsps hrem h hb
  · exact hb

theorem stepLoop_inv (numSamples : Int) (samplesPerStep : ℚ) (hsps : 0 ≤ samplesPerStep)
    (fuel : Nat) (s : StepLoop) (h : StepLoop.Inv numSamples s) :
    StepLoop.Inv numSamples (stepLoop numSamples samplesPerStep fuel s) := by
  induction fuel generalizing s with
  | zero => exact h
  | succ n ih =>
    simp only [stepLoop]
    split_ifs with hc
    · exact ih _ (stepBody_inv numSamples samplesPerStep s hsps hc h)
    · exact h

theorem stepLoop_inBlock (numSamples : Int) (samplesPerStep : ℚ) (hsps : 0 ≤ samplesPerStep)
    (fuel : Nat) (s : StepLoop) (h : StepLoop.Inv numSamples s)
    (hb : InBlock numSamples s.processedMidi) :
    InBlock numSamples (stepLoop numSamples samplesPerStep fuel s).processedMidi := by
  induction fuel generalizing s with
  | zero => exact hb
  | succ n ih =>
    simp only [stepLoop]
    split_ifs with hc
    · exact ih _ (stepBody_inv numSamples samplesPerStep s hsps hc h)
        (stepBody_inBlock numSamples samplesPerStep s hsps hc h hb)
    · exact hb

/-- The fuel given by `process` is enough: the loop stops because no samples remain. -/
theorem stepLoop_done (numSamples : Int) (samplesPerStep : ℚ) (fuel : Nat) (s : StepLoop)
    (h : s.samplesRemaining ≤ fuel) :
    (stepLoop numSamples samplesPerStep fuel s).samplesRemaining ≤ 0 := by
  induction fuel generalizing s with
  | zero =>
    simp only [stepLoop]
    simpa using h
  | succ n ih =>
    simp only [stepLoop]
    split_ifs with hc
    · apply ih
      have hr : (stepBody numSamples samplesPerStep s).samplesRemaining =
          s.samplesRemaining - min s.samplesRemaining 32 := by
        simp only [stepBody]
        split_ifs
        · rw [(fireStep_frame numSamples samplesPerStep s).1]
        · rfl
      rw [hr]
      push_cast at h
      omega
    · omega

theorem effectiveSamplesPerStep_ge (a : Arpeggiator) (playHead : Option AudioPlayHead) :
    100 ≤ a.effectiveSamplesPerStep playHead := by
  simp only [effectiveSamplesPerStep]
  split_ifs with h
  · norm_num
  · exact not_lt.mp h

end Arpeggiator
end Wolf

namespace Wolf
namespace Arpeggiator

/-! ## Invariants of `process` -/

theorem drainPending_pendingNonneg (numSamples : Int) (active : List ActiveNote)
    (buf : MidiBuffer) (x : ActiveNote) (hx : x ∈ (drainPending numSamples active buf).1) :
    0 ≤ x.samplesRemaining := by
  rw [drainPending_fst] at hx
  simp only [List.mem_map, List.mem_filter, decide_eq_true_eq] at hx
  obtain ⟨y, ⟨_, hy⟩, rfl⟩ := hx
  simp only
  omega

theorem drainPending_inBlock (numSamples : Int) (active : List ActiveNote)
    (buf : MidiBuffer) (ha : ∀ x ∈ active, 0 ≤ x.samplesRemaining)
    (hb : InBlock numSamples buf) : InBlock numSamples (drainPending numSamples active buf).2 := by
  refine ⟨offsetSorted_drainPending _ _ _ hb.1, ?_⟩
  intro e he
  rcases (mem_drainPending _ _ _ _).mp he with he | ⟨x, hx, hlt, rfl⟩
  · exact hb.2 e he
  · exact ⟨ha x hx, hlt⟩

theorem captureAndDrain_spec (a : Arpeggiator) (input : MidiBuffer) (numSamples : Int) :
    (captureAndDrain a input numSamples).1.gateLength = a.gateLength ∧
    PendingNonneg (captureAndDrain a input numSamples).1 := by
  simp only [captureAndDrain]
  exact ⟨(foldl_captureEvent_config input (a, [])).1,
    fun x hx => drainPending_pendingNonneg _ _ _ x hx⟩

theorem captureAndDrain_inBlock (a : Arpeggiator) (hp : PendingNonneg a) (input : MidiBuffer)
    (numSamples : Int)
    (hr : ∀ e ∈ input, 0 ≤ e.samplePosition ∧ e.samplePosition < numSamples) :
    InBlock numSamples (captureAndDrain a input numSamples).2 := by
  simp only [captureAndDrain]
  apply drainPending_inBlock
  · intro x hx
    exact hp x (foldl_captureEvent_activeNotes input (a, []) x hx)
  · refine ⟨foldl_captureEvent_sorted input (a, []) List.Pairwise.nil, ?_⟩
    intro e he
    rcases foldl_captureEvent_mem input (a, []) e he with h | h
    · simp at h
    · exact hr e h.1

theorem clampNoteTime_frame (a : Arpeggiator) (sps : ℚ) :
    (clampNoteTime a sps).gateLength = a.gateLength ∧
    (clampNoteTime a sps).activeNotes = a.activeNotes ∧
    (clampNoteTime a sps).sortedNotes = a.sortedNotes ∧
    (clampNoteTime a sps).currentStep = a.currentStep ∧
    (clampNoteTime a sps).numOctaves = a.numOctaves := by
  simp only [clampNoteTime]
  split_ifs <;> simp

theorem generate_start_inv (a : Arpeggiator) (hg : 0 ≤ a.gateLength) (hp : PendingNonneg a)
    (buf : MidiBuffer) (numSamples : Int) (sps : ℚ) :
    StepLoop.Inv numSamples (loopStart a buf numSamples sps) := by
  obtain ⟨c1, c2, -⟩ := clampNoteTime_frame a sps
  refine ⟨by simp [loopStart], le_refl _, by simp only [loopStart, c1]; exact hg, ?_⟩
  simp only [PendingNonneg, loopStart, c2]
  exact hp

theorem stepBody_gateLength (numSamples : Int) (sps : ℚ) (s : StepLoop) :
    (stepBody numSamples sps s).arp.gateLength = s.arp.gateLength := by
  simp only [stepBody]
  split_ifs
  · exact (fireStep_frame numSamples sps s).2.2
  · rfl

theorem stepLoop_gateLength (numSamples : Int) (sps : ℚ) (fuel : Nat) (s : StepLoop) :
    (stepLoop numSamples sps fuel s).arp.gateLength = s.arp.gateLength := by
  induction fuel generalizing s with
  | zero => rfl
  | succ n ih =>
    simp only [stepLoop]
    split_ifs
    · rw [ih, stepBody_gateLength]
    · rfl

theorem generate_spec (a : Arpeggiator) (hg : 0 ≤ a.gateLength) (hp : PendingNonneg a)
    (buf : MidiBuffer) (numSamples : Int) (playHead : Option AudioPlayHead) :
    (generate a buf numSamples playHead).1.gateLength = a.gateLength ∧
    PendingNonneg (generate a buf numSamples playHead).1 ∧
    (InBlock numSamples buf → InBlock numSamples (generate a buf numSamples playHead).2) := by
  simp only [generate]
  split_ifs with hemp
  · exact ⟨rfl, hp, fun h => h⟩
  · have hsps : (0 : ℚ) ≤ effectiveSamplesPerStep a playHead :=
      le_trans (by norm_num) (effectiveSamplesPerStep_ge a playHead)
    have hs := generate_start_inv a hg hp buf numSamples (effectiveSamplesPerStep a playHead)
    have hinv := stepLoop_inv numSamples _ hsps numSamples.toNat _ hs
    refine ⟨?_, hinv.2.2.2, fun hb => stepLoop_inBlock numSamples _ hsps _ _ hs hb⟩
    rw [stepLoop_gateLength]
    exact (clampNoteTime_frame a _).1

/-- `process` keeps the gate fraction and keeps every pending count non-negative. -/
theorem process_pendingNonneg (a : Arpeggiator) (hg : 0 ≤ a.gateLength)
    (_hp : PendingNonneg a) (input : MidiBuffer) (numSamples : Int)
    (playHead : Option AudioPlayHead) :
    (a.process input numSamples playHead).1.gateLength = a.gateLength ∧
    PendingNonneg (a.process input numSamples playHead).1 := by
  simp only [process]
  split_ifs with hen
  · exact ⟨rfl, fun x hx => drainPending_pendingNonneg _ _ _ x hx⟩
  · obtain ⟨c1, c2⟩ := captureAndDrain_spec a input numSamples
    obtain ⟨g1, g2, -⟩ := generate_spec (captureAndDrain a input numSamples).1
      (by rw [c1]; exact hg) c2 (captureAndDrain a input numSamples).2 numSamples playHead
    exact ⟨g1.trans c1, g2⟩

/-- On an input in offset order and inside the block, `process` leaves a buffer in
offset order and inside the block. -/
theorem process_inBlock (a : Arpeggiator) (hg : 0 ≤ a.gateLength)
    (hp : PendingNonneg a) (input : MidiBuffer) (numSamples : Int)
    (playHead : Option AudioPlayHead) (hb : InBlock numSamples input) :
    InBlock numSamples (a.process input numSamples playHead).2 := by
  simp only [process]
  split_ifs with hen
  · exact drainPending_inBlock numSamples a.activeNotes input hp hb
  · obtain ⟨c1, c2⟩ := captureAndDrain_spec a input numSamples
    obtain ⟨-, -, g3⟩ := generate_spec (captureAndDrain a input numSamples).1
      (by rw [c1]; exact hg) c2 (captureAndDrain a input numSamples).2 numSamples playHead
    exact g3 (captureAndDrain_inBlock a hp input numSamples hb.2)

theorem reachable_inv (a : Arpeggiator) (h : Reachable a) :
    0 ≤ a.gateLength ∧ PendingNonneg a := by
  induction h with
  | reset a hg => exact ⟨hg, fun x hx => by simp [reset] at hx⟩
  | prepare a sr _ ih => exact ih
  | setParameters a rate mode octaves gate isOn hg _ ih => exact ⟨hg, ih.2⟩
  | process a input n ph _ ih =>
    obtain ⟨p1, p2⟩ := process_pendingNonneg a ih.1 ih.2 input n ph
    exact ⟨by rw [p1]; exact ih.1, p2⟩

end Arpeggiator

/-- C8: in every sequencer state reachable from a reset with non-negative gate
fractions, on every input in non-decreasing offset order with offsets in
`[0, numSamples)`, the event list left by `Arpeggiator::process` (enabled or disabled) is
in non-decreasing offset order and every offset lies in `[0, numSamples)`: pass-through
events, due pending note-offs and generated note-on/off events are merged by offset. -/
theorem C8_output_in_offset_order (a : Arpeggiator) (h : Arpeggiator.Reachable a)
    (input : MidiBuffer) (numSamples : Int) (playHead : Option AudioPlayHead)
    (hs : OffsetSorted input)
    (hr : ∀ e ∈ input, 0 ≤ e.samplePosition ∧ e.samplePosition < numSamples) :
    OffsetSorted (a.process input numSamples playHead).2 ∧
    ∀ e ∈ (a.process input numSamples playHead).2,
      0 ≤ e.samplePosition ∧ e.samplePosition < numSamples := by
  obtain ⟨hg, hp⟩ := Arpeggiator.reachable_inv a h
  exact Arpeggiator.process_inBlock a hg hp input numSamples playHead ⟨hs, hr⟩

end Wolf

namespace Wolf
namespace Arpeggiator

/-! ## What the stepping loop adds -/

theorem fireStep_mono (numSamples : Int) (sps : ℚ) (s : StepLoop) (e : MidiEvent)
    (he : e ∈ s.processedMidi) : e ∈ (fireStep numSamples sps s).processedMidi := by
  simp only [fireStep]
  split_ifs
  · exact (mem_addEvent _ _ _ _).mpr (Or.inr ((mem_addEvent _ _ _ _).mpr (Or.inr he)))
  · exact (mem_addEvent _ _ _ _).mpr (Or.inr he)
  · exact he

theorem stepBody_mono (numSamples : Int) (sps : ℚ) (s : StepLoop) (e : MidiEvent)
    (he : e ∈ s.processedMidi) : e ∈ (stepBody numSamples sps s).processedMidi := by
  rw [stepBody_processedMidi]
  split_ifs
  · exact fireStep_mono numSamples sps s e he
  · exact he

theorem stepLoop_mono (numSamples : Int) (sps : ℚ) (fuel : Nat) (s : StepLoop) (e : MidiEvent)
    (he : e ∈ s.processedMidi) : e ∈ (stepLoop numSamples sps fuel s).processedMidi := by
  induction fuel generalizing s with
  | zero => exact he
  | succ n ih =>
    simp only [stepLoop]
    split_ifs
    · exact ih _ (stepBody_mono numSamples sps s e he)
    · exact he

/-- A note-on added by a firing step sits at the current sample position. -/
theorem fireStep_noteOn (numSamples : Int) (sps : ℚ) (s : StepLoop) (e : MidiEvent)
    (he : e ∈ (fireStep numSamples sps s).processedMidi) (hon : e.message.isNoteOn = true) :
    e ∈ s.processedMidi ∨ e.samplePosition = s.currentSamplePos := by
  simp only [fireStep] at he
  split_ifs at he
  · rcases (mem_addEvent _ _ _ _).mp he with rfl | he
    · simp [MidiMessage.isNoteOn] at hon
    · rcases (mem_addEvent _ _ _ _).mp he with rfl | he
      · exact Or.inr rfl
      · exact Or.inl he
  · rcases (mem_addEvent _ _ _ _).mp he with rfl | he
    · exact Or.inr rfl
    · exact Or.inl he
  · exact Or.inl he

theorem stepBody_pos (numSamples : Int) (sps : ℚ) (s : StepLoop) :
    (stepBody numSamples sps s).currentSamplePos =
      s.currentSamplePos + min s.samplesRemaining 32 ∧
    (stepBody numSamples sps s).samplesRemaining =
      s.samplesRemaining - min s.samplesRemaining 32 := by
  simp only [stepBody]
  split_ifs
  · obtain ⟨f1, f2, -⟩ := fireStep_frame numSamples sps s
    simp only [f1, f2, and_self]
  · simp

/-- Every note-on the loop adds lies at or after the position the loop starts from. -/
theorem stepLoop_noteOn_pos (numSamples : Int) (sps : ℚ) (fuel : Nat) (s : StepLoop)
    (e : MidiEvent) (he : e ∈ (stepLoop numSamples sps fuel s).processedMidi)
    (hon : e.message.isNoteOn = true) :
    e ∈ s.processedMidi ∨ s.currentSamplePos ≤ e.samplePosition := by
  induction fuel generalizing s with
  | zero => exact Or.inl he
  | succ n ih =>
    simp only [stepLoop] at he
    split_ifs at he with hc
    · rcases ih _ he with h | h
      · rw [stepBody_processedMidi] at h
        split_ifs at h
        · rcases fireStep_noteOn numSamples sps s e h hon with h | h
          · exact Or.inl h
          · exact Or.inr (le_of_eq h.symm)
        · exact Or.inl h
      · rw [(stepBody_pos numSamples sps s).1] at h
        exact Or.inr (by omega)
    · exact Or.inl he

/-- While the accumulated time stays below the step duration and more than 32 samples
remain, each iteration only advances time and position by 32. -/
theorem stepLoop_idle (numSamples : Int) (sps : ℚ) (s : StepLoop) (j : Nat) (fuel : Nat)
    (hidle : ∀ i : Nat, i < j → s.arp.noteTime + 32 * (i : ℚ) < sps)
    (hrem : 32 * (j : Int) < s.samplesRemaining) :
    stepLoop numSamples sps (fuel + j) s = stepLoop numSamples sps fuel (idleState s j) := by
  induction j generalizing fuel with
  | zero =>
    simp [idleState]
  | succ j ih =>
    have h1 := ih (fuel + 1) (fun i hi => hidle i (by omega)) (by push_cast at hrem ⊢; omega)
    rw [show fuel + (j + 1) = fuel + 1 + j by omega, h1]
    simp only [stepLoop]
    have hpos : (idleState s j).samplesRemaining > 0 := by
      simp only [idleState]; push_cast at hrem; omega
    rw [if_pos hpos]
    congr 1
    have hnf : ¬ ((idleState s j).arp.noteTime ≥ sps) := by
      simp only [idleState, ge_iff_le, not_le]
      exact hidle j (by omega)
    simp only [stepBody, hnf, if_false]
    have hmin : min (idleState s j).samplesRemaining 32 = 32 := by
      simp only [idleState]; push_cast at hrem; omega
    rw [hmin]
    simp only [idleState]
    push_cast
    congr 1
    · congr 1
      ring
    · ring
    · ring

end Arpeggiator
end Wolf

namespace Wolf
namespace Arpeggiator

theorem getNextNote_congr (a b : Arpeggiator) (h1 : a.sortedNotes = b.sortedNotes)
    (h2 : a.numOctaves = b.numOctaves) (h3 : a.currentStep = b.currentStep) :
    a.getNextNote = b.getNextNote := by
  simp only [getNextNote, h1, h2, h3]

/-- A firing iteration whose note is positive leaves a note-on at the current position. -/
theorem stepBody_fires (numSamples : Int) (sps : ℚ) (s : StepLoop)
    (hfire : s.arp.noteTime ≥ sps) (hnote : 0 < s.arp.getNextNote) :
    (⟨MidiMessage.noteOn 1 s.arp.getNextNote 100, s.currentSamplePos⟩ : MidiEvent) ∈
      (stepBody numSamples sps s).processedMidi := by
  rw [stepBody_processedMidi, if_pos hfire]
  have hn : ({ s.arp with noteTime := s.arp.noteTime - sps } : Arpeggiator).getNextNote =
      s.arp.getNextNote := getNextNote_congr _ _ rfl rfl rfl
  simp only [fireStep, hn, gt_iff_lt, hnote, if_true]
  split_ifs
  · exact (mem_addEvent _ _ _ _).mpr (Or.inr ((mem_addEvent _ _ _ _).mpr (Or.inl rfl)))
  · exact (mem_addEvent _ _ _ _).mpr (Or.inl rfl)

/-- Section 4 when the step boundary is reached after `j` idle iterations inside the
block: the step's note-on is placed at offset `32 * j`, and no note-on is added before. -/
theorem generate_fires (a : Arpeggiator) (buf : MidiBuffer) (numSamples : Int)
    (playHead : Option AudioPlayHead) (j : Nat) (hheld : a.sortedNotes ≠ [])
    (hidle : ∀ i : Nat, i < j →
      (clampNoteTime a (effectiveSamplesPerStep a playHead)).noteTime + 32 * (i : ℚ) <
        effectiveSamplesPerStep a playHead)
    (hfire : effectiveSamplesPerStep a playHead ≤
      (clampNoteTime a (effectiveSamplesPerStep a playHead)).noteTime + 32 * (j : ℚ))
    (hin : 32 * (j : Int) < numSamples) (hnote : 0 < a.getNextNote) :
    (⟨MidiMessage.noteOn 1 a.getNextNote 100, 32 * (j : Int)⟩ : MidiEvent) ∈
      (generate a buf numSamples playHead).2 ∧
    ∀ e ∈ (generate a buf numSamples playHead).2, e.message.isNoteOn = true →
      e ∈ buf ∨ 32 * (j : Int) ≤ e.samplePosition := by
  have hemp : a.sortedNotes.isEmpty = false := by
    cases hs : a.sortedNotes with
    | nil => exact absurd hs hheld
    | cons x xs => rfl
  simp only [generate, hemp, Bool.false_eq_true, if_false]
  obtain ⟨fuel, hfuel⟩ : ∃ fuel : Nat, numSamples.toNat = (fuel + 1) + j :=
    ⟨numSamples.toNat - j - 1, by omega⟩
  rw [hfuel, stepLoop_idle numSamples _
    (loopStart a buf numSamples (effectiveSamplesPerStep a playHead)) j (fuel + 1) hidle hin]
  constructor
  · simp only [stepLoop]
    have hpos : (idleState (loopStart a buf numSamples (effectiveSamplesPerStep a playHead))
        j).samplesRemaining > 0 := by
      simp only [idleState, loopStart]; omega
    rw [if_pos hpos]
    apply stepLoop_mono
    have hn : (idleState (loopStart a buf numSamples (effectiveSamplesPerStep a playHead))
        j).arp.getNextNote = a.getNextNote := by
      obtain ⟨-, -, c3, c4, c5⟩ := clampNoteTime_frame a (effectiveSamplesPerStep a playHead)
      exact getNextNote_congr _ _ c3 c5 c4
    have key := stepBody_fires numSamples (effectiveSamplesPerStep a playHead)
      (idleState (loopStart a buf numSamples (effectiveSamplesPerStep a playHead)) j)
      (by simp only [idleState, loopStart]; exact hfire) (by rw [hn]; exact hnote)
    rw [hn] at key
    simpa [idleState, loopStart] using key
  · intro e he hon
    rcases stepLoop_noteOn_pos numSamples _ _ _ e he hon with h | h
    · exact Or.inl h
    · refine Or.inr ?_
      simpa [idleState, loopStart] using h

/-- After sections 2 and 3 the buffer holds no note-on. -/
theorem captureAndDrain_no_noteOn (a : Arpeggiator) (input : MidiBuffer) (numSamples : Int)
    (e : MidiEvent) (he : e ∈ (captureAndDrain a input numSamples).2) :
    e.message.isNoteOn = false := by
  simp only [captureAndDrain] at he
  rcases (mem_drainPending _ _ _ _).mp he with h | ⟨x, _, _, rfl⟩
  · rcases foldl_captureEvent_mem input (a, []) e h with h | h
    · simp at h
    · exact h.2.1
  · rfl

theorem process_enabled (a : Arpeggiator) (hen : a.enabled = true) (input : MidiBuffer)
    (numSamples : Int) (playHead : Option AudioPlayHead) :
    a.process input numSamples playHead =
      generate (captureAndDrain a input numSamples).1 (captureAndDrain a input numSamples).2
        numSamples playHead := by
  simp [process, hen]

end Arpeggiator
end Wolf

namespace Wolf
namespace Arpeggiator

theorem stepLoop_succ (numSamples : Int) (sps : ℚ) (fuel : Nat) (s : StepLoop)
    (h : 0 < s.samplesRemaining) :
    stepLoop numSamples sps (fuel + 1) s = stepLoop numSamples sps fuel (stepBody numSamples sps s) := by
  simp only [stepLoop, gt_iff_lt, h, if_true]

theorem stepLoop_nonpos (numSamples : Int) (sps : ℚ) (fuel : Nat) (s : StepLoop)
    (h : s.samplesRemaining ≤ 0) : stepLoop numSamples sps fuel s = s := by
  cases fuel with
  | zero => rfl
  | succ n =>
    simp only [stepLoop]
    rw [if_neg (by omega)]

end Arpeggiator

/-- C2 at the failing input: the enabled sequencer (octave span 1, nothing held) receives
a 64-sample block that presses MIDI note 0. The step with index 0 fires (the step index
advances to 1), the claim requires a note-on for note `min 127 (0 + 12 * 0) = 0`, and
`process` emits no event at all. -/
theorem C2_note_zero_emits_nothing :
    (exampleArp.process pressNoteZero 64 none).2 = [] ∧
    (exampleArp.process pressNoteZero 64 none).1.currentStep = 1 := by
  have hc : Arpeggiator.captureAndDrain exampleArp pressNoteZero 64 =
      ({ exampleArp with sortedNotes := [0], currentStep := 0, noteTime := 1000000 }, []) := by
    simp [Arpeggiator.captureAndDrain, exampleArp, pressNoteZero, Arpeggiator.captureEvent,
      Arpeggiator.handleNoteOn, Arpeggiator.drainPending]
  have hs : Arpeggiator.effectiveSamplesPerStep
      { exampleArp with sortedNotes := [0], currentStep := 0, noteTime := 1000000 } none =
      11025 / 2 := by
    norm_num [Arpeggiator.effectiveSamplesPerStep, Arpeggiator.getSamplesPerStep, exampleArp]
  rw [Arpeggiator.process_enabled _ rfl, hc]
  simp only [Arpeggiator.generate, hs]
  rw [show (64 : Int).toNat = 62 + 1 + 1 from rfl]
  rw [Arpeggiator.stepLoop_succ _ _ _ _ (by simp [Arpeggiator.loopStart])]
  have b1 : Arpeggiator.stepBody 64 (11025 / 2) (Arpeggiator.loopStart
      { exampleArp with sortedNotes := [0], currentStep := 0, noteTime := 1000000 } [] 64
      (11025 / 2)) =
      ⟨{ exampleArp with sortedNotes := [0], currentStep := 1, noteTime := 32 }, [], 32, 32⟩ := by
    norm_num [Arpeggiator.stepBody, Arpeggiator.loopStart, Arpeggiator.clampNoteTime,
      Arpeggiator.fireStep, Arpeggiator.getNextNote, wrapInt, exampleArp]
  rw [b1, Arpeggiator.stepLoop_succ _ _ _ _ (by norm_num)]
  have b2 : Arpeggiator.stepBody 64 (11025 / 2)
      ⟨{ exampleArp with sortedNotes := [0], currentStep := 1, noteTime := 32 }, [], 32, 32⟩ =
      ⟨{ exampleArp with sortedNotes := [0], currentStep := 1, noteTime := 64 }, [], 0, 64⟩ := by
    norm_num [Arpeggiator.stepBody, exampleArp]
  rw [b2, Arpeggiator.stepLoop_nonpos _ _ _ _ (by norm_num)]
  simp

end Wolf

namespace Wolf

/-- C8 on the example sequencer after a reset: a block with a note-on at offset 0 and a
controller event at offset 10. -/
theorem C8_output_in_offset_order_witness :
    Arpeggiator.Reachable exampleArp.reset ∧ OffsetSorted pressAndController ∧
    (∀ e ∈ pressAndController, 0 ≤ e.samplePosition ∧ e.samplePosition < 64) ∧
    OffsetSorted (exampleArp.reset.process pressAndController 64 none).2 ∧
    ∀ e ∈ (exampleArp.reset.process pressAndController 64 none).2,
      0 ≤ e.samplePosition ∧ e.samplePosition < 64 :=
  ⟨Arpeggiator.Reachable.reset exampleArp (by norm_num [exampleArp]), by decide, by decide,
    C8_output_in_offset_order exampleArp.reset
      (Arpeggiator.Reachable.reset exampleArp (by norm_num [exampleArp]))
      pressAndController 64 none (by decide) (by decide)⟩

end Wolf

namespace Wolf
namespace Arpeggiator

/-! ## Instant trigger -/

/-- Either nothing is held, or the last empty-to-held transition has armed the trigger. -/
theorem captureEvent_trigger (s : Arpeggiator × MidiBuffer) (e : MidiEvent)
    (h : s.1.sortedNotes = [] ∨ (s.1.currentStep = 0 ∧ s.1.noteTime = 1000000)) :
    (captureEvent s e).1.sortedNotes = [] ∨
      ((captureEvent s e).1.currentStep = 0 ∧ (captureEvent s e).1.noteTime = 1000000) := by
  obtain ⟨msg, pos⟩ := e
  cases msg with
  | noteOn c n v =>
    simp only [captureEvent, handleNoteOn]
    rcases h with h | h
    · rw [h]
      simp
    · split_ifs <;> first | exact Or.inr ⟨rfl, rfl⟩ | exact Or.inr h
  | noteOff c n =>
    simp only [captureEvent, handleNoteOff]
    rcases h with h | h
    · left; rw [h]; rfl
    · exact Or.inr h
  | allNotesOff c => left; rfl
  | other d => exact h

theorem capturedState_trigger (a : Arpeggiator) (input : MidiBuffer)
    (h : a.sortedNotes = []) :
    (capturedState a input).sortedNotes = [] ∨
      ((capturedState a input).currentStep = 0 ∧ (capturedState a input).noteTime = 1000000) := by
  have key : ∀ (l : MidiBuffer) (s : Arpeggiator × MidiBuffer),
      (s.1.sortedNotes = [] ∨ (s.1.currentStep = 0 ∧ s.1.noteTime = 1000000)) →
      ((l.foldl captureEvent s).1.sortedNotes = [] ∨
        ((l.foldl captureEvent s).1.currentStep = 0 ∧
          (l.foldl captureEvent s).1.noteTime = 1000000)) := by
    intro l
    induction l with
    | nil => intro s hs; exact hs
    | cons e rest ih => intro s hs; exact ih _ (captureEvent_trigger s e hs)
  exact key input (a, []) (Or.inl h)

theorem captureAndDrain_fst (a : Arpeggiator) (input : MidiBuffer) (numSamples : Int) :
    (captureAndDrain a input numSamples).1.sortedNotes = (capturedState a input).sortedNotes ∧
    (captureAndDrain a input numSamples).1.currentStep = (capturedState a input).currentStep ∧
    (captureAndDrain a input numSamples).1.noteTime = (capturedState a input).noteTime ∧
    (captureAndDrain a input numSamples).1.numOctaves = a.numOctaves ∧
    (captureAndDrain a input numSamples).1.rateDiv = a.rateDiv ∧
    (captureAndDrain a input numSamples).1.currentSampleRate = a.currentSampleRate := by
  obtain ⟨-, c2, c3, c4, -, -⟩ := foldl_captureEvent_config input (a, [])
  exact ⟨rfl, rfl, rfl, c2, c3, c4⟩

theorem effectiveSamplesPerStep_congr (a b : Arpeggiator) (playHead : Option AudioPlayHead)
    (h1 : a.rateDiv = b.rateDiv) (h2 : a.currentSampleRate = b.currentSampleRate) :
    effectiveSamplesPerStep a playHead = effectiveSamplesPerStep b playHead := by
  simp only [effectiveSamplesPerStep, getSamplesPerStep, h1, h2]

/-- An arithmetic result inside the range of `int` is the value the `int` takes. -/
theorem wrapInt_eq (x : Int) (h1 : -2147483648 ≤ x) (h2 : x < 2147483648) : wrapInt x = x := by
  unfold wrapInt
  omega

/-- When the number of held notes times the magnitude of a non-zero octave span fits an
`int`, the count and the product `numNotes * numOctaves` are not wrapped, and the product
is not 0. -/
theorem totalSteps_fit (n k : Int) (hn : 0 < n) (hk : k ≠ 0) (hfit : n * |k| < 2147483648) :
    wrapInt n = n ∧ wrapInt (n * k) = n * k ∧ n * k ≠ 0 := by
  have h1 : 1 ≤ |k| := Int.one_le_abs hk
  have h2 : n ≤ n * |k| := by nlinarith
  have h3 : |n * k| = n * |k| := by rw [abs_mul, abs_of_pos hn]
  have h4 : |n * k| < 2147483648 := by rw [h3]; exact hfit
  obtain ⟨h5, h6⟩ := abs_lt.mp h4
  exact ⟨wrapInt_eq n (by omega) (by omega), wrapInt_eq _ (by omega) h6,
    mul_ne_zero hn.ne' hk⟩

/-- At step index 0 the note played is the first held note, capped at 127. -/
theorem getNextNote_step_zero (a : Arpeggiator) (x : Int) (xs : List Int)
    (hheld : a.sortedNotes = x :: xs) (hoct : a.numOctaves ≠ 0)
    (hfit : ((x :: xs).length : Int) * |a.numOctaves| < 2147483648)
    (hx0 : -2147483648 ≤ x) (hx1 : x < 2147483648) (hstep : a.currentStep = 0) :
    a.getNextNote = min x 127 := by
  have hlen : (0 : Int) < ((x :: xs).length : Int) := by
    simp only [List.length_cons]
    omega
  obtain ⟨w1, w2, w3⟩ := totalSteps_fit _ _ hlen hoct hfit
  have w0 : wrapInt 0 = 0 := rfl
  simp only [getNextNote, hheld, hstep, List.isEmpty_cons, Bool.false_eq_true, if_false, w1, w2,
    w3, Int.zero_tmod, Int.zero_tdiv, Int.toNat_zero, List.getD_cons_zero, zero_mul, add_zero,
    w0, wrapInt_eq x hx0 hx1]
  split_ifs with h
  · omega
  · omega

end Arpeggiator

/-- C9 (as amended): for an enabled sequencer whose held set is empty, whatever step
time has accumulated, when the step duration is computed without rounding and is at most
1,000,000 samples, the octave span is not 0 and the number of held notes times its
magnitude fits an `int`, every block of length >= 1 whose captured input leaves a note
held, the first held note being above 0 (and an `int`), makes `process` fire the next step
at the start of that block: the output contains the generated note-on (first held note
capped at 127, velocity 100, channel 1) at offset 0. The hypothesis `ExactStepDuration`
delimits the inputs on which the source, computing in `double`, obtains the step duration
of the embedding; the proof, which is about the exact values, does not need it. -/
theorem C9_instant_trigger (a : Arpeggiator) (input : MidiBuffer) (numSamples : Int)
    (playHead : Option AudioPlayHead) (x : Int) (xs : List Int)
    (hen : a.enabled = true) (hempty : a.sortedNotes = []) (hN : 1 ≤ numSamples)
    (hheld : (Arpeggiator.capturedState a input).sortedNotes = x :: xs)
    (hx : 0 < x) (hx1 : x < 2147483648)
    (hoct : a.numOctaves ≠ 0)
    (hfit : ((x :: xs).length : Int) * |a.numOctaves| < 2147483648)
    (_hexact : Arpeggiator.ExactStepDuration a playHead)
    (hsps : Arpeggiator.effectiveSamplesPerStep a playHead ≤ 1000000) :
    (⟨MidiMessage.noteOn 1 (min x 127) 100, 0⟩ : MidiEvent) ∈
      (a.process input numSamples playHead).2 := by
  obtain ⟨c1, c2, c3, c4, c5, c6⟩ := Arpeggiator.captureAndDrain_fst a input numSamples
  have hsps' : Arpeggiator.effectiveSamplesPerStep
      (Arpeggiator.captureAndDrain a input numSamples).1 playHead =
      Arpeggiator.effectiveSamplesPerStep a playHead :=
    Arpeggiator.effectiveSamplesPerStep_congr _ _ playHead c5 c6
  have htrig : (Arpeggiator.capturedState a input).currentStep = 0 ∧
      (Arpeggiator.capturedState a input).noteTime = 1000000 := by
    rcases Arpeggiator.capturedState_trigger a input hempty with h | h
    · rw [hheld] at h; exact absurd h (List.cons_ne_nil _ _)
    · exact h
  have hnote : (Arpeggiator.captureAndDrain a input numSamples).1.getNextNote = min x 127 :=
    Arpeggiator.getNextNote_step_zero _ x xs (c1.trans hheld) (by rw [c4]; exact hoct)
      (by rw [c4]; exact hfit) (by omega) hx1 (c2.trans htrig.1)
  rw [Arpeggiator.process_enabled a hen]
  have key := (Arpeggiator.generate_fires (Arpeggiator.captureAndDrain a input numSamples).1
    (Arpeggiator.captureAndDrain a input numSamples).2 numSamples playHead 0
    (by rw [c1, hheld]; exact List.cons_ne_nil _ _)
    (fun i hi => absurd hi (Nat.not_lt_zero i))
    (by
      rw [hsps']
      simp only [Arpeggiator.clampNoteTime, c3, htrig.2]
      split_ifs with hc
      · simp
      · rw [c3, htrig.2]
        simpa using hsps)
    (by simpa using hN)
    (by rw [hnote]; omega)).1
  rw [hnote] at key
  simpa using key

/-- At the default tempo of 120 BPM the step duration of the example sequencer is
computed without rounding: `60 / 120 = 1 / 2`, `1 / 2 * 44100 = 22050` and
`22050 / 4 = 11025 / 2`. -/
theorem exampleArp_exact : Arpeggiator.ExactStepDuration exampleArp none := by
  refine ⟨⟨1, -1, by norm_num, by norm_num, by norm_num, ?_⟩,
    ⟨11025, 1, by norm_num, by norm_num, by norm_num, ?_⟩,
    ⟨11025, -1, by norm_num, by norm_num, by norm_num, ?_⟩⟩
  · norm_num [Arpeggiator.tempoSpec]
  · norm_num [Arpeggiator.tempoSpec, exampleArp]
  · norm_num [Arpeggiator.tempoSpec, Arpeggiator.rateDivisorFloat, exampleArp]

/-- C9 (as amended) on the example sequencer: a block in which note 60 is pressed, at the
default tempo. -/
theorem C9_instant_trigger_witness :
    (⟨MidiMessage.noteOn 1 (min 60 127) 100, 0⟩ : MidiEvent) ∈
      (exampleArp.process pressAndController 64 none).2 :=
  C9_instant_trigger exampleArp pressAndController 64 none 60 [] rfl rfl (by decide)
    (by decide) (by decide) (by decide) (by decide) (by norm_num [exampleArp]) exampleArp_exact
    (by norm_num [Arpeggiator.effectiveSamplesPerStep, Arpeggiator.getSamplesPerStep, exampleArp])

/-- C9 fails as stated: the enabled sequencer with an empty held set receives a block of
64 samples whose input contains a note-on (released at the same offset), and the output
contains no generated note-on; it is empty. -/
theorem C9_counterexample :
    exampleArp.enabled = true ∧ exampleArp.sortedNotes = [] ∧
    (∃ e ∈ pressAndRelease, e.message.isNoteOn = true) ∧
    (exampleArp.process pressAndRelease 64 none).2 = [] := by
  refine ⟨rfl, rfl, ?_, by decide⟩
  exact ⟨_, List.mem_cons_self _ _, rfl⟩

end Wolf

namespace Wolf

theorem gridOffset_spec (k : Int) :
    k ≤ Arpeggiator.gridOffset k ∧ Arpeggiator.gridOffset k < k + 32 ∧ Arpeggiator.gridOffset k = 32 * ((k + 31) / 32) := by
  refine ⟨?_, ?_, rfl⟩
  · unfold Arpeggiator.gridOffset; omega
  · unfold Arpeggiator.gridOffset; omega

/-- C10 (as amended): step boundaries are handled at a granularity of 32 samples. The
statement covers the blocks in which the arithmetic of the source coincides with the exact
arithmetic of the embedding: the step duration is computed without rounding
(`ExactStepDuration`), the step time `t` accumulated once the block's input is captured is
a multiple of `2 ^ -20` of magnitude at most `2 ^ 32`, to which the loop adds without
rounding (`ExactStepTime`), and the step index is at least 0 and stays below `2 ^ 31`
during the block. When `t` is below the step duration, a note is held and the step's note
is above 0, let `k = ceil (stepDuration - t)` and let `m` be the first multiple of 32 at or
after `k` (so `k <= m < k + 32`); if `m < numSamples`, `process` places the generated
note-on at offset `m`, and no note-on of the output lies before `m`. The hypotheses on
exactness and on the step index delimit the inputs on which the source obtains the values
of the embedding (`exactStepTime_add`); the proof, which is about the exact values, does
not need them. -/
theorem C10_step_on_32_sample_grid (a : Arpeggiator) (input : MidiBuffer) (numSamples : Int)
    (playHead : Option AudioPlayHead) (hen : a.enabled = true)
    (_hstep : 0 ≤ a.currentStep) (_hstep2 : a.currentStep + numSamples < 2147483648)
    (_hexact : Arpeggiator.ExactStepDuration a playHead)
    (_htime : Arpeggiator.ExactStepTime (Arpeggiator.captureAndDrain a input numSamples).1.noteTime)
    (hheld : (Arpeggiator.captureAndDrain a input numSamples).1.sortedNotes ≠ [])
    (ht : (Arpeggiator.captureAndDrain a input numSamples).1.noteTime <
      Arpeggiator.effectiveSamplesPerStep (Arpeggiator.captureAndDrain a input numSamples).1
        playHead)
    (hnote : 0 < (Arpeggiator.captureAndDrain a input numSamples).1.getNextNote)
    (hin : Arpeggiator.gridOffset (Arpeggiator.stepBoundary
        (Arpeggiator.captureAndDrain a input numSamples).1.noteTime
        (Arpeggiator.effectiveSamplesPerStep (Arpeggiator.captureAndDrain a input numSamples).1
          playHead)) < numSamples) :
    (⟨MidiMessage.noteOn 1 (Arpeggiator.captureAndDrain a input numSamples).1.getNextNote 100,
        Arpeggiator.gridOffset (Arpeggiator.stepBoundary
          (Arpeggiator.captureAndDrain a input numSamples).1.noteTime
          (Arpeggiator.effectiveSamplesPerStep
            (Arpeggiator.captureAndDrain a input numSamples).1 playHead))⟩ : MidiEvent) ∈
      (a.process input numSamples playHead).2 ∧
    (∀ e ∈ (a.process input numSamples playHead).2, e.message.isNoteOn = true →
      Arpeggiator.gridOffset (Arpeggiator.stepBoundary
          (Arpeggiator.captureAndDrain a input numSamples).1.noteTime
          (Arpeggiator.effectiveSamplesPerStep
            (Arpeggiator.captureAndDrain a input numSamples).1 playHead)) ≤ e.samplePosition) ∧
    Arpeggiator.stepBoundary (Arpeggiator.captureAndDrain a input numSamples).1.noteTime
        (Arpeggiator.effectiveSamplesPerStep (Arpeggiator.captureAndDrain a input numSamples).1
          playHead) ≤
      Arpeggiator.gridOffset (Arpeggiator.stepBoundary
        (Arpeggiator.captureAndDrain a input numSamples).1.noteTime
        (Arpeggiator.effectiveSamplesPerStep (Arpeggiator.captureAndDrain a input numSamples).1
          playHead)) ∧
    Arpeggiator.gridOffset (Arpeggiator.stepBoundary
        (Arpeggiator.captureAndDrain a input numSamples).1.noteTime
        (Arpeggiator.effectiveSamplesPerStep (Arpeggiator.captureAndDrain a input numSamples).1
          playHead)) <
      Arpeggiator.stepBoundary (Arpeggiator.captureAndDrain a input numSamples).1.noteTime
        (Arpeggiator.effectiveSamplesPerStep (Arpeggiator.captureAndDrain a input numSamples).1
          playHead) + 32 := by
  generalize hc : Arpeggiator.captureAndDrain a input numSamples = c at *
  generalize hs : Arpeggiator.effectiveSamplesPerStep c.1 playHead = sps at *
  generalize hk : Arpeggiator.stepBoundary c.1.noteTime sps = k at *
  obtain ⟨g1, g2, g3⟩ := gridOffset_spec k
  have hk1 : 1 ≤ k := by
    rw [← hk, Arpeggiator.stepBoundary]
    exact Int.one_le_ceil_iff.mpr (sub_pos.mpr ht)
  have hclamp : (Arpeggiator.clampNoteTime c.1 sps).noteTime = c.1.noteTime := by
    simp only [Arpeggiator.clampNoteTime]
    rw [if_neg (not_lt.mpr (le_of_lt ht))]
  obtain ⟨j, hj⟩ : ∃ j : Nat, ((k + 31) / 32 : Int) = (j : Int) :=
    ⟨((k + 31) / 32).toNat, by omega⟩
  have hm : Arpeggiator.gridOffset k = 32 * (j : Int) := by rw [g3, hj]
  have key := Arpeggiator.generate_fires c.1 c.2 numSamples playHead j hheld
    (by
      intro i hi
      rw [hs, hclamp]
      have h1 : (32 * (i : Int)) < k := by omega
      have h2 : ((32 * (i : Int) : Int) : ℚ) < sps - c.1.noteTime := by
        rw [← hk, Arpeggiator.stepBoundary] at h1
        exact Int.lt_ceil.mp h1
      push_cast at h2
      linarith)
    (by
      rw [hs, hclamp]
      have h1 : k ≤ 32 * (j : Int) := by omega
      have h2 : sps - c.1.noteTime ≤ ((32 * (j : Int) : Int) : ℚ) := by
        rw [← hk, Arpeggiator.stepBoundary] at h1
        exact Int.ceil_le.mp h1
      push_cast at h2
      linarith)
    (by rw [← hm]; exact hin) hnote
  rw [Arpeggiator.process_enabled a hen, hc, hm]
  refine ⟨key.1, ?_, by rw [← hm]; exact g1, by rw [← hm]; exact g2⟩
  intro e he hon
  rcases key.2 e he hon with h | h
  · have := Arpeggiator.captureAndDrain_no_noteOn a input numSamples e (by rw [hc]; exact h)
    rw [this] at hon
    exact absurd hon (by decide)
  · exact h

end Wolf

namespace Wolf

/-- The sums the stepping loop forms from an exact step time in a block of fewer than
`2 ^ 31` samples are values of the type `double`: adding the samples does not round. -/
theorem exactStepTime_add (t : ℚ) (h : Arpeggiator.ExactStepTime t) (j : Int) (hj0 : 0 ≤ j)
    (hj1 : 32 * j < 2147483648) : IsDouble (t + 32 * j) := by
  obtain ⟨⟨m, hm⟩, hb⟩ := h
  refine ⟨m + 33554432 * j, -20, ?_, by norm_num, by norm_num, ?_⟩
  · have h1 : |(m : ℚ)| ≤ 4503599627370496 := by
      have e : (m : ℚ) = t * 1048576 := by rw [hm]; field_simp
      rw [e, abs_mul]
      have : |(1048576 : ℚ)| = 1048576 := abs_of_pos (by norm_num)
      rw [this]
      nlinarith [abs_nonneg t]
    have h2 : |m| ≤ 4503599627370496 := by exact_mod_cast h1
    obtain ⟨a, b⟩ := abs_le.mp h2
    norm_num
    rw [abs_lt]
    constructor <;> omega
  · rw [hm]
    push_cast
    norm_num
    ring

/-- At 240 BPM the step duration of the 48 kHz example is computed without rounding:
`60 / 240 = 1 / 4`, `1 / 4 * 48000 = 12000` and `12000 / 8 = 1500`; its step time is 0. -/
theorem gridExample_exact :
    Arpeggiator.ExactStepDuration gridExampleArp gridExamplePlayHead ∧
    Arpeggiator.ExactStepTime gridExampleArp.noteTime := by
  refine ⟨⟨⟨1, -2, by norm_num, by norm_num, by norm_num, ?_⟩,
    ⟨12000, 0, by norm_num, by norm_num, by norm_num, ?_⟩,
    ⟨1500, 0, by norm_num, by norm_num, by norm_num, ?_⟩⟩, ⟨0, ?_⟩, ?_⟩
  · norm_num [Arpeggiator.tempoSpec, gridExamplePlayHead]
  · norm_num [Arpeggiator.tempoSpec, gridExamplePlayHead, gridExampleArp]
  · norm_num [Arpeggiator.tempoSpec, Arpeggiator.rateDivisorFloat, gridExamplePlayHead,
      gridExampleArp]
  · norm_num [gridExampleArp]
  · norm_num [gridExampleArp]

theorem gridExample_facts :
    Arpeggiator.captureAndDrain gridExampleArp [] 2048 = (gridExampleArp, []) ∧
    Arpeggiator.effectiveSamplesPerStep gridExampleArp gridExamplePlayHead = 1500 ∧
    Arpeggiator.stepBoundary gridExampleArp.noteTime 1500 = 1500 ∧
    Arpeggiator.gridOffset 1500 = 1504 ∧
    gridExampleArp.getNextNote = 60 := by
  refine ⟨rfl, ?_, ?_, by decide, by decide⟩
  · norm_num [Arpeggiator.effectiveSamplesPerStep, Arpeggiator.getSamplesPerStep,
      gridExampleArp, gridExamplePlayHead]
  · have : (gridExampleArp.noteTime : ℚ) = 0 := rfl
    rw [Arpeggiator.stepBoundary, this, sub_zero]
    exact Int.ceil_natCast 1500

/-- C10 (as amended) on the 48 kHz example: step duration 1500, block of 2048 samples,
no step time accumulated; the boundary is at offset 1500 and the note-on is placed at
offset 1504. -/
theorem C10_step_on_32_sample_grid_witness :
    (⟨MidiMessage.noteOn 1 60 100, 1504⟩ : MidiEvent) ∈
      (gridExampleArp.process [] 2048 gridExamplePlayHead).2 ∧
    ∀ e ∈ (gridExampleArp.process [] 2048 gridExamplePlayHead).2,
      e.message.isNoteOn = true → (1504 : Int) ≤ e.samplePosition := by
  obtain ⟨f1, f2, f3, f4, f5⟩ := gridExample_facts
  have h := C10_step_on_32_sample_grid gridExampleArp [] 2048 gridExamplePlayHead rfl
    (by decide) (by decide) gridExample_exact.1 (by rw [f1]; exact gridExample_exact.2)
    (by rw [f1]; exact List.cons_ne_nil _ _)
    (by rw [f1, f2]; norm_num [gridExampleArp])
    (by rw [f1]; simp only [f5]; decide)
    (by rw [f1]; simp only [f2, f3, f4]; decide)
  rw [f1] at h
  simp only [f2, f3, f4, f5] at h
  exact ⟨h.1, h.2.1⟩

/-- C10 fails as stated: with step duration 1500, no accumulated step time and a block of
2048 samples, the step boundary `k = 1500` falls inside the block, yet no note-on of the
output lies at offset 1500; the generated note-on lies at offset 1504. -/
theorem C10_counterexample :
    gridExampleArp.noteTime <
      Arpeggiator.effectiveSamplesPerStep gridExampleArp gridExamplePlayHead ∧
    Arpeggiator.stepBoundary gridExampleArp.noteTime
      (Arpeggiator.effectiveSamplesPerStep gridExampleArp gridExamplePlayHead) = 1500 ∧
    (1500 : Int) < 2048 ∧
    (⟨MidiMessage.noteOn 1 60 100, 1504⟩ : MidiEvent) ∈
      (gridExampleArp.process [] 2048 gridExamplePlayHead).2 ∧
    ∀ e ∈ (gridExampleArp.process [] 2048 gridExamplePlayHead).2,
      e.message.isNoteOn = true → e.samplePosition ≠ 1500 := by
  obtain ⟨f1, f2, f3, f4, f5⟩ := gridExample_facts
  have hclamp : (Arpeggiator.clampNoteTime gridExampleArp 1500).noteTime = 0 := by
    norm_num [Arpeggiator.clampNoteTime, gridExampleArp]
  have key := Arpeggiator.generate_fires gridExampleArp [] 2048 gridExamplePlayHead 47
    (List.cons_ne_nil _ _)
    (by
      intro i hi
      rw [f2, hclamp]
      have : (i : ℚ) ≤ 46 := by exact_mod_cast Nat.lt_succ_iff.mp hi
      linarith)
    (by rw [f2, hclamp]; norm_num)
    (by decide) (by rw [f5]; decide)
  rw [f5] at key
  rw [Arpeggiator.process_enabled gridExampleArp rfl, f1]
  refine ⟨by rw [f2]; norm_num [gridExampleArp], by rw [f2]; exact f3, by decide, key.1, ?_⟩
  intro e he hon
  rcases key.2 e he hon with h | h
  · simp at h
  · have h' : (1504 : Int) ≤ e.samplePosition := h
    omega

end Wolf

namespace Wolf
namespace Arpeggiator

/-! ## Gate scheduling inside one block -/

/-- What one firing step adds: nothing when its note is not positive, otherwise the
note-on with either its note-off or its pending release. -/
theorem fireStep_fires (numSamples : Int) (sps : ℚ) (s : StepLoop) (g : Int)
    (hg : truncToInt (sps * s.arp.gateLength) = g) :
    ∃ fires : List (Int × Int),
      (fireStep numSamples sps s).processedMidi.Perm
        (s.processedMidi ++ fires.flatMap (stepEvents numSamples g)) ∧
      (fireStep numSamples sps s).arp.activeNotes =
        s.arp.activeNotes ++ fires.filterMap (stepPending numSamples g) ∧
      ∀ f ∈ fires, 0 < f.1 ∧ f.2 = s.currentSamplePos := by
  simp only [fireStep, hg]
  split_ifs with c1 c2
  · refine ⟨[(({ s.arp with noteTime := s.arp.noteTime - sps } : Arpeggiator).getNextNote,
      s.currentSamplePos)], ?_, ?_, ?_⟩
    · simp only [List.flatMap_cons, List.flatMap_nil, List.append_nil, stepEvents, c2, if_true]
      refine (addEvent_perm _ _ _).trans ?_
      refine (List.Perm.cons _ (addEvent_perm _ _ _)).trans ?_
      refine (List.Perm.swap _ _ _).trans ?_
      exact @List.perm_append_comm _ [_, _] s.processedMidi
    · simp [stepPending, c2]
    · intro f hf
      simp only [List.mem_singleton] at hf
      subst hf
      exact ⟨c1, rfl⟩
  · refine ⟨[(({ s.arp with noteTime := s.arp.noteTime - sps } : Arpeggiator).getNextNote,
      s.currentSamplePos)], ?_, ?_, ?_⟩
    · simp only [List.flatMap_cons, List.flatMap_nil, List.append_nil, stepEvents, c2, if_false]
      refine (addEvent_perm _ _ _).trans ?_
      exact @List.perm_append_comm _ [_] s.processedMidi
    · simp [stepPending, c2]
    · intro f hf
      simp only [List.mem_singleton] at hf
      subst hf
      exact ⟨c1, rfl⟩
  · exact ⟨[], by simp, by simp, by simp⟩

end Arpeggiator
end Wolf

namespace Wolf
namespace Arpeggiator

theorem stepBody_fires_list (numSamples : Int) (sps : ℚ) (s : StepLoop) (g : Int)
    (hg : truncToInt (sps * s.arp.gateLength) = g) :
    ∃ fires : List (Int × Int),
      (stepBody numSamples sps s).processedMidi.Perm
        (s.processedMidi ++ fires.flatMap (stepEvents numSamples g)) ∧
      (stepBody numSamples sps s).arp.activeNotes =
        s.arp.activeNotes ++ fires.filterMap (stepPending numSamples g) ∧
      ∀ f ∈ fires, 0 < f.1 ∧ f.2 = s.currentSamplePos := by
  simp only [stepBody]
  split_ifs with hc
  · exact fireStep_fires numSamples sps s g hg
  · exact ⟨[], by simp, by simp, by simp⟩

/-- What the stepping loop adds: for a list of firing steps (note, offset), each inside
the part of the block still to be processed, the note-on of every step together with
either its note-off in the block or its pending release. -/
theorem stepLoop_fires_list (numSamples : Int) (sps : ℚ) (g : Int) (fuel : Nat) (s : StepLoop)
    (hg : truncToInt (sps * s.arp.gateLength) = g) :
    ∃ fires : List (Int × Int),
      (stepLoop numSamples sps fuel s).processedMidi.Perm
        (s.processedMidi ++ fires.flatMap (stepEvents numSamples g)) ∧
      (stepLoop numSamples sps fuel s).arp.activeNotes =
        s.arp.activeNotes ++ fires.filterMap (stepPending numSamples g) ∧
      ∀ f ∈ fires, 0 < f.1 ∧ s.currentSamplePos ≤ f.2 ∧
        f.2 < s.currentSamplePos + s.samplesRemaining := by
  induction fuel generalizing s with
  | zero => exact ⟨[], by simp [stepLoop], by simp [stepLoop], by simp⟩
  | succ n ih =>
    simp only [stepLoop]
    split_ifs with hc
    · obtain ⟨f1, p1, a1, h1⟩ := stepBody_fires_list numSamples sps s g hg
      obtain ⟨f2, p2, a2, h2⟩ := ih (stepBody numSamples sps s)
        (by rw [stepBody_gateLength]; exact hg)
      obtain ⟨e1, e2⟩ := stepBody_pos numSamples sps s
      refine ⟨f1 ++ f2, ?_, ?_, ?_⟩
      · rw [List.flatMap_append, ← List.append_assoc]
        exact p2.trans (List.Perm.append_right _ p1)
      · rw [a2, a1, List.filterMap_append, List.append_assoc]
      · intro f hf
        rcases List.mem_append.mp hf with hf | hf
        · obtain ⟨q1, q2⟩ := h1 f hf
          exact ⟨q1, by omega, by omega⟩
        · obtain ⟨q1, q2, q3⟩ := h2 f hf
          rw [e1, e2] at q3
          rw [e1] at q2
          exact ⟨q1, by omega, by omega⟩
    · exact ⟨[], by simp, by simp, by simp⟩

/-- Section 4 as a whole: the generated events and pending releases of a block. -/
theorem generate_fires_list (a : Arpeggiator) (buf : MidiBuffer) (numSamples : Int)
    (playHead : Option AudioPlayHead) (g : Int)
    (hg : truncToInt (effectiveSamplesPerStep a playHead * a.gateLength) = g) :
    ∃ fires : List (Int × Int),
      (generate a buf numSamples playHead).2.Perm
        (buf ++ fires.flatMap (stepEvents numSamples g)) ∧
      (generate a buf numSamples playHead).1.activeNotes =
        a.activeNotes ++ fires.filterMap (stepPending numSamples g) ∧
      ∀ f ∈ fires, 0 < f.1 ∧ 0 ≤ f.2 ∧ f.2 < numSamples := by
  simp only [generate]
  split_ifs with hemp
  · exact ⟨[], by simp, by simp, by simp⟩
  · obtain ⟨c1, c2, -⟩ := clampNoteTime_frame a (effectiveSamplesPerStep a playHead)
    obtain ⟨fires, p, q, r⟩ := stepLoop_fires_list numSamples (effectiveSamplesPerStep a playHead)
      g numSamples.toNat (loopStart a buf numSamples (effectiveSamplesPerStep a playHead))
      (by simp only [loopStart, c1]; exact hg)
    refine ⟨fires, p, ?_, ?_⟩
    · rw [q]
      simp only [loopStart, c2]
    · intro f hf
      obtain ⟨r1, r2, r3⟩ := r f hf
      simp only [loopStart, zero_add] at r2 r3
      exact ⟨r1, r2, r3⟩

end Arpeggiator
end Wolf

namespace Wolf
namespace Arpeggiator

/-! ## Runs that differ in one pending release -/

theorem withActive_self (a : Arpeggiator) : withActive a a.activeNotes = a := rfl

/-- The firing step written out field by field. -/
theorem fireStep_eq (numSamples : Int) (sps : ℚ) (s : StepLoop) :
    fireStep numSamples sps s =
      ⟨{ s.arp with
          noteTime := s.arp.noteTime - sps
          currentStep := s.arp.currentStep + 1
          activeNotes := s.arp.activeNotes ++
            firePending numSamples s.arp.getNextNote s.currentSamplePos
              (truncToInt (sps * s.arp.gateLength)) },
        fireOutput numSamples s.arp.getNextNote s.currentSamplePos
          (truncToInt (sps * s.arp.gateLength)) s.processedMidi,
        s.samplesRemaining, s.currentSamplePos⟩ := by
  have hn : ({ s.arp with noteTime := s.arp.noteTime - sps } : Arpeggiator).getNextNote =
      s.arp.getNextNote := rfl
  by_cases c1 : 0 < s.arp.getNextNote
  · by_cases c2 : s.currentSamplePos + truncToInt (sps * s.arp.gateLength) < numSamples
    · simp [fireStep, hn, c1, c2, fireOutput, firePending]
    · simp [fireStep, hn, c1, c2, fireOutput, firePending]
  · simp [fireStep, hn, c1, fireOutput, firePending]

end Arpeggiator
end Wolf

namespace Wolf
namespace Arpeggiator

theorem drainPending_perm (numSamples : Int) (active : List ActiveNote) (buf : MidiBuffer) :
    (drainPending numSamples active buf).2.Perm
      (buf ++ (active.filter (fun a => decide (a.samplesRemaining < numSamples))).map
        (fun a => (⟨MidiMessage.noteOff 1 a.noteNumber, a.samplesRemaining⟩ : MidiEvent))) := by
  induction active generalizing buf with
  | nil => simp [drainPending]
  | cons a rest ih =>
    simp only [drainPending]
    split_ifs with h
    · rw [List.filter_cons]
      simp only [h, decide_True, if_true, List.map_cons]
      refine (ih _).trans ?_
      refine (List.Perm.append_right _ (addEvent_perm _ _ _)).trans ?_
      simp only [List.cons_append]
      exact List.perm_middle.symm
    · rw [List.filter_cons]
      simp only [h, decide_False, Bool.false_eq_true, if_false]
      exact ih _

end Arpeggiator
end Wolf

namespace Wolf
namespace Arpeggiator

/-- The input loop does not look at the pending list and, short of an "all notes off",
does not change it. -/
theorem captureEvent_withActive (a : Arpeggiator) (buf : MidiBuffer) (l : List ActiveNote)
    (ev : MidiEvent) (h : ev.message.isAllNotesOff = false) :
    captureEvent (withActive a l, buf) ev =
      (withActive (captureEvent (a, buf) ev).1 l, (captureEvent (a, buf) ev).2) ∧
    (captureEvent (a, buf) ev).1.activeNotes = a.activeNotes := by
  obtain ⟨msg, pos⟩ := ev
  cases msg with
  | noteOn c n v =>
    simp only [captureEvent, handleNoteOn, withActive]
    split_ifs <;> exact ⟨rfl, rfl⟩
  | noteOff c n => exact ⟨rfl, rfl⟩
  | allNotesOff c => simp [MidiMessage.isAllNotesOff] at h
  | other d => exact ⟨rfl, rfl⟩

end Arpeggiator
end Wolf

namespace Wolf
namespace Arpeggiator

/-! ## A pending release over a sequence of blocks -/

end Arpeggiator
end Wolf

namespace Wolf

end Wolf

/-! ## The disabled branch -/

namespace Wolf

theorem filter_addEvent (p : MidiEvent → Bool) (buf : MidiBuffer) (msg : MidiMessage) (pos : Int)
    (h : p ⟨msg, pos⟩ = false) : (addEvent buf msg pos).filter p = buf.filter p := by
  induction buf with
  | nil => simp [addEvent, h]
  | cons e rest ih =>
    unfold addEvent
    split_ifs
    · simp only [List.filter_cons, ih]
    · simp only [List.filter_cons, h, Bool.false_eq_true, if_false]

theorem sublist_addEvent (buf : MidiBuffer) (msg : MidiMessage) (pos : Int) :
    buf.Sublist (addEvent buf msg pos) := by
  induction buf with
  | nil => simp [addEvent]
  | cons e rest ih =>
    unfold addEvent
    split_ifs
    · exact ih.cons₂ e
    · exact List.Sublist.cons _ (List.Sublist.refl _)

namespace Arpeggiator

theorem drainPending_filter (p : MidiEvent → Bool)
    (hp : ∀ (n : Int) (pos : Int), p ⟨MidiMessage.noteOff 1 n, pos⟩ = false)
    (numSamples : Int) (active : List ActiveNote) (buf : MidiBuffer) :
    (drainPending numSamples active buf).2.filter p = buf.filter p := by
  induction active generalizing buf with
  | nil => rfl
  | cons it rest ih =>
    simp only [drainPending]
    split_ifs
    · rw [ih, filter_addEvent p _ _ _ (hp _ _)]
    · exact ih buf

theorem drainPending_sublist (numSamples : Int) (active : List ActiveNote) (buf : MidiBuffer) :
    buf.Sublist (drainPending numSamples active buf).2 := by
  induction active generalizing buf with
  | nil => exact List.Sublist.refl _
  | cons it rest ih =>
    simp only [drainPending]
    split_ifs
    · exact (sublist_addEvent buf _ _).trans (ih _)
    · exact ih buf

theorem process_disabled (a : Arpeggiator) (hdis : a.enabled = false) (input : MidiBuffer)
    (numSamples : Int) (playHead : Option AudioPlayHead) :
    a.process input numSamples playHead =
      (withActive a (drainPending numSamples a.activeNotes input).1,
        (drainPending numSamples a.activeNotes input).2) := by
  unfold process
  simp [hdis, withActive]

end Arpeggiator

/-- C13: with the arpeggiator disabled, `process` adds to the buffer one note-off at
offset `r` for every pending release whose count `r` is below `numSamples` (the output
is the input plus these note-offs, up to the order of simultaneous events), keeps the
other pending releases with their counts reduced by `numSamples`, and changes nothing
else in the state: held set, step index and step time are as before. No note-on is
generated: every note-on of the output is an input event. -/
theorem C13_disabled_drains_pending (a : Arpeggiator) (hdis : a.enabled = false)
    (input : MidiBuffer) (numSamples : Int) (playHead : Option AudioPlayHead) :
    (a.process input numSamples playHead).2.Perm
      (input ++ (a.activeNotes.filter (fun p => decide (p.samplesRemaining < numSamples))).map
        (fun p => (⟨MidiMessage.noteOff 1 p.noteNumber, p.samplesRemaining⟩ : MidiEvent))) ∧
    (a.process input numSamples playHead).1 =
      Arpeggiator.withActive a
        ((a.activeNotes.filter (fun p => decide (¬ p.samplesRemaining < numSamples))).map
          (fun p => { p with samplesRemaining := p.samplesRemaining - numSamples })) ∧
    (a.process input numSamples playHead).1.sortedNotes = a.sortedNotes ∧
    (a.process input numSamples playHead).1.currentStep = a.currentStep ∧
    (a.process input numSamples playHead).1.noteTime = a.noteTime ∧
    ∀ e ∈ (a.process input numSamples playHead).2, e.message.isNoteOn = true → e ∈ input := by
  rw [Arpeggiator.process_disabled a hdis]
  refine ⟨Arpeggiator.drainPending_perm _ _ _, ?_, rfl, rfl, rfl, ?_⟩
  · rw [Arpeggiator.drainPending_fst]
  · intro e he hon
    rcases (Arpeggiator.mem_drainPending _ _ _ _).mp he with h | ⟨p, -, -, rfl⟩
    · exact h
    · simp [MidiMessage.isNoteOn] at hon

/-- C13 on a disabled sequencer with two pending releases (counts 10 and 100) and a
64-sample block in which note 72 is pressed. -/
theorem C13_disabled_drains_pending_witness :
    disabledArp.enabled = false ∧
    (disabledArp.process pressSeventyTwo 64 none).2.Perm
      (pressSeventyTwo ++
        (disabledArp.activeNotes.filter (fun p => decide (p.samplesRemaining < 64))).map
          (fun p => (⟨MidiMessage.noteOff 1 p.noteNumber, p.samplesRemaining⟩ : MidiEvent))) ∧
    (disabledArp.process pressSeventyTwo 64 none).1 =
      Arpeggiator.withActive disabledArp
        ((disabledArp.activeNotes.filter (fun p => decide (¬ p.samplesRemaining < 64))).map
          (fun p => { p with samplesRemaining := p.samplesRemaining - 64 })) ∧
    (disabledArp.process pressSeventyTwo 64 none).1.sortedNotes = disabledArp.sortedNotes ∧
    (disabledArp.process pressSeventyTwo 64 none).1.currentStep = disabledArp.currentStep ∧
    (disabledArp.process pressSeventyTwo 64 none).1.noteTime = disabledArp.noteTime ∧
    ∀ e ∈ (disabledArp.process pressSeventyTwo 64 none).2, e.message.isNoteOn = true →
      e ∈ pressSeventyTwo :=
  ⟨rfl, C13_disabled_drains_pending disabledArp rfl pressSeventyTwo 64 none⟩

/-- C14 (as amended): with the arpeggiator disabled, `process` leaves every input event
in the buffer, in order, and generates no note-on of its own: the note-ons of the event
list it leaves for the voices are exactly the note-ons of the input. -/
theorem C14_disabled_forwards_input (a : Arpeggiator) (hdis : a.enabled = false)
    (input : MidiBuffer) (numSamples : Int) (playHead : Option AudioPlayHead) :
    input.Sublist (a.process input numSamples playHead).2 ∧
    (a.process input numSamples playHead).2.filter (fun e => e.message.isNoteOn) =
      input.filter (fun e => e.message.isNoteOn) := by
  rw [Arpeggiator.process_disabled a hdis]
  exact ⟨Arpeggiator.drainPending_sublist _ _ _,
    Arpeggiator.drainPending_filter _ (fun _ _ => rfl) _ _ _⟩

/-- C14 (as amended) on the disabled example sequencer and a block pressing note 72. -/
theorem C14_disabled_forwards_input_witness :
    disabledArp.enabled = false ∧
    pressSeventyTwo.Sublist (disabledArp.process pressSeventyTwo 64 none).2 ∧
    (disabledArp.process pressSeventyTwo 64 none).2.filter (fun e => e.message.isNoteOn) =
      pressSeventyTwo.filter (fun e => e.message.isNoteOn) :=
  ⟨rfl, C14_disabled_forwards_input disabledArp rfl pressSeventyTwo 64 none⟩

/-- C14 fails as stated: the disabled sequencer receives a block with a note-on for note
72, and the event list it leaves contains that note-on. -/
theorem C14_counterexample :
    disabledArp.enabled = false ∧
    ∃ e ∈ (disabledArp.process pressSeventyTwo 64 none).2, e.message.isNoteOn = true := by
  refine ⟨rfl, ⟨MidiMessage.noteOn 1 72 90, 5⟩, ?_, rfl⟩
  decide

end Wolf

/-! ## The enabled branch: what is forwarded and what is generated -/

namespace Wolf
namespace Arpeggiator

end Arpeggiator

end Wolf

/-! ## The notes the sequencer generates -/

namespace Wolf
namespace Arpeggiator

theorem getNextNote_derivable (a : Arpeggiator) (hstep : 0 ≤ a.currentStep)
    (hspan : SpanFits a.sortedNotes a.numOctaves)
    (hnote : 0 < a.getNextNote) : Derivable a.sortedNotes a.numOctaves a.getNextNote := by
  obtain ⟨hheld, hfit, hspan12⟩ := hspan
  unfold getNextNote at hnote ⊢
  cases hl : a.sortedNotes with
  | nil => simp [hl] at hnote
  | cons x xs =>
    rw [hl] at hnote hfit hheld
    simp only [List.isEmpty_cons, Bool.false_eq_true, if_false] at hnote ⊢
    have hlen : (0 : Int) < ((x :: xs).length : Int) := by
      simp only [List.length_cons]
      omega
    by_cases hoct : a.numOctaves = 0
    · have w0 : wrapInt 0 = 0 := rfl
      rw [hoct, mul_zero, w0, if_pos rfl] at hnote
      exact absurd hnote (by decide)
    · obtain ⟨w1, w2, w3⟩ := totalSteps_fit _ _ hlen hoct hfit
      simp only [w1, w2, w3, if_false] at hnote ⊢
      generalize hn : ((x :: xs).length : Int) = n at *
      have hnpos : 0 < n := hlen
      generalize hw : Int.tmod a.currentStep (n * a.numOctaves) = w
      have hw0 : 0 ≤ w := by rw [← hw]; exact Int.tmod_nonneg _ hstep
      have hw1 : w < n * |a.numOctaves| := by
        rw [← hw]
        rcases lt_or_gt_of_ne hoct with h | h
        · have e : n * a.numOctaves = -(n * |a.numOctaves|) := by
            rw [abs_of_neg h]; ring
          rw [e, Int.tmod_neg]
          exact Int.tmod_lt_of_pos _ (mul_pos hnpos (abs_pos.mpr hoct))
        · rw [abs_of_pos h]
          exact Int.tmod_lt_of_pos _ (mul_pos hnpos h)
      have hidx : Int.tmod w n = w % n := Int.tmod_eq_emod hw0 hnpos.le
      have hoff : Int.tdiv w n = w / n := Int.tdiv_eq_ediv hw0 hnpos.le
      have hi0 : 0 ≤ w % n := Int.emod_nonneg _ hnpos.ne'
      have hi1 : w % n < n := Int.emod_lt_of_pos _ hnpos
      have ho0 : 0 ≤ w / n := Int.ediv_nonneg hw0 hnpos.le
      have ho1 : w / n < |a.numOctaves| :=
        Int.ediv_lt_of_lt_mul hnpos (by rw [mul_comm]; exact hw1)
      have hlt : (w % n).toNat < (x :: xs).length := by
        have : ((w % n).toNat : Int) < ((x :: xs).length : Int) := by
          rw [Int.toNat_of_nonneg hi0, hn]; exact hi1
        exact_mod_cast this
      have hmem : (x :: xs).getD (w % n).toNat 0 ∈ x :: xs := by
        rw [List.getD_eq_getElem _ _ hlt]
        exact List.getElem_mem _
      obtain ⟨hv0, hv1⟩ := hheld _ hmem
      refine ⟨_, hmem, w / n, ho0, ho1, ?_⟩
      rw [hidx, hoff]
      generalize |a.numOctaves| = K at ho1 hspan12 hv1
      generalize (x :: xs).getD (w % n).toNat 0 = v at hv0 hv1 ⊢
      generalize w / n = o at ho0 ho1 ⊢
      rw [wrapInt_eq (o * 12) (by omega) (by omega), wrapInt_eq (v + o * 12) (by omega) (by omega)]
      split_ifs with h
      · rw [min_eq_left]; omega
      · rw [min_eq_right]
        · ring
        · omega

theorem fireOutput_noteOn (numSamples note pos g : Int) (buf : MidiBuffer) (e : MidiEvent)
    (he : e ∈ fireOutput numSamples note pos g buf) (hon : e.message.isNoteOn = true) :
    e ∈ buf ∨ (0 < note ∧ e.message.getNoteNumber = note) := by
  unfold fireOutput at he
  split_ifs at he with h1 h2
  · rcases (mem_addEvent _ _ _ _).mp he with rfl | he
    · simp [MidiMessage.isNoteOn] at hon
    · rcases (mem_addEvent _ _ _ _).mp he with rfl | he
      · exact Or.inr ⟨h1, rfl⟩
      · exact Or.inl he
  · rcases (mem_addEvent _ _ _ _).mp he with rfl | he
    · exact Or.inr ⟨h1, rfl⟩
    · exact Or.inl he
  · exact Or.inl he

theorem stepBody_held (numSamples : Int) (sps : ℚ) (s : StepLoop) :
    (stepBody numSamples sps s).arp.sortedNotes = s.arp.sortedNotes ∧
    (stepBody numSamples sps s).arp.numOctaves = s.arp.numOctaves ∧
    s.arp.currentStep ≤ (stepBody numSamples sps s).arp.currentStep := by
  simp only [stepBody]
  split_ifs
  · rw [fireStep_eq]
    exact ⟨rfl, rfl, by simp⟩
  · exact ⟨rfl, rfl, le_refl _⟩

theorem stepBody_noteOn_derivable (numSamples : Int) (sps : ℚ) (s : StepLoop)
    (hstep : 0 ≤ s.arp.currentStep) (hspan : SpanFits s.arp.sortedNotes s.arp.numOctaves)
    (e : MidiEvent)
    (he : e ∈ (stepBody numSamples sps s).processedMidi) (hon : e.message.isNoteOn = true) :
    e ∈ s.processedMidi ∨
      Derivable s.arp.sortedNotes s.arp.numOctaves e.message.getNoteNumber := by
  rw [stepBody_processedMidi] at he
  split_ifs at he
  · rw [fireStep_eq] at he
    rcases fireOutput_noteOn _ _ _ _ _ e he hon with h | ⟨h1, h2⟩
    · exact Or.inl h
    · rw [h2]
      exact Or.inr (getNextNote_derivable s.arp hstep hspan h1)
  · exact Or.inl he

theorem stepLoop_noteOn_derivable (numSamples : Int) (sps : ℚ) (fuel : Nat) (s : StepLoop)
    (hstep : 0 ≤ s.arp.currentStep) (hspan : SpanFits s.arp.sortedNotes s.arp.numOctaves)
    (e : MidiEvent)
    (he : e ∈ (stepLoop numSamples sps fuel s).processedMidi)
    (hon : e.message.isNoteOn = true) :
    e ∈ s.processedMidi ∨
      Derivable s.arp.sortedNotes s.arp.numOctaves e.message.getNoteNumber := by
  induction fuel generalizing s with
  | zero => exact Or.inl he
  | succ n ih =>
    simp only [stepLoop] at he
    split_ifs at he
    · obtain ⟨f1, f2, f3⟩ := stepBody_held numSamples sps s
      rcases ih _ (le_trans hstep f3) (by rw [f1, f2]; exact hspan) he with h | h
      · exact stepBody_noteOn_derivable numSamples sps s hstep hspan e h hon
      · rw [f1, f2] at h
        exact Or.inr h
    · exact Or.inl he

theorem captureEvent_step_nonneg (s : Arpeggiator × MidiBuffer) (e : MidiEvent)
    (h : 0 ≤ s.1.currentStep) : 0 ≤ (captureEvent s e).1.currentStep := by
  unfold captureEvent
  cases e.message with
  | noteOn c n v =>
    simp only [handleNoteOn]
    split_ifs <;> first | exact h | exact le_refl _
  | noteOff c n => exact h
  | allNotesOff c => exact le_refl _
  | other d => exact h

theorem foldl_captureEvent_step_nonneg (input : MidiBuffer) (s : Arpeggiator × MidiBuffer)
    (h : 0 ≤ s.1.currentStep) : 0 ≤ (input.foldl captureEvent s).1.currentStep := by
  induction input generalizing s with
  | nil => exact h
  | cons e rest ih => exact ih _ (captureEvent_step_nonneg s e h)

theorem generate_noteOn_derivable (a : Arpeggiator) (buf : MidiBuffer) (numSamples : Int)
    (playHead : Option AudioPlayHead) (hstep : 0 ≤ a.currentStep)
    (hspan : SpanFits a.sortedNotes a.numOctaves) (e : MidiEvent)
    (he : e ∈ (generate a buf numSamples playHead).2) (hon : e.message.isNoteOn = true) :
    e ∈ buf ∨ Derivable a.sortedNotes a.numOctaves e.message.getNoteNumber := by
  simp only [generate] at he
  split_ifs at he
  · exact Or.inl he
  · obtain ⟨-, -, c3, c4, c5⟩ := clampNoteTime_frame a (effectiveSamplesPerStep a playHead)
    rcases stepLoop_noteOn_derivable numSamples _ _ _ (by simp only [loopStart, c4]; exact hstep)
      (by simp only [loopStart, c3, c5]; exact hspan) e he hon with h | h
    · exact Or.inl h
    · simp only [loopStart, c3, c5] at h
      exact Or.inr h

end Arpeggiator

/-- The block of `highNoteArp` evaluated: the step with index 1 fires at offset 0 with the
note 120 + 12 capped at 127, and its release stays pending. -/
theorem highNoteArp_output :
    (highNoteArp.process [] 32 none).2 = [⟨MidiMessage.noteOn 1 127 100, 0⟩] := by
  have hc : Arpeggiator.captureAndDrain highNoteArp [] 32 = (highNoteArp, []) := by
    simp [Arpeggiator.captureAndDrain, highNoteArp, Arpeggiator.drainPending]
  have hs : Arpeggiator.effectiveSamplesPerStep highNoteArp none = 11025 / 2 := by
    norm_num [Arpeggiator.effectiveSamplesPerStep, Arpeggiator.getSamplesPerStep, highNoteArp]
  rw [Arpeggiator.process_enabled _ rfl, hc]
  have hne : highNoteArp.sortedNotes.isEmpty = false := rfl
  simp only [Arpeggiator.generate, hs, hne, Bool.false_eq_true, if_false]
  rw [show (32 : Int).toNat = 31 + 1 from rfl]
  rw [Arpeggiator.stepLoop_succ _ _ _ _ (by simp [Arpeggiator.loopStart])]
  have b1 : Arpeggiator.stepBody 32 (11025 / 2)
      (Arpeggiator.loopStart highNoteArp [] 32 (11025 / 2)) =
      ⟨{ highNoteArp with currentStep := 2, noteTime := 32,
                          activeNotes := [{ noteNumber := 127, samplesRemaining := 2724 }] },
        [⟨MidiMessage.noteOn 1 127 100, 0⟩], 0, 32⟩ := by
    have hg : truncToInt (11025 / 4) = 2756 := by
      norm_num [truncToInt]
    have hm : Int.tmod 1 2 = 1 := rfl
    norm_num [Arpeggiator.stepBody, Arpeggiator.loopStart, Arpeggiator.clampNoteTime,
      Arpeggiator.fireStep, Arpeggiator.getNextNote, wrapInt, highNoteArp, addEvent, hg, hm]
  rw [b1, Arpeggiator.stepLoop_nonpos _ _ _ _ (by norm_num)]

/-- C11 (as amended): for every held set and octave span for which the arithmetic of
`getNextNote` stays inside the range of `int` (the number of held notes times the magnitude
of the span is below `2 ^ 31`, so is 12 times the magnitude, and so is every held note
plus 12 times the magnitude) and every step index that is at least 0 and stays below `2 ^ 31`
during the block, every note-on in the output of `process` is either an input event left
in place by the disabled branch (which generates nothing), or has a note number
`min 127 (h + 12 * o)` for a note `h` of the held set as it stands after the block's input
was captured and an octave offset `o` with `0 <= o < |octaveSpan|`. The upper bound on the
step index keeps `currentStep++`, which happens at most once per sample of the block,
inside the range of `int`; the embedding counts in `Int`, so the proof does not need it. -/
theorem C11_note_from_held_set (a : Arpeggiator) (input : MidiBuffer) (numSamples : Int)
    (playHead : Option AudioPlayHead) (hstep : 0 ≤ a.currentStep)
    (_hstep2 : a.currentStep + numSamples < 2147483648)
    (hspan : Arpeggiator.SpanFits (Arpeggiator.capturedState a input).sortedNotes a.numOctaves)
    (e : MidiEvent)
    (he : e ∈ (a.process input numSamples playHead).2) (hon : e.message.isNoteOn = true) :
    (a.enabled = false ∧ e ∈ input) ∨
    ∃ h ∈ (Arpeggiator.capturedState a input).sortedNotes, ∃ o : Int,
      0 ≤ o ∧ o < |a.numOctaves| ∧ e.message.getNoteNumber = min 127 (h + 12 * o) := by
  cases hen : a.enabled
  · left
    refine ⟨rfl, ?_⟩
    unfold Arpeggiator.process at he
    simp only [hen, Bool.not_false, if_true] at he
    rcases (Arpeggiator.mem_drainPending _ _ _ _).mp he with h | ⟨p, -, -, rfl⟩
    · exact h
    · simp [MidiMessage.isNoteOn] at hon
  · right
    rw [Arpeggiator.process_enabled a hen] at he
    obtain ⟨c1, c2, -, c4, -, -⟩ := Arpeggiator.captureAndDrain_fst a input numSamples
    have h0 : 0 ≤ (Arpeggiator.captureAndDrain a input numSamples).1.currentStep := by
      rw [c2]
      exact Arpeggiator.foldl_captureEvent_step_nonneg input (a, []) hstep
    rcases Arpeggiator.generate_noteOn_derivable _ _ numSamples playHead h0
      (by rw [c1, c4]; exact hspan) e he hon with h | h
    · have := Arpeggiator.captureAndDrain_no_noteOn a input numSamples e h
      rw [this] at hon
      exact absurd hon (by decide)
    · rw [c1, c4] at h
      exact h

/-- The two-octave example holds the note 120, and its span of 2 keeps the arithmetic of
`getNextNote` inside the range of `int`. -/
theorem highNoteArp_spanFits :
    Arpeggiator.SpanFits (Arpeggiator.capturedState highNoteArp []).sortedNotes
      highNoteArp.numOctaves := by
  refine ⟨?_, ?_, ?_⟩
  · intro h hh
    have hh' : h = 120 := by simpa [Arpeggiator.capturedState, highNoteArp] using hh
    have hk : |highNoteArp.numOctaves| = 2 := by norm_num [highNoteArp]
    rw [hh', hk]
    exact ⟨by norm_num, by norm_num⟩
  · norm_num [Arpeggiator.capturedState, highNoteArp]
  · norm_num [highNoteArp]

/-- C11 (as amended) on the two-octave example: the generated note-on 127 comes from the
held note 120 with octave offset 1. -/
theorem C11_note_from_held_set_witness :
    (0 : Int) ≤ highNoteArp.currentStep ∧ highNoteArp.currentStep + 32 < 2147483648 ∧
    Arpeggiator.SpanFits (Arpeggiator.capturedState highNoteArp []).sortedNotes
      highNoteArp.numOctaves ∧
    (⟨MidiMessage.noteOn 1 127 100, 0⟩ : MidiEvent) ∈ (highNoteArp.process [] 32 none).2 ∧
    ((highNoteArp.enabled = false ∧ (⟨MidiMessage.noteOn 1 127 100, 0⟩ : MidiEvent) ∈ []) ∨
      ∃ h ∈ (Arpeggiator.capturedState highNoteArp []).sortedNotes, ∃ o : Int,
        0 ≤ o ∧ o < |highNoteArp.numOctaves| ∧
          (MidiMessage.noteOn 1 127 100).getNoteNumber = min 127 (h + 12 * o)) :=
  ⟨by decide, by decide, highNoteArp_spanFits,
    by rw [highNoteArp_output]; exact List.mem_singleton.mpr rfl,
    C11_note_from_held_set highNoteArp [] 32 none (by decide) (by decide) highNoteArp_spanFits _
      (by rw [highNoteArp_output]; exact List.mem_singleton.mpr rfl) rfl⟩

/-- C11 fails as stated: with note 120 held over two octaves, the step with index 1
emits a note-on for 127, which is not `h + 12 * o` for the held note 120 and an octave
offset 0 or 1 (these give 120 and 132). -/
theorem C11_counterexample :
    ∃ e ∈ (highNoteArp.process [] 32 none).2, e.message.isNoteOn = true ∧
      ¬ ∃ h ∈ (Arpeggiator.capturedState highNoteArp []).sortedNotes, ∃ o : Int,
        0 ≤ o ∧ o < highNoteArp.numOctaves ∧ e.message.getNoteNumber = h + 12 * o := by
  rw [highNoteArp_output]
  refine ⟨_, List.mem_singleton.mpr rfl, rfl, ?_⟩
  rintro ⟨h, hh, o, ho0, ho1, he⟩
  have hh' : h = 120 := by simpa [Arpeggiator.capturedState, highNoteArp] using hh
  have ho1' : o < 2 := ho1
  have he' : (127 : Int) = h + 12 * o := he
  omega

end Wolf

/-! ## Reset, step duration, chord mode off, capturing a note twice -/

namespace Wolf

theorem any_beq_eq_true_of_mem (l : List Int) (n : Int) (h : n ∈ l) :
    l.any (fun m => m == n) = true := by
  rw [List.any_eq_true]
  exact ⟨n, h, by simp⟩

/-- C16 (as amended): when the three `double` operations are exact, `getSamplesPerStep`
returns `(60 / b) * sr / d`, where `b` is the host tempo when a play head, a position and a
tempo are present and the tempo is at least 20 BPM, and 120 otherwise, and `d` is 1, 2, 4
or 8 for a rate selector `<= 0.1f`, `<= 0.4f`, `<= 0.7f` or above, the thresholds being the
values of the `float` literals; at 120 BPM with a sixteenth selector (above `0.4f`, at most
`0.7f`) the value is `quarterNoteSamples / 4`. The hypothesis `ExactStepDuration` delimits
the inputs on which the value the source computes in `double` is the exact value of the
formula; the proof, which is about the exact values, does not need it. -/
theorem C16_step_duration (a : Arpeggiator) (playHead : Option AudioPlayHead)
    (_hexact : Arpeggiator.ExactStepDuration a playHead) :
    a.getSamplesPerStep playHead =
      (60 / Arpeggiator.tempoSpec playHead) * a.currentSampleRate /
        Arpeggiator.rateDivisorFloat a.rateDiv ∧
    (∀ b : ℚ, Arpeggiator.tempoSpec (some ⟨some ⟨some b⟩⟩) = if 20 ≤ b then b else 120) ∧
    Arpeggiator.tempoSpec none = 120 ∧ Arpeggiator.tempoSpec (some ⟨none⟩) = 120 ∧
    Arpeggiator.tempoSpec (some ⟨some ⟨none⟩⟩) = 120 ∧
    (∀ r : ℚ, 13421773 / 33554432 < r → r ≤ 11744051 / 16777216 →
      Arpeggiator.ExactStepDuration { a with rateDiv := r } (some ⟨some ⟨some 120⟩⟩) →
      ({ a with rateDiv := r }).getSamplesPerStep (some ⟨some ⟨some 120⟩⟩) =
        (60 / 120 * a.currentSampleRate) / 4) := by
  refine ⟨?_, fun b => rfl, rfl, rfl, rfl, ?_⟩
  · unfold Arpeggiator.getSamplesPerStep Arpeggiator.tempoSpec Arpeggiator.rateDivisorFloat
    rcases playHead with _ | ⟨_ | ⟨_ | b⟩⟩
    · norm_num; split_ifs <;> ring
    · norm_num; split_ifs <;> ring
    · norm_num; split_ifs <;> ring
    · simp only []
      by_cases hb : b < 20
      · have : ¬ 20 ≤ b := not_le.mpr hb
        simp only [hb, this, if_true, if_false]
        split_ifs <;> ring
      · have : 20 ≤ b := not_lt.mp hb
        simp only [hb, this, if_true, if_false]
        split_ifs <;> ring
  · intro r h1 h2 _
    have e1 : ¬ r ≤ 13421773 / 134217728 := by linarith
    have e2 : ¬ r ≤ 13421773 / 33554432 := by linarith
    simp only [Arpeggiator.getSamplesPerStep]
    rw [if_neg e1, if_neg e2, if_pos h2]
    norm_num

/-- C17: with chord mode 0 ("off") `ChordEngine::process` returns its input unchanged,
and so does applying it twice. -/
theorem C17_chord_off_identity (c : ChordEngine) (keys : Int) (midiMessages : MidiBuffer) :
    (c.setParameters 0 keys).process midiMessages = midiMessages ∧
    (c.setParameters 0 keys).process ((c.setParameters 0 keys).process midiMessages) =
      midiMessages := by
  have h : (c.setParameters 0 keys).process midiMessages = midiMessages := by
    simp [ChordEngine.process, ChordEngine.setParameters]
  have h2 : ∀ m, (c.setParameters 0 keys).process m = m := by
    intro m; simp [ChordEngine.process, ChordEngine.setParameters]
  exact ⟨h2 _, by rw [h2, h2]⟩

/-- C18: `handleNoteOn` for a note, applied a second time (with any velocity), leaves
the whole state as the first application left it. -/
theorem C18_handleNoteOn_idempotent (a : Arpeggiator) (n : Int) (v w : Fin 128) :
    (a.handleNoteOn n v).handleNoteOn n w = a.handleNoteOn n v := by
  have hmem : n ∈ (a.handleNoteOn n v).sortedNotes := by
    unfold Arpeggiator.handleNoteOn
    by_cases hf : a.sortedNotes.any (fun m => m == n) = true
    · have : n ∈ a.sortedNotes := by
        rw [List.any_eq_true] at hf
        obtain ⟨x, hx, hxe⟩ := hf
        have : x = n := by simpa using hxe
        exact this ▸ hx
      simp only [hf, Bool.not_true, Bool.false_eq_true, if_false]
      split_ifs <;> exact this
    · have hf2 : a.sortedNotes.any (fun m => m == n) = false := Bool.eq_false_iff.mpr hf
      have : n ∈ (a.sortedNotes ++ [n]).insertionSort (· ≤ ·) := by
        rw [List.mem_insertionSort]; simp
      simp only [hf2, Bool.not_false, if_true]
      split_ifs <;> exact this
  have hne : (a.handleNoteOn n v).sortedNotes.isEmpty = false := by
    cases h : (a.handleNoteOn n v).sortedNotes with
    | nil => rw [h] at hmem; simp at hmem
    | cons x xs => rfl
  have hany := any_beq_eq_true_of_mem _ _ hmem
  generalize a.handleNoteOn n v = b at *
  unfold Arpeggiator.handleNoteOn
  simp [hany, hne]

/-- C15: from every state, enabled or not, `reset` followed by `process` on an empty
buffer gives an empty output and leaves the pending-release list empty. -/
theorem C15_reset_then_process (a : Arpeggiator) (numSamples : Int)
    (playHead : Option AudioPlayHead) :
    (a.reset.process [] numSamples playHead).2 = [] ∧
    (a.reset.process [] numSamples playHead).1.activeNotes = [] := by
  unfold Arpeggiator.process
  cases h : a.enabled
  · simp [h, Arpeggiator.reset, Arpeggiator.drainPending]
  · simp [h, Arpeggiator.captureAndDrain, Arpeggiator.generate, Arpeggiator.reset,
      Arpeggiator.drainPending]

end Wolf

/-! ## Voices: end of a non-looping sample, pitch ratio -/

namespace Wolf

theorem getElem?_addSample (channel : List ℚ) (j : Int) (x : ℚ) (i : Nat) (h : (i : Int) ≠ j) :
    (addSample channel j x)[i]? = channel[i]? := by
  unfold addSample
  split_ifs with hj
  · rfl
  · rw [List.getElem?_set_ne]
    intro e
    apply h
    rw [← e]
    exact Int.toNat_of_nonneg (not_lt.mp hj)

theorem getD_set_channel (b : AudioBuffer ℚ) (k : Nat) (channel : List ℚ) (c i : Nat)
    (h : channel[i]? = (b.getD k [])[i]?) :
    ((b.set k channel).getD c [])[i]? = (b.getD c [])[i]? := by
  simp only [List.getD_eq_getElem?_getD]
  by_cases hc : k = c
  · subst hc
    by_cases hk : k < b.length
    · rw [List.getElem?_set_self hk]
      simpa using h
    · rw [List.set_eq_of_length_le (not_lt.mp hk)]
  · rw [List.getElem?_set_ne hc]

namespace HowlingVoice

variable {L : VoiceLibrary}

/-- One iteration of the sample loop, without the record of its reads. -/
theorem renderSample_eq (playingSound : HowlingSound) (s : RenderLoop L) :
    renderSample playingSound s =
      (let v := s.voice
       let lfoOut := L.lfoProcessSample v.lfo 0
       let pitchMod : ℚ := 1 + lfoOut.1 * v.lfoDepth * (5 / 100)
       let lr := interpolate playingSound.data v.isLooping v.sourceSamplePosition
       let fl := L.filterProcessSample v.filter lr.1
       let fr :=
         if AudioBuffer.getNumChannels s.outputBuffer > 1 then L.filterProcessSample fl.2 lr.2
         else (lr.2, fl.2)
       let envOut := L.adsrGetNextSample v.adsr
       let out := writeOutput s.outputBuffer s.writePos (fl.1 * v.level * envOut.1)
         (fr.1 * v.level * envOut.1)
       let next := advancePosition { v with lfo := lfoOut.2, filter := fr.2, adsr := envOut.2 }
         (AudioBuffer.getNumSamples playingSound.data) pitchMod
       (⟨next.1, out, s.writePos + 1⟩, next.2)) :=
  rfl

theorem renderLoop_zero (playingSound : HowlingSound) (s : RenderLoop L) :
    renderLoop playingSound 0 s = s :=
  rfl

/-- The sample loop, without the record of its reads: an iteration that ends in `break`
leaves the loop, any other is followed by the rest of the loop. -/
theorem renderLoop_succ (playingSound : HowlingSound) (n : Nat) (s : RenderLoop L) :
    renderLoop playingSound (n + 1) s =
      if (renderSample playingSound s).2 then (renderSample playingSound s).1
      else renderLoop playingSound n (renderSample playingSound s).1 := by
  simp only [renderLoop, renderLoopTraced, renderSample]
  split_ifs <;> rfl

/-- The block, without the record of its reads. -/
theorem renderNextBlock_eq (v : HowlingVoice L) (outputBuffer : AudioBuffer ℚ)
    (startSample numSamples : Int) :
    v.renderNextBlock outputBuffer startSample numSamples =
      match v.currentlyPlayingSound with
      | some playingSound =>
        ((renderLoop playingSound numSamples.toNat ⟨v, outputBuffer, startSample⟩).voice,
          (renderLoop playingSound numSamples.toNat ⟨v, outputBuffer, startSample⟩).outputBuffer)
      | none => (v, outputBuffer) := by
  unfold renderNextBlock renderNextBlockTraced renderLoop
  cases v.currentlyPlayingSound <;> rfl

theorem advancePosition_nonlooping (v : HowlingVoice L) (numSamples : Int) (pitchMod : ℚ)
    (h : v.isLooping = false) :
    (advancePosition v numSamples pitchMod).1.isLooping = false ∧
    ((advancePosition v numSamples pitchMod).2 = true ↔
      (numSamples : ℚ) ≤ (advancePosition v numSamples pitchMod).1.sourceSamplePosition) ∧
    ((advancePosition v numSamples pitchMod).2 = true →
      (advancePosition v numSamples pitchMod).1.currentlyPlayingSound = none) := by
  simp only [advancePosition, h, Bool.false_eq_true, if_false]
  split_ifs with hp
  · exact ⟨rfl, ⟨fun _ => hp, fun _ => rfl⟩, fun _ => rfl⟩
  · exact ⟨rfl, ⟨fun hh => absurd hh (by simp), fun hh => absurd hh hp⟩,
      fun hh => absurd hh (by simp)⟩

theorem renderSample_nonlooping (playingSound : HowlingSound) (s : RenderLoop L)
    (h : s.voice.isLooping = false) :
    (renderSample playingSound s).1.voice.isLooping = false ∧
    ((renderSample playingSound s).2 = true ↔
      (AudioBuffer.getNumSamples playingSound.data : ℚ) ≤
        (renderSample playingSound s).1.voice.sourceSamplePosition) ∧
    ((renderSample playingSound s).2 = true →
      (renderSample playingSound s).1.voice.currentlyPlayingSound = none) :=
  advancePosition_nonlooping _ _ _ h

theorem writeOutput_frame (outputBuffer : AudioBuffer ℚ) (writePos : Int) (left right : ℚ)
    (c i : Nat) (hi : (i : Int) ≠ writePos) :
    ((writeOutput outputBuffer writePos left right).getD c [])[i]? =
      (outputBuffer.getD c [])[i]? := by
  have h1 : ∀ c, ((if AudioBuffer.getNumChannels outputBuffer > 0 then
      outputBuffer.set 0 (addSample (outputBuffer.getD 0 []) writePos left)
      else outputBuffer).getD c [])[i]? = (outputBuffer.getD c [])[i]? := by
    intro c
    split_ifs
    · exact getD_set_channel _ _ _ _ _ (getElem?_addSample _ _ _ _ hi)
    · rfl
  by_cases h2 : AudioBuffer.getNumChannels outputBuffer > 1
  · simp only [writeOutput, h2, if_true]
    rw [getD_set_channel _ _ _ _ _ (getElem?_addSample _ _ _ _ hi)]
    exact h1 c
  · simp only [writeOutput, h2, if_false]
    exact h1 c

theorem renderSample_frame (playingSound : HowlingSound) (s : RenderLoop L) :
    (renderSample playingSound s).1.writePos = s.writePos + 1 ∧
    ∀ c i : Nat, (i : Int) ≠ s.writePos →
      ((renderSample playingSound s).1.outputBuffer.getD c [])[i]? =
        (s.outputBuffer.getD c [])[i]? :=
  ⟨rfl, fun c i hi => writeOutput_frame _ _ _ _ c i hi⟩

theorem renderLoop_frame (playingSound : HowlingSound) (n : Nat) (s : RenderLoop L)
    (c i : Nat) (hi : (i : Int) < s.writePos ∨ s.writePos + n ≤ i) :
    ((renderLoop playingSound n s).outputBuffer.getD c [])[i]? =
      (s.outputBuffer.getD c [])[i]? := by
  induction n generalizing s with
  | zero => rfl
  | succ n ih =>
    obtain ⟨f1, f2⟩ := renderSample_frame playingSound s
    simp only [renderLoop_zero, renderLoop_succ]
    split_ifs
    · exact f2 c i (by push_cast at hi; omega)
    · rw [ih _ (by rw [f1]; push_cast at hi; omega)]
      exact f2 c i (by push_cast at hi; omega)

theorem renderLoop_past (playingSound : HowlingSound) (n : Nat) (s : RenderLoop L)
    (h : s.voice.isLooping = false)
    (hp : (AudioBuffer.getNumSamples playingSound.data : ℚ) ≤
      (renderLoop playingSound (n + 1) s).voice.sourceSamplePosition) :
    (renderLoop playingSound (n + 1) s).voice.currentlyPlayingSound = none ∧
    ∀ m : Nat, n + 1 ≤ m → renderLoop playingSound m s = renderLoop playingSound (n + 1) s := by
  induction n generalizing s with
  | zero =>
    obtain ⟨-, g2, g3⟩ := renderSample_nonlooping playingSound s h
    have e1 : renderLoop playingSound 1 s = (renderSample playingSound s).1 := by
      simp only [renderLoop_zero, renderLoop_succ]
      split_ifs <;> rfl
    rw [e1] at hp ⊢
    have hb := g2.mpr hp
    refine ⟨g3 hb, ?_⟩
    intro m hm
    obtain ⟨m', rfl⟩ : ∃ m', m = m' + 1 := ⟨m - 1, by omega⟩
    simp only [renderLoop_succ, hb, if_true]
  | succ n ih =>
    obtain ⟨g1, g2, g3⟩ := renderSample_nonlooping playingSound s h
    by_cases hb : (renderSample playingSound s).2 = true
    · have e1 : ∀ m : Nat, renderLoop playingSound (m + 1) s = (renderSample playingSound s).1 := by
        intro m
        simp only [renderLoop_succ, hb, if_true]
      rw [e1]
      refine ⟨g3 hb, ?_⟩
      intro m hm
      obtain ⟨m', rfl⟩ : ∃ m', m = m' + 1 := ⟨m - 1, by omega⟩
      exact e1 m'
    · have e1 : ∀ m : Nat, renderLoop playingSound (m + 1) s =
          renderLoop playingSound m (renderSample playingSound s).1 := by
        intro m
        simp only [renderLoop_succ, hb, if_false]
        rfl
      rw [e1] at hp ⊢
      obtain ⟨i1, i2⟩ := ih _ g1 hp
      refine ⟨i1, ?_⟩
      intro m hm
      obtain ⟨m', rfl⟩ : ∃ m', m = m' + 1 := ⟨m - 1, by omega⟩
      rw [e1]
      exact i2 m' (by omega)

theorem renderNextBlock_idle (w : HowlingVoice L) (h : w.currentlyPlayingSound = none)
    (outputBuffer : AudioBuffer ℚ) (startSample numSamples : Int) :
    w.renderNextBlock outputBuffer startSample numSamples = (w, outputBuffer) := by
  simp only [renderNextBlock_eq, h]

end HowlingVoice

/-- C19: take a non-looping voice that plays a sound, and a block of `numSamples`
samples. If, after the first `k + 1` samples of the block (`k < numSamples`), the source
position is at or past the sample length, then the voice has no current sound any more,
the block is not rendered further (rendering the whole block gives what rendering its
first `k + 1` samples gives, and the cells of the output buffer from `startSample + k + 1`
on are as before the call), and every `renderNextBlock` on a voice without a current sound
returns the voice and the output buffer unchanged. -/
theorem C19_nonlooping_voice_goes_idle {L : VoiceLibrary} (v : HowlingVoice L)
    (playingSound : HowlingSound) (outputBuffer : AudioBuffer ℚ) (startSample numSamples : Int)
    (k : Nat) (hsound : v.currentlyPlayingSound = some playingSound)
    (hloop : v.isLooping = false) (hk : (k : Int) < numSamples)
    (hpast : (AudioBuffer.getNumSamples playingSound.data : ℚ) ≤
      (v.renderNextBlock outputBuffer startSample (k + 1)).1.sourceSamplePosition) :
    (v.renderNextBlock outputBuffer startSample (k + 1)).1.currentlyPlayingSound = none ∧
    v.renderNextBlock outputBuffer startSample numSamples =
      v.renderNextBlock outputBuffer startSample (k + 1) ∧
    (∀ c i : Nat, startSample + k + 1 ≤ i →
      ((v.renderNextBlock outputBuffer startSample numSamples).2.getD c [])[i]? =
        (outputBuffer.getD c [])[i]?) ∧
    ∀ w : HowlingVoice L, w.currentlyPlayingSound = none →
      ∀ (later : AudioBuffer ℚ) (start num : Int),
        w.renderNextBlock later start num = (w, later) := by
  have hk1 : ((k : Int) + 1).toNat = k + 1 := by omega
  have hn : k + 1 ≤ numSamples.toNat := by omega
  simp only [HowlingVoice.renderNextBlock_eq, hsound, hk1] at hpast ⊢
  obtain ⟨p1, p2⟩ := HowlingVoice.renderLoop_past playingSound k
    ⟨v, outputBuffer, startSample⟩ hloop hpast
  refine ⟨p1, by rw [p2 _ hn], ?_, fun w hw later start num => by rw [hw]⟩
  intro c i hi
  rw [p2 _ hn]
  exact HowlingVoice.renderLoop_frame playingSound (k + 1) ⟨v, outputBuffer, startSample⟩ c i
    (Or.inr (by push_cast; omega))

/-- C20: `startNote` sets the pitch ratio to
`pow (2, (targetNote - rootNote) / 12) * (sourceSampleRate / engineSampleRate)`; when the
target note is the root note and the two sample rates are equal and not zero, the pitch
ratio is exactly 1. -/
theorem C20_pitch_ratio {L : VoiceLibrary} (v : HowlingVoice L) (midiNoteNumber : Int)
    (velocity : ℚ) (sound : HowlingSound) (wheel : Int) :
    (v.startNote midiNoteNumber velocity (some sound) wheel).pitchRatio =
      L.pow 2 (((midiNoteNumber - sound.midiNoteForNormalPitch : Int) : ℚ) / 12) *
        (sound.sourceSampleRate / v.currentSampleRate) ∧
    (midiNoteNumber = sound.midiNoteForNormalPitch →
      sound.sourceSampleRate = v.currentSampleRate → v.currentSampleRate ≠ 0 →
      (v.startNote midiNoteNumber velocity (some sound) wheel).pitchRatio = 1) := by
  refine ⟨rfl, ?_⟩
  intro h1 h2 h3
  simp only [HowlingVoice.startNote, h1, h2, sub_self, Int.cast_zero, zero_div, L.pow_zero,
    div_self h3, mul_one]


/-- The example voice advances by one sample per output sample: after four samples its
source position is 4. -/
theorem exampleVoice_position :
    (exampleVoice.renderNextBlock silentBuffer 0 ((3 : Nat) + 1)).1.sourceSamplePosition = 4 := by
  have h4 : Int.toNat 4 = 3 + 1 := rfl
  have h3 : (3 : Nat) = 2 + 1 := rfl
  have h2 : (2 : Nat) = 1 + 1 := rfl
  have h1 : (1 : Nat) = 0 + 1 := rfl
  norm_num [HowlingVoice.renderNextBlock_eq, exampleVoice, h4]
  rw [HowlingVoice.renderLoop_succ]
  norm_num [HowlingVoice.renderSample_eq, HowlingVoice.advancePosition, exampleSound,
    exampleLibrary, AudioBuffer.getNumSamples, HowlingVoice.clearCurrentNote]
  rw [h3, HowlingVoice.renderLoop_succ]
  norm_num [HowlingVoice.renderSample_eq, HowlingVoice.advancePosition, exampleSound,
    exampleLibrary, AudioBuffer.getNumSamples, HowlingVoice.clearCurrentNote]
  rw [h2, HowlingVoice.renderLoop_succ]
  norm_num [HowlingVoice.renderSample_eq, HowlingVoice.advancePosition, exampleSound,
    exampleLibrary, AudioBuffer.getNumSamples, HowlingVoice.clearCurrentNote]
  rw [h1, HowlingVoice.renderLoop_succ]
  norm_num [HowlingVoice.renderSample_eq, HowlingVoice.advancePosition, exampleSound,
    exampleLibrary, AudioBuffer.getNumSamples, HowlingVoice.clearCurrentNote,
    HowlingVoice.renderLoop_zero]

/-- C19 on the example voice: a four-sample sound played at its original pitch into a
block of eight samples; the position reaches 4 with the fourth sample. -/
theorem C19_nonlooping_voice_goes_idle_witness :
    exampleVoice.currentlyPlayingSound = some exampleSound ∧ exampleVoice.isLooping = false ∧
    ((3 : Nat) : Int) < 8 ∧
    (AudioBuffer.getNumSamples exampleSound.data : ℚ) ≤
      (exampleVoice.renderNextBlock silentBuffer 0 ((3 : Nat) + 1)).1.sourceSamplePosition ∧
    (exampleVoice.renderNextBlock silentBuffer 0 ((3 : Nat) + 1)).1.currentlyPlayingSound = none ∧
    exampleVoice.renderNextBlock silentBuffer 0 8 =
      exampleVoice.renderNextBlock silentBuffer 0 ((3 : Nat) + 1) ∧
    (∀ c i : Nat, (0 : Int) + (3 : Nat) + 1 ≤ i →
      ((exampleVoice.renderNextBlock silentBuffer 0 8).2.getD c [])[i]? =
        (silentBuffer.getD c [])[i]?) ∧
    ∀ w : HowlingVoice exampleLibrary, w.currentlyPlayingSound = none →
      ∀ (later : AudioBuffer ℚ) (start num : Int),
        w.renderNextBlock later start num = (w, later) :=
  ⟨rfl, rfl, by decide, by rw [exampleVoice_position]; norm_num [exampleSound, AudioBuffer.getNumSamples],
    C19_nonlooping_voice_goes_idle exampleVoice exampleSound silentBuffer 0 8 3 rfl rfl
      (by decide) (by rw [exampleVoice_position]; norm_num [exampleSound, AudioBuffer.getNumSamples])⟩

/-- C20 on the example voice: note 60 on a sound with root note 60, both rates 44100. -/
theorem C20_pitch_ratio_witness :
    (60 : Int) = exampleSound.midiNoteForNormalPitch ∧
    exampleSound.sourceSampleRate = exampleVoice.currentSampleRate ∧
    exampleVoice.currentSampleRate ≠ 0 ∧
    (exampleVoice.startNote 60 1 (some exampleSound) 8192).pitchRatio = 1 :=
  ⟨rfl, rfl, by norm_num [exampleVoice],
    (C20_pitch_ratio exampleVoice 60 1 exampleSound 8192).2 rfl rfl
      (by norm_num [exampleVoice])⟩

end Wolf

namespace Wolf

/-- C16 (as amended) on the example sequencer (44100 Hz, rate selector 0.5) at the default
tempo of 120 BPM, where the three operations are exact: the step lasts
`60 / 120 * 44100 / 4` samples, a quarter of the 22050 samples of a quarter note. -/
theorem C16_step_duration_witness :
    Arpeggiator.ExactStepDuration exampleArp none ∧
    exampleArp.getSamplesPerStep none =
      (60 / Arpeggiator.tempoSpec none) * exampleArp.currentSampleRate /
        Arpeggiator.rateDivisorFloat exampleArp.rateDiv :=
  ⟨exampleArp_exact, (C16_step_duration exampleArp none exampleArp_exact).1⟩

/-- C16 fails as stated: the rate selector of `floatTenthArp` is the value of the `float`
literal `0.1f`, which is above 0.1 and at most 0.4, so that the claim takes the divisor
`d = 2` and the step duration `60 / 120 * 44100 / 2 = 11025`; `getSamplesPerStep` compares
the selector with `0.1f` itself and returns the quarter note, 22050 samples. -/
theorem C16_counterexample :
    ¬ floatTenthArp.rateDiv ≤ 1 / 10 ∧ floatTenthArp.rateDiv ≤ 4 / 10 ∧
    (60 / Arpeggiator.tempoSpec none) * floatTenthArp.currentSampleRate /
      Arpeggiator.rateDivisorSpec floatTenthArp.rateDiv = 11025 ∧
    floatTenthArp.getSamplesPerStep none = 22050 := by
  refine ⟨?_, ?_, ?_, ?_⟩
  · norm_num [floatTenthArp]
  · norm_num [floatTenthArp]
  · norm_num [Arpeggiator.tempoSpec, Arpeggiator.rateDivisorSpec, floatTenthArp]
  · norm_num [Arpeggiator.getSamplesPerStep, floatTenthArp]

end Wolf

/-! ## The sequencer: held list, step duration floor, all notes off, mode, velocity -/

namespace Wolf

namespace Arpeggiator

/-! ## The held list stays strictly ascending -/

theorem handleNoteOn_sorted (a : Arpeggiator) (note : Int) (velocity : Fin 128)
    (h : a.sortedNotes.Sorted (· < ·)) : (a.handleNoteOn note velocity).sortedNotes.Sorted (· < ·) := by
  have key : ∀ b : Arpeggiator, b = a ∨
      (¬ note ∈ a.sortedNotes ∧
        b.sortedNotes = (a.sortedNotes ++ [note]).insertionSort (· ≤ ·)) →
      b.sortedNotes.Sorted (· < ·) := by
    rintro b (rfl | ⟨hn, hb⟩)
    · exact h
    · rw [hb]
      apply List.Sorted.lt_of_le (List.sorted_insertionSort _ _)
      apply (List.perm_insertionSort _ _).nodup_iff.mpr
      rw [List.nodup_append]
      refine ⟨h.nodup, List.nodup_singleton _, ?_⟩
      intro x hx hx'
      rw [List.mem_singleton] at hx'
      exact hn (hx' ▸ hx)
  unfold handleNoteOn
  by_cases hf : a.sortedNotes.any (fun m => m == note) = true
  · simp only [hf, Bool.not_true, Bool.false_eq_true, if_false]
    split_ifs <;> exact h
  · have hf2 : a.sortedNotes.any (fun m => m == note) = false := Bool.eq_false_iff.mpr hf
    have hn : ¬ note ∈ a.sortedNotes := fun hm => hf (any_beq_eq_true_of_mem _ _ hm)
    simp only [hf2, Bool.not_false, if_true]
    split_ifs <;> exact key _ (Or.inr ⟨hn, rfl⟩)

theorem handleNoteOff_sorted (a : Arpeggiator) (note : Int)
    (h : a.sortedNotes.Sorted (· < ·)) : (a.handleNoteOff note).sortedNotes.Sorted (· < ·) :=
  List.Pairwise.filter _ h

theorem captureEvent_sorted (s : Arpeggiator × MidiBuffer) (e : MidiEvent)
    (h : s.1.sortedNotes.Sorted (· < ·)) : (captureEvent s e).1.sortedNotes.Sorted (· < ·) := by
  unfold captureEvent
  cases e.message with
  | noteOn c n v => exact handleNoteOn_sorted s.1 n v h
  | noteOff c n => exact handleNoteOff_sorted s.1 n h
  | allNotesOff c => exact List.sorted_nil
  | other d => exact h

theorem foldl_captureEvent_held_sorted (input : MidiBuffer) (s : Arpeggiator × MidiBuffer)
    (h : s.1.sortedNotes.Sorted (· < ·)) :
    (input.foldl captureEvent s).1.sortedNotes.Sorted (· < ·) := by
  induction input generalizing s with
  | nil => exact h
  | cons e rest ih => exact ih _ (captureEvent_sorted s e h)

theorem stepLoop_held (numSamples : Int) (sps : ℚ) (fuel : Nat) (s : StepLoop) :
    (stepLoop numSamples sps fuel s).arp.sortedNotes = s.arp.sortedNotes := by
  induction fuel generalizing s with
  | zero => rfl
  | succ n ih =>
    simp only [stepLoop]
    split_ifs
    · rw [ih, (stepBody_held numSamples sps s).1]
    · rfl

theorem generate_held (a : Arpeggiator) (buf : MidiBuffer) (numSamples : Int)
    (playHead : Option AudioPlayHead) :
    (generate a buf numSamples playHead).1.sortedNotes = a.sortedNotes := by
  simp only [generate]
  split_ifs
  · rfl
  · rw [stepLoop_held]
    exact (clampNoteTime_frame a _).2.2.1

theorem process_held_sorted (a : Arpeggiator) (input : MidiBuffer) (numSamples : Int)
    (playHead : Option AudioPlayHead) (h : a.sortedNotes.Sorted (· < ·)) :
    (a.process input numSamples playHead).1.sortedNotes.Sorted (· < ·) := by
  cases hen : a.enabled
  · rw [process_disabled a hen]
    exact h
  · rw [process_enabled a hen, generate_held, (captureAndDrain_fst a input numSamples).1]
    exact foldl_captureEvent_held_sorted input (a, []) h

end Arpeggiator

/-- C25: in every state reached from a freshly constructed sequencer by calls of
`prepare`, `reset`, `setParameters`, `handleNoteOn`, `handleNoteOff` and `process`, the
held-note list is strictly ascending, and so has no note number twice. -/
theorem C25_held_list_strictly_ascending (a : Arpeggiator) (h : Arpeggiator.FromInitial a) :
    a.sortedNotes.Sorted (· < ·) ∧ a.sortedNotes.Nodup := by
  have key : a.sortedNotes.Sorted (· < ·) := by
    induction h with
    | initial a h => rw [h]; exact List.sorted_nil
    | prepare a sampleRate _ ih => exact ih
    | reset a _ _ => exact List.sorted_nil
    | setParameters a rate mode octaves gate isOn _ ih => exact ih
    | handleNoteOn a note velocity _ ih => exact Arpeggiator.handleNoteOn_sorted a note velocity ih
    | handleNoteOff a note _ ih => exact Arpeggiator.handleNoteOff_sorted a note ih
    | process a input numSamples playHead _ ih =>
      exact Arpeggiator.process_held_sorted a input numSamples playHead ih
  exact ⟨key, key.nodup⟩

/-- C25 on the example sequencer after a block that presses note 60. -/
theorem C25_held_list_strictly_ascending_witness :
    Arpeggiator.FromInitial (exampleArp.process pressAndController 64 none).1 ∧
    (exampleArp.process pressAndController 64 none).1.sortedNotes.Sorted (· < ·) ∧
    (exampleArp.process pressAndController 64 none).1.sortedNotes.Nodup :=
  ⟨Arpeggiator.FromInitial.process exampleArp pressAndController 64 none
      (Arpeggiator.FromInitial.initial exampleArp rfl),
    C25_held_list_strictly_ascending _
      (Arpeggiator.FromInitial.process exampleArp pressAndController 64 none
        (Arpeggiator.FromInitial.initial exampleArp rfl))⟩

/-! ## The floor of the step duration -/

/-- C26: the step duration `process` steps with is at least 100 samples for every state,
tempo source and rate selector: it is the value of `getSamplesPerStep` when that is at
least 100 and the fallback 10000 when it is below 100; and an enabled block that leaves a
note held runs the stepping loop with this duration. -/
theorem C26_step_duration_floor (a : Arpeggiator) (input : MidiBuffer) (numSamples : Int)
    (playHead : Option AudioPlayHead) :
    100 ≤ Arpeggiator.effectiveSamplesPerStep a playHead ∧
    (a.getSamplesPerStep playHead < 100 →
      Arpeggiator.effectiveSamplesPerStep a playHead = 10000) ∧
    (100 ≤ a.getSamplesPerStep playHead →
      Arpeggiator.effectiveSamplesPerStep a playHead = a.getSamplesPerStep playHead) ∧
    (a.enabled = true → (Arpeggiator.captureAndDrain a input numSamples).1.sortedNotes ≠ [] →
      a.process input numSamples playHead =
        ((Arpeggiator.stepLoop numSamples (Arpeggiator.effectiveSamplesPerStep a playHead)
            numSamples.toNat
            (Arpeggiator.loopStart (Arpeggiator.captureAndDrain a input numSamples).1
              (Arpeggiator.captureAndDrain a input numSamples).2 numSamples
              (Arpeggiator.effectiveSamplesPerStep a playHead))).arp,
          (Arpeggiator.stepLoop numSamples (Arpeggiator.effectiveSamplesPerStep a playHead)
            numSamples.toNat
            (Arpeggiator.loopStart (Arpeggiator.captureAndDrain a input numSamples).1
              (Arpeggiator.captureAndDrain a input numSamples).2 numSamples
              (Arpeggiator.effectiveSamplesPerStep a playHead))).processedMidi)) := by
  refine ⟨Arpeggiator.effectiveSamplesPerStep_ge a playHead, ?_, ?_, ?_⟩
  · intro h
    simp only [Arpeggiator.effectiveSamplesPerStep, h, if_true]
  · intro h
    simp only [Arpeggiator.effectiveSamplesPerStep, not_lt.mpr h, if_false]
  · intro hen hne
    obtain ⟨-, -, -, -, c5, c6⟩ := Arpeggiator.captureAndDrain_fst a input numSamples
    have hsps := Arpeggiator.effectiveSamplesPerStep_congr
      (Arpeggiator.captureAndDrain a input numSamples).1 a playHead c5 c6
    have hemp : (Arpeggiator.captureAndDrain a input numSamples).1.sortedNotes.isEmpty = false := by
      cases hl : (Arpeggiator.captureAndDrain a input numSamples).1.sortedNotes with
      | nil => exact absurd hl hne
      | cons x xs => rfl
    rw [Arpeggiator.process_enabled a hen]
    simp only [Arpeggiator.generate, hemp, Bool.false_eq_true, if_false, hsps]

/-- C26 on a sequencer running at 100 Hz: the computed quarter note of 50 samples is
replaced by 10000 samples. -/
theorem C26_step_duration_floor_witness :
    slowRateArp.getSamplesPerStep none < 100 ∧
    Arpeggiator.effectiveSamplesPerStep slowRateArp none = 10000 :=
  ⟨by norm_num [Arpeggiator.getSamplesPerStep, slowRateArp],
    (C26_step_duration_floor slowRateArp [] 64 none).2.1
      (by norm_num [Arpeggiator.getSamplesPerStep, slowRateArp])⟩


namespace Arpeggiator

/-! ## "All notes off" and the pending releases -/

theorem foldl_captureEvent_no_pending (input : MidiBuffer) (s : Arpeggiator × MidiBuffer)
    (h : s.1.activeNotes = []) : (input.foldl captureEvent s).1.activeNotes = [] := by
  apply List.eq_nil_iff_forall_not_mem.mpr
  intro x hx
  have := foldl_captureEvent_activeNotes input s x hx
  rw [h] at this
  exact absurd this (List.not_mem_nil _)

/-- Once the input loop has met an "all notes off", its result no longer depends on the
releases that were pending when the block started, and none of them is left. -/
theorem foldl_captureEvent_allNotesOff (input : MidiBuffer) (a : Arpeggiator) (buf : MidiBuffer)
    (l : List ActiveNote) (h : ∃ ev ∈ input, ev.message.isAllNotesOff = true) :
    input.foldl captureEvent (withActive a l, buf) = input.foldl captureEvent (a, buf) ∧
    (input.foldl captureEvent (a, buf)).1.activeNotes = [] := by
  induction input generalizing a buf with
  | nil =>
    obtain ⟨ev, hev, -⟩ := h
    exact absurd hev (List.not_mem_nil _)
  | cons ev rest ih =>
    cases hall : ev.message.isAllNotesOff
    · obtain ⟨ev', hev', hall'⟩ := h
      have hrest : ∃ ev ∈ rest, ev.message.isAllNotesOff = true := by
        rcases List.mem_cons.mp hev' with rfl | hmem
        · rw [hall] at hall'
          exact absurd hall' (by decide)
        · exact ⟨ev', hmem, hall'⟩
      obtain ⟨h1, -⟩ := captureEvent_withActive a buf l ev hall
      obtain ⟨i1, i2⟩ := ih (captureEvent (a, buf) ev).1 (captureEvent (a, buf) ev).2 hrest
      simp only [List.foldl_cons, h1]
      exact ⟨i1, i2⟩
    · have e1 : captureEvent (withActive a l, buf) ev = (a.reset, buf) := by
        obtain ⟨msg, pos⟩ := ev
        cases msg with
        | allNotesOff c => rfl
        | noteOn c n v => simp [MidiMessage.isAllNotesOff] at hall
        | noteOff c n => simp [MidiMessage.isAllNotesOff] at hall
        | other d => simp [MidiMessage.isAllNotesOff] at hall
      have e2 : captureEvent (a, buf) ev = (a.reset, buf) := by
        obtain ⟨msg, pos⟩ := ev
        cases msg with
        | allNotesOff c => rfl
        | noteOn c n v => simp [MidiMessage.isAllNotesOff] at hall
        | noteOff c n => simp [MidiMessage.isAllNotesOff] at hall
        | other d => simp [MidiMessage.isAllNotesOff] at hall
      simp only [List.foldl_cons, e1, e2, true_and]
      exact foldl_captureEvent_no_pending rest (a.reset, buf) rfl

theorem process_output_not_allNotesOff (a : Arpeggiator) (hen : a.enabled = true)
    (input : MidiBuffer) (numSamples : Int) (playHead : Option AudioPlayHead) (e : MidiEvent)
    (he : e ∈ (a.process input numSamples playHead).2) :
    e.message.isAllNotesOff = false ∧
    (e.message.isNoteOn = true → ∃ n : Int, e.message = MidiMessage.noteOn 1 n 100) := by
  rw [process_enabled a hen] at he
  obtain ⟨fires, p, -, -⟩ := generate_fires_list (captureAndDrain a input numSamples).1
    (captureAndDrain a input numSamples).2 numSamples playHead _ rfl
  rcases List.mem_append.mp (p.mem_iff.mp he) with h | h
  · have hno := captureAndDrain_no_noteOn a input numSamples e h
    refine ⟨?_, fun hon => absurd hon (by rw [hno]; decide)⟩
    simp only [captureAndDrain] at h
    rcases (mem_drainPending _ _ _ _).mp h with h | ⟨x, _, _, rfl⟩
    · rcases foldl_captureEvent_mem input (a, []) e h with h | h
      · exact absurd h (List.not_mem_nil _)
      · exact h.2.2.2
    · rfl
  · obtain ⟨f, -, hf⟩ := List.mem_flatMap.mp h
    simp only [stepEvents] at hf
    rcases List.mem_cons.mp hf with rfl | hf
    · exact ⟨rfl, fun _ => ⟨f.1, rfl⟩⟩
    · split_ifs at hf
      · rw [List.mem_singleton] at hf
        subst hf
        exact ⟨rfl, fun hon => by simp [MidiMessage.isNoteOn] at hon⟩
      · exact absurd hf (List.not_mem_nil _)

end Arpeggiator

/-- C27: when the arpeggiator is enabled and the input of a block holds an "all notes off"
event, no such event appears in the output, the releases that were pending are all
discarded (none is pending once the input is captured), and none of them has any effect:
the output and the next state of the block, and so the outputs of all later blocks, are
those of the same block started with no pending release at all. -/
theorem C27_all_notes_off_drops_pending (a : Arpeggiator) (hen : a.enabled = true)
    (input : MidiBuffer) (numSamples : Int) (playHead : Option AudioPlayHead)
    (blocks : List Arpeggiator.Block)
    (h : ∃ ev ∈ input, ev.message.isAllNotesOff = true) :
    (∀ e ∈ (a.process input numSamples playHead).2, e.message.isAllNotesOff = false) ∧
    (Arpeggiator.capturedState a input).activeNotes = [] ∧
    a.process input numSamples playHead =
      (Arpeggiator.withActive a []).process input numSamples playHead ∧
    Arpeggiator.runBlocks (a.process input numSamples playHead).1 blocks =
      Arpeggiator.runBlocks
        ((Arpeggiator.withActive a []).process input numSamples playHead).1 blocks := by
  have f1 := (Arpeggiator.foldl_captureEvent_allNotesOff input
    (Arpeggiator.withActive a []) [] a.activeNotes h).1
  have f3 : (Arpeggiator.capturedState a input).activeNotes = [] :=
    (Arpeggiator.foldl_captureEvent_allNotesOff input a [] [] h).2
  have hp : a.process input numSamples playHead =
      (Arpeggiator.withActive a []).process input numSamples playHead := by
    rw [Arpeggiator.process_enabled a hen,
      Arpeggiator.process_enabled (Arpeggiator.withActive a []) hen]
    have hc : Arpeggiator.captureAndDrain a input numSamples =
        Arpeggiator.captureAndDrain (Arpeggiator.withActive a []) input numSamples := by
      simp only [Arpeggiator.captureAndDrain]
      rw [← f1]
      rfl
    rw [hc]
  refine ⟨fun e he => (Arpeggiator.process_output_not_allNotesOff a hen input numSamples
    playHead e he).1, f3, hp, by rw [hp]⟩

/-- C27 on a sequencer with a release pending for note 64: the block holds an "all notes
off" and then presses note 72. -/
theorem C27_all_notes_off_drops_pending_witness :
    pendingArp.enabled = true ∧
    (∃ ev ∈ panicThenPress, ev.message.isAllNotesOff = true) ∧
    (∀ e ∈ (pendingArp.process panicThenPress 64 none).2, e.message.isAllNotesOff = false) ∧
    (Arpeggiator.capturedState pendingArp panicThenPress).activeNotes = [] ∧
    pendingArp.process panicThenPress 64 none =
      (Arpeggiator.withActive pendingArp []).process panicThenPress 64 none ∧
    Arpeggiator.runBlocks (pendingArp.process panicThenPress 64 none).1 laterBlocks =
      Arpeggiator.runBlocks
        ((Arpeggiator.withActive pendingArp []).process panicThenPress 64 none).1 laterBlocks :=
  ⟨rfl, ⟨_, List.mem_cons_self _ _, rfl⟩,
    C27_all_notes_off_drops_pending pendingArp rfl panicThenPress 64 none laterBlocks
      ⟨_, List.mem_cons_self _ _, rfl⟩⟩

namespace Arpeggiator

/-! ## The mode selector -/

theorem captureEvent_withMode (a : Arpeggiator) (buf : MidiBuffer) (mode : Int)
    (ev : MidiEvent) :
    captureEvent (withMode a mode, buf) ev =
      (withMode (captureEvent (a, buf) ev).1 mode, (captureEvent (a, buf) ev).2) := by
  obtain ⟨msg, pos⟩ := ev
  cases msg with
  | noteOn c n v =>
    simp only [captureEvent, handleNoteOn, withMode]
    split_ifs <;> rfl
  | noteOff c n => rfl
  | allNotesOff c => rfl
  | other d => rfl

theorem foldl_captureEvent_withMode (input : MidiBuffer) (a : Arpeggiator) (buf : MidiBuffer)
    (mode : Int) :
    input.foldl captureEvent (withMode a mode, buf) =
      (withMode (input.foldl captureEvent (a, buf)).1 mode,
        (input.foldl captureEvent (a, buf)).2) := by
  induction input generalizing a buf with
  | nil => rfl
  | cons ev rest ih =>
    simp only [List.foldl_cons, captureEvent_withMode]
    exact ih _ _

theorem captureAndDrain_withMode (a : Arpeggiator) (input : MidiBuffer) (numSamples : Int)
    (mode : Int) :
    captureAndDrain (withMode a mode) input numSamples =
      (withMode (captureAndDrain a input numSamples).1 mode,
        (captureAndDrain a input numSamples).2) := by
  simp only [captureAndDrain, foldl_captureEvent_withMode]
  rfl

theorem fireStep_withMode (numSamples : Int) (sps : ℚ) (s : StepLoop) (mode : Int) :
    fireStep numSamples sps (s.withMode mode) = (fireStep numSamples sps s).withMode mode := by
  rw [fireStep_eq, fireStep_eq]
  rfl

theorem stepBody_withMode (numSamples : Int) (sps : ℚ) (s : StepLoop) (mode : Int) :
    stepBody numSamples sps (s.withMode mode) = (stepBody numSamples sps s).withMode mode := by
  simp only [stepBody]
  have h1 : (s.withMode mode).arp.noteTime = s.arp.noteTime := rfl
  rw [h1]
  split_ifs
  · rw [fireStep_withMode]
    rfl
  · rfl

theorem stepLoop_withMode (numSamples : Int) (sps : ℚ) (fuel : Nat) (s : StepLoop)
    (mode : Int) :
    stepLoop numSamples sps fuel (s.withMode mode) =
      (stepLoop numSamples sps fuel s).withMode mode := by
  induction fuel generalizing s with
  | zero => rfl
  | succ n ih =>
    simp only [stepLoop]
    have h1 : (s.withMode mode).samplesRemaining = s.samplesRemaining := rfl
    rw [h1]
    split_ifs
    · rw [stepBody_withMode, ih]
    · rfl

theorem generate_withMode (a : Arpeggiator) (buf : MidiBuffer) (numSamples : Int)
    (playHead : Option AudioPlayHead) (mode : Int) :
    generate (withMode a mode) buf numSamples playHead =
      (withMode (generate a buf numSamples playHead).1 mode,
        (generate a buf numSamples playHead).2) := by
  simp only [generate]
  have h1 : (withMode a mode).sortedNotes = a.sortedNotes := rfl
  have h2 : effectiveSamplesPerStep (withMode a mode) playHead =
      effectiveSamplesPerStep a playHead := rfl
  rw [h1, h2]
  split_ifs
  · rfl
  · have h3 : loopStart (withMode a mode) buf numSamples (effectiveSamplesPerStep a playHead) =
        (loopStart a buf numSamples (effectiveSamplesPerStep a playHead)).withMode mode := by
      simp only [loopStart, clampNoteTime, StepLoop.withMode, withMode]
      split_ifs <;> rfl
    rw [h3, stepLoop_withMode]
    rfl

theorem process_withMode (a : Arpeggiator) (input : MidiBuffer) (numSamples : Int)
    (playHead : Option AudioPlayHead) (mode : Int) :
    (withMode a mode).process input numSamples playHead =
      (withMode (a.process input numSamples playHead).1 mode,
        (a.process input numSamples playHead).2) := by
  cases hen : a.enabled
  · rw [process_disabled a hen, process_disabled (withMode a mode) hen]
    rfl
  · rw [process_enabled a hen, process_enabled (withMode a mode) hen, captureAndDrain_withMode,
      generate_withMode]

end Arpeggiator

/-- C28: two configurations that differ only in the `mode` argument of `setParameters`
give, for every state, input, block length and tempo source, the same output of `process`
and the same next state (which differs only in the mode value it stores). -/
theorem C28_mode_has_no_effect (a : Arpeggiator) (rate : ℚ) (mode1 mode2 octaves : Int)
    (gate : ℚ) (isOn : Bool) (input : MidiBuffer) (numSamples : Int)
    (playHead : Option AudioPlayHead) :
    ((a.setParameters rate mode1 octaves gate isOn).process input numSamples playHead).2 =
      ((a.setParameters rate mode2 octaves gate isOn).process input numSamples playHead).2 ∧
    ((a.setParameters rate mode1 octaves gate isOn).process input numSamples playHead).1 =
      Arpeggiator.withMode
        ((a.setParameters rate mode2 octaves gate isOn).process input numSamples playHead).1
        mode1 := by
  have h : a.setParameters rate mode1 octaves gate isOn =
      Arpeggiator.withMode (a.setParameters rate mode2 octaves gate isOn) mode1 := rfl
  rw [h, Arpeggiator.process_withMode]
  exact ⟨rfl, rfl⟩

namespace Arpeggiator

/-! ## Velocity and channel of the captured notes -/

theorem captureEvent_sameUpToVelocity (s : Arpeggiator × MidiBuffer) (e1 e2 : MidiEvent)
    (h : SameUpToVelocity e1 e2) : captureEvent s e1 = captureEvent s e2 := by
  obtain ⟨m1, p1⟩ := e1
  obtain ⟨m2, p2⟩ := e2
  obtain ⟨hp, hm | ⟨c1, c2, n, v1, v2, -, -, h1, h2⟩⟩ := h
  · simp only at hp hm
    rw [hp, hm]
  · simp only at hp h1 h2
    rw [h1, h2]
    simp only [captureEvent, handleNoteOn]

theorem foldl_captureEvent_sameUpToVelocity (input1 input2 : MidiBuffer)
    (h : List.Forall₂ SameUpToVelocity input1 input2) (s : Arpeggiator × MidiBuffer) :
    input1.foldl captureEvent s = input2.foldl captureEvent s := by
  induction h generalizing s with
  | nil => rfl
  | cons hhead _ ih =>
    simp only [List.foldl_cons, captureEvent_sameUpToVelocity s _ _ hhead]
    exact ih _

end Arpeggiator

/-- C29: with the arpeggiator enabled, every note-on in the output of `process` is a
note-on with velocity 100 on channel 1, and two input lists that agree event by event up
to the channel and velocity of their note-ons give the same output and the same next
state. -/
theorem C29_velocity_discarded (a : Arpeggiator) (hen : a.enabled = true)
    (input1 input2 : MidiBuffer) (numSamples : Int) (playHead : Option AudioPlayHead)
    (h : List.Forall₂ Arpeggiator.SameUpToVelocity input1 input2) :
    (∀ e ∈ (a.process input1 numSamples playHead).2, e.message.isNoteOn = true →
      ∃ n : Int, e.message = MidiMessage.noteOn 1 n 100) ∧
    a.process input1 numSamples playHead = a.process input2 numSamples playHead := by
  refine ⟨fun e he => (Arpeggiator.process_output_not_allNotesOff a hen input1 numSamples
    playHead e he).2, ?_⟩
  rw [Arpeggiator.process_enabled a hen, Arpeggiator.process_enabled a hen]
  have hc : Arpeggiator.captureAndDrain a input1 numSamples =
      Arpeggiator.captureAndDrain a input2 numSamples := by
    simp only [Arpeggiator.captureAndDrain,
      Arpeggiator.foldl_captureEvent_sameUpToVelocity input1 input2 h]
  rw [hc]

/-- C29 on the example sequencer: note 60 pressed with velocity 100 on channel 1, or with
velocity 1 on channel 3. -/
theorem C29_velocity_discarded_witness :
    exampleArp.enabled = true ∧
    List.Forall₂ Arpeggiator.SameUpToVelocity pressAndController pressSoftly ∧
    (∀ e ∈ (exampleArp.process pressAndController 64 none).2, e.message.isNoteOn = true →
      ∃ n : Int, e.message = MidiMessage.noteOn 1 n 100) ∧
    exampleArp.process pressAndController 64 none = exampleArp.process pressSoftly 64 none :=
  ⟨rfl,
    List.Forall₂.cons ⟨rfl, Or.inr ⟨1, 3, 60, 100, 1, by decide, by decide, rfl, rfl⟩⟩
      (List.Forall₂.cons ⟨rfl, Or.inl rfl⟩ List.Forall₂.nil),
    C29_velocity_discarded exampleArp rfl pressAndController pressSoftly 64 none
      (List.Forall₂.cons ⟨rfl, Or.inr ⟨1, 3, 60, 100, 1, by decide, by decide, rfl, rfl⟩⟩
        (List.Forall₂.cons ⟨rfl, Or.inl rfl⟩ List.Forall₂.nil))⟩

end Wolf

namespace Wolf

/-! ## Voices: what a trigger resets -/

namespace HowlingVoice

variable {L : VoiceLibrary}

theorem advancePosition_frame (v : HowlingVoice L) (numSamples : Int) (pitchMod : ℚ) :
    (advancePosition v numSamples pitchMod).1.pitchRatio = v.pitchRatio ∧
    (advancePosition v numSamples pitchMod).1.lfoDepth = v.lfoDepth ∧
    (advancePosition v numSamples pitchMod).1.isLooping = v.isLooping ∧
    (advancePosition v numSamples pitchMod).1.adsrParams = v.adsrParams ∧
    (advancePosition v numSamples pitchMod).1.adsr = v.adsr ∧
    (advancePosition v numSamples pitchMod).1.filter = v.filter ∧
    (advancePosition v numSamples pitchMod).1.lfo = v.lfo := by
  simp only [advancePosition]
  split_ifs <;> exact ⟨rfl, rfl, rfl, rfl, rfl, rfl, rfl⟩

theorem advancePosition_sound (v : HowlingVoice L) (numSamples : Int) (pitchMod : ℚ) :
    ((advancePosition v numSamples pitchMod).2 = false ∧
      (advancePosition v numSamples pitchMod).1.currentlyPlayingSound =
        v.currentlyPlayingSound) ∨
    ((advancePosition v numSamples pitchMod).2 = true ∧ v.isLooping = false ∧
      (numSamples : ℚ) ≤ (advancePosition v numSamples pitchMod).1.sourceSamplePosition ∧
      (advancePosition v numSamples pitchMod).1.currentlyPlayingSound = none) := by
  simp only [advancePosition]
  split_ifs with h1 h2 h3
  · exact Or.inl ⟨rfl, rfl⟩
  · exact Or.inl ⟨rfl, rfl⟩
  · exact Or.inr ⟨rfl, by simpa using h1, h3, rfl⟩
  · exact Or.inl ⟨rfl, rfl⟩

/-- One iteration of the sample loop: what it leaves unchanged in the voice, and the only
way it can take the current sound away. -/
theorem renderSample_voice (playingSound : HowlingSound) (s : RenderLoop L) :
    (renderSample playingSound s).1.voice.pitchRatio = s.voice.pitchRatio ∧
    (renderSample playingSound s).1.voice.lfoDepth = s.voice.lfoDepth ∧
    (renderSample playingSound s).1.voice.isLooping = s.voice.isLooping ∧
    (renderSample playingSound s).1.voice.adsrParams = s.voice.adsrParams ∧
    (renderSample playingSound s).1.voice.adsr = (L.adsrGetNextSample s.voice.adsr).2 ∧
    (((renderSample playingSound s).2 = false ∧
        (renderSample playingSound s).1.voice.currentlyPlayingSound =
          s.voice.currentlyPlayingSound) ∨
      ((renderSample playingSound s).2 = true ∧ s.voice.isLooping = false ∧
        (AudioBuffer.getNumSamples playingSound.data : ℚ) ≤
          (renderSample playingSound s).1.voice.sourceSamplePosition ∧
        (renderSample playingSound s).1.voice.currentlyPlayingSound = none)) := by
  simp only [renderSample_eq]
  obtain ⟨f1, f2, f3, f4, f5, -, -⟩ := advancePosition_frame
    ({ s.voice with
        lfo := (L.lfoProcessSample s.voice.lfo 0).2
        filter := (if AudioBuffer.getNumChannels s.outputBuffer > 1 then
          L.filterProcessSample (L.filterProcessSample s.voice.filter
            (interpolate playingSound.data s.voice.isLooping s.voice.sourceSamplePosition).1).2
            (interpolate playingSound.data s.voice.isLooping s.voice.sourceSamplePosition).2
          else ((interpolate playingSound.data s.voice.isLooping s.voice.sourceSamplePosition).2,
            (L.filterProcessSample s.voice.filter
              (interpolate playingSound.data s.voice.isLooping
                s.voice.sourceSamplePosition).1).2)).2
        adsr := (L.adsrGetNextSample s.voice.adsr).2 } : HowlingVoice L)
    (AudioBuffer.getNumSamples playingSound.data)
    (1 + (L.lfoProcessSample s.voice.lfo 0).1 * s.voice.lfoDepth * (5 / 100))
  exact ⟨f1, f2, f3, f4, f5, advancePosition_sound _ _ _⟩

theorem renderLoop_voice (playingSound : HowlingSound) (n : Nat) (s : RenderLoop L) :
    (renderLoop playingSound n s).voice.pitchRatio = s.voice.pitchRatio ∧
    (renderLoop playingSound n s).voice.lfoDepth = s.voice.lfoDepth ∧
    (renderLoop playingSound n s).voice.isLooping = s.voice.isLooping ∧
    (renderLoop playingSound n s).voice.adsrParams = s.voice.adsrParams ∧
    ((renderLoop playingSound n s).voice.currentlyPlayingSound = s.voice.currentlyPlayingSound ∨
      (s.voice.isLooping = false ∧
        (AudioBuffer.getNumSamples playingSound.data : ℚ) ≤
          (renderLoop playingSound n s).voice.sourceSamplePosition ∧
        (renderLoop playingSound n s).voice.currentlyPlayingSound = none)) := by
  induction n generalizing s with
  | zero => exact ⟨rfl, rfl, rfl, rfl, Or.inl rfl⟩
  | succ n ih =>
    obtain ⟨f1, f2, f3, f4, -, f6⟩ := renderSample_voice playingSound s
    simp only [renderLoop_zero, renderLoop_succ]
    split_ifs with hb
    · refine ⟨f1, f2, f3, f4, ?_⟩
      rcases f6 with ⟨g1, -⟩ | ⟨-, g2, g3, g4⟩
      · rw [g1] at hb
        exact absurd hb (by decide)
      · exact Or.inr ⟨g2, g3, g4⟩
    · obtain ⟨i1, i2, i3, i4, i5⟩ := ih (renderSample playingSound s).1
      refine ⟨i1.trans f1, i2.trans f2, i3.trans f3, i4.trans f4, ?_⟩
      rcases f6 with ⟨-, g2⟩ | ⟨g1, -⟩
      · rcases i5 with j | ⟨j1, j2, j3⟩
        · exact Or.inl (j.trans g2)
        · exact Or.inr ⟨j1.symm ▸ f3.symm ▸ rfl, j2, j3⟩
      · exact absurd g1 hb

/-- A looping voice goes through the sample loop without a `break`: it keeps its current
sound, and its envelope is asked for one value per sample. -/
theorem renderLoop_looping (playingSound : HowlingSound) (n : Nat) (s : RenderLoop L)
    (h : s.voice.isLooping = true) :
    (renderLoop playingSound n s).voice.currentlyPlayingSound = s.voice.currentlyPlayingSound ∧
    (renderLoop playingSound n s).voice.adsr =
      (fun e => (L.adsrGetNextSample e).2)^[n] s.voice.adsr := by
  induction n generalizing s with
  | zero => exact ⟨rfl, rfl⟩
  | succ n ih =>
    obtain ⟨-, -, f3, -, f5, f6⟩ := renderSample_voice playingSound s
    have hb : (renderSample playingSound s).2 = false := by
      rcases f6 with ⟨g1, -⟩ | ⟨-, g2, -⟩
      · exact g1
      · rw [h] at g2
        exact absurd g2 (by decide)
    have hs : (renderSample playingSound s).1.voice.currentlyPlayingSound =
        s.voice.currentlyPlayingSound := by
      rcases f6 with ⟨-, g2⟩ | ⟨g1, -⟩
      · exact g2
      · rw [hb] at g1
        exact absurd g1 (by decide)
    obtain ⟨i1, i2⟩ := ih (renderSample playingSound s).1 (f3.trans h)
    simp only [renderLoop_succ, hb, Bool.false_eq_true, if_false, Function.iterate_succ,
      Function.comp_apply]
    exact ⟨i1.trans hs, by rw [i2, f5]⟩

end HowlingVoice

/-- C21 (as amended): for two voices of an engine (same sample rate) in any state and the
same trigger, `startNote` leaves the same playback position (0), level (the velocity),
loop flag (that of the sound), pitch ratio and envelope parameters (attack and release of
the sound, decay 0, sustain 1): these depend on the trigger and the sample rate alone. The
filter state, the oscillator state and the LFO depth of a voice are what they were before
the trigger, and the envelope object is the previous one, given the sample rate and the
new parameters and told "note on". -/
theorem C21_trigger_resets_part {L : VoiceLibrary} (v w : HowlingVoice L)
    (midiNoteNumber : Int) (velocity : ℚ) (sound : HowlingSound) (wheel : Int)
    (hrate : v.currentSampleRate = w.currentSampleRate) :
    ((v.startNote midiNoteNumber velocity (some sound) wheel).sourceSamplePosition = 0 ∧
      (w.startNote midiNoteNumber velocity (some sound) wheel).sourceSamplePosition = 0) ∧
    ((v.startNote midiNoteNumber velocity (some sound) wheel).level = velocity ∧
      (w.startNote midiNoteNumber velocity (some sound) wheel).level = velocity) ∧
    ((v.startNote midiNoteNumber velocity (some sound) wheel).isLooping = sound.looping ∧
      (w.startNote midiNoteNumber velocity (some sound) wheel).isLooping = sound.looping) ∧
    (v.startNote midiNoteNumber velocity (some sound) wheel).pitchRatio =
      (w.startNote midiNoteNumber velocity (some sound) wheel).pitchRatio ∧
    ((v.startNote midiNoteNumber velocity (some sound) wheel).adsrParams =
        ⟨sound.attack, 0, 1, sound.release⟩ ∧
      (w.startNote midiNoteNumber velocity (some sound) wheel).adsrParams =
        ⟨sound.attack, 0, 1, sound.release⟩) ∧
    (v.startNote midiNoteNumber velocity (some sound) wheel).filter = v.filter ∧
    (v.startNote midiNoteNumber velocity (some sound) wheel).lfo = v.lfo ∧
    (v.startNote midiNoteNumber velocity (some sound) wheel).lfoDepth = v.lfoDepth ∧
    (v.startNote midiNoteNumber velocity (some sound) wheel).adsr =
      L.adsrNoteOn (L.adsrSetParameters (L.adsrSetSampleRate v.adsr v.currentSampleRate)
        ⟨sound.attack, 0, 1, sound.release⟩) := by
  refine ⟨⟨rfl, rfl⟩, ⟨rfl, rfl⟩, ⟨rfl, rfl⟩, ?_, ⟨rfl, rfl⟩, rfl, rfl, rfl, rfl⟩
  simp only [HowlingVoice.startNote, hrate]

/-- C21 (as amended) on two voices that differ in their filter state. -/
theorem C21_trigger_resets_part_witness :
    (boundVoice 0).currentSampleRate = (boundVoice (1 / 2)).currentSampleRate ∧
    ((boundVoice 0).startNote 60 1 (some loopingSound) 8192).pitchRatio =
      ((boundVoice (1 / 2)).startNote 60 1 (some loopingSound) 8192).pitchRatio ∧
    ((boundVoice (1 / 2)).startNote 60 1 (some loopingSound) 8192).filter =
      (boundVoice (1 / 2)).filter :=
  ⟨rfl,
    (C21_trigger_resets_part (boundVoice 0) (boundVoice (1 / 2)) 60 1 loopingSound 8192
      rfl).2.2.2.1,
    (C21_trigger_resets_part (boundVoice (1 / 2)) (boundVoice 0) 60 1 loopingSound 8192
      rfl).2.2.2.2.2.1⟩

/-- C21 fails as stated: two voices of the same engine that differ only in their filter
state (0 and 1/2) receive the same trigger, and their states after `startNote` differ:
each filter state is the one from before the trigger. -/
theorem C21_counterexample :
    (boundVoice 0).currentSampleRate = (boundVoice (1 / 2)).currentSampleRate ∧
    ((boundVoice 0).startNote 60 1 (some loopingSound) 8192).filter = (0 : ℚ) ∧
    ((boundVoice (1 / 2)).startNote 60 1 (some loopingSound) 8192).filter = (1 / 2 : ℚ) ∧
    (boundVoice 0).startNote 60 1 (some loopingSound) 8192 ≠
      (boundVoice (1 / 2)).startNote 60 1 (some loopingSound) 8192 := by
  refine ⟨rfl, rfl, rfl, ?_⟩
  intro h
  have h2 : ((boundVoice 0).startNote 60 1 (some loopingSound) 8192).filter =
      ((boundVoice (1 / 2)).startNote 60 1 (some loopingSound) 8192).filter := by rw [h]
  have h3 : (0 : ℚ) = 1 / 2 := h2
  norm_num at h3


/-! ## Voices: envelope parameters, tail-off -/

/-- C22 (as amended): `startNote` sets decay 0 and sustain 1; `renderNextBlock`,
`stopNote`, `updateFilter` and `updateLFO` keep the envelope parameters of a voice; and
`updateADSR`, which `SynthEngine::updateParams` calls on every voice, replaces all four by
the configured values, in the voice and in its envelope object. -/
theorem C22_envelope_parameters {L : VoiceLibrary} (v : HowlingVoice L) (midiNoteNumber : Int)
    (velocity : ℚ) (sound : HowlingSound) (wheel : Int) (outputBuffer : AudioBuffer ℚ)
    (startSample numSamples : Int) (allowTailOff : Bool) (engine : SynthEngine L)
    (attack decay sustain release cutoff resonance lfoRate lfoDepth : ℚ) :
    ((v.startNote midiNoteNumber velocity (some sound) wheel).adsrParams.decay = 0 ∧
      (v.startNote midiNoteNumber velocity (some sound) wheel).adsrParams.sustain = 1) ∧
    (v.renderNextBlock outputBuffer startSample numSamples).1.adsrParams = v.adsrParams ∧
    (v.stopNote velocity allowTailOff).adsrParams = v.adsrParams ∧
    (v.updateFilter cutoff resonance).adsrParams = v.adsrParams ∧
    (v.updateLFO lfoRate lfoDepth).adsrParams = v.adsrParams ∧
    ((v.updateADSR ⟨attack, decay, sustain, release⟩).adsrParams =
        ⟨attack, decay, sustain, release⟩ ∧
      (v.updateADSR ⟨attack, decay, sustain, release⟩).adsr =
        L.adsrSetParameters v.adsr ⟨attack, decay, sustain, release⟩) ∧
    ∀ x ∈ (engine.updateParams attack decay sustain release cutoff resonance lfoRate
        lfoDepth).voices,
      x.adsrParams = ⟨attack, decay, sustain, release⟩ := by
  refine ⟨⟨rfl, rfl⟩, ?_, ?_, rfl, rfl, ⟨rfl, rfl⟩, ?_⟩
  · simp only [HowlingVoice.renderNextBlock_eq]
    cases v.currentlyPlayingSound with
    | none => rfl
    | some playingSound =>
      exact (HowlingVoice.renderLoop_voice playingSound numSamples.toNat
        ⟨v, outputBuffer, startSample⟩).2.2.2.1
  · simp only [HowlingVoice.stopNote]
    split_ifs <;> rfl
  · intro x hx
    simp only [SynthEngine.updateParams, List.mem_map] at hx
    obtain ⟨y, -, rfl⟩ := hx
    rfl

/-- C22 (as amended) on an engine with one sounding voice. -/
theorem C22_envelope_parameters_witness :
    ∃ x ∈ ((⟨[triggeredVoice]⟩ : SynthEngine statefulLibrary).updateParams (1 / 10) (1 / 2)
        (3 / 10) (1 / 5) 1000 (1 / 2) 5 (1 / 2)).voices,
      x.adsrParams = ⟨1 / 10, 1 / 2, 3 / 10, 1 / 5⟩ :=
  ⟨((triggeredVoice.updateADSR ⟨1 / 10, 1 / 2, 3 / 10, 1 / 5⟩).updateFilter 1000
      (1 / 2)).updateLFO 5 (1 / 2),
    List.mem_singleton.mpr rfl,
    (C22_envelope_parameters triggeredVoice 60 1 loopingSound 8192 silentBuffer 0 4 true
      ⟨[triggeredVoice]⟩ (1 / 10) (1 / 2) (3 / 10) (1 / 5) 1000 (1 / 2) 5 (1 / 2)).2.2.2.2.2.2
      _ (List.mem_singleton.mpr rfl)⟩

/-- C22 fails as stated: a voice is triggered (decay 0, sustain 1), then
`SynthEngine::updateParams` is called with decay 1/2 and sustain 3/10; the voice is still
bound to its sound, and its envelope parameters, and those stored in its envelope object,
now have decay 1/2 and sustain 3/10. -/
theorem C22_counterexample :
    triggeredVoice.adsrParams.decay = 0 ∧ triggeredVoice.adsrParams.sustain = 1 ∧
    ∀ x ∈ ((⟨[triggeredVoice]⟩ : SynthEngine statefulLibrary).updateParams (1 / 10) (1 / 2)
        (3 / 10) (1 / 5) 1000 (1 / 2) 5 (1 / 2)).voices,
      x.currentlyPlayingSound = some loopingSound ∧
      x.adsrParams.decay = 1 / 2 ∧ x.adsrParams.sustain = 3 / 10 ∧
      (x.adsr : Envelope).parameters.decay = 1 / 2 ∧
      (x.adsr : Envelope).parameters.sustain = 3 / 10 := by
  refine ⟨rfl, rfl, ?_⟩
  intro x hx
  simp only [SynthEngine.updateParams, List.map_cons, List.map_nil, List.mem_singleton] at hx
  subst hx
  have hp : ∀ (e : Envelope) (p : ADSRParameters), (Envelope.setParameters e p).parameters = p := by
    intro e p
    simp only [Envelope.setParameters, Envelope.recalculateRates]
    split_ifs
    · simp only [Envelope.goToNextState]
      split <;> rfl
    · rfl
  have hx : (((((triggeredVoice.updateADSR ⟨1 / 10, 1 / 2, 3 / 10, 1 / 5⟩).updateFilter 1000
      (1 / 2)).updateLFO 5 (1 / 2)).adsr : Envelope)).parameters =
      ⟨1 / 10, 1 / 2, 3 / 10, 1 / 5⟩ := hp _ _
  exact ⟨rfl, rfl, rfl, congrArg ADSRParameters.decay hx, congrArg ADSRParameters.sustain hx⟩

/-- C23 (as amended): after `stopNote` with tail-off a sounding voice is still bound to
its sound, with position and pitch ratio unchanged, and its envelope has been told "note
off". The envelope does not decide when the voice goes idle: whatever the state of the
envelope, a looping voice keeps its current sound through `renderNextBlock`, and a voice
that has lost it is a non-looping voice whose source position is at or past the sample
length. -/
theorem C23_tail_off_keeps_voice {L : VoiceLibrary} (v : HowlingVoice L)
    (playingSound : HowlingSound) (velocity : ℚ) (outputBuffer : AudioBuffer ℚ)
    (startSample numSamples : Int) (hsound : v.currentlyPlayingSound = some playingSound) :
    (v.stopNote velocity true).currentlyPlayingSound = some playingSound ∧
    (v.stopNote velocity true).sourceSamplePosition = v.sourceSamplePosition ∧
    (v.stopNote velocity true).pitchRatio = v.pitchRatio ∧
    (v.stopNote velocity true).adsr = L.adsrNoteOff v.adsr ∧
    (v.isLooping = true →
      (v.renderNextBlock outputBuffer startSample numSamples).1.currentlyPlayingSound =
        some playingSound) ∧
    ((v.renderNextBlock outputBuffer startSample numSamples).1.currentlyPlayingSound = none →
      v.isLooping = false ∧
      (AudioBuffer.getNumSamples playingSound.data : ℚ) ≤
        (v.renderNextBlock outputBuffer startSample numSamples).1.sourceSamplePosition) := by
  refine ⟨hsound, rfl, rfl, rfl, ?_, ?_⟩
  · intro hloop
    simp only [HowlingVoice.renderNextBlock_eq, hsound]
    exact (HowlingVoice.renderLoop_looping playingSound numSamples.toNat
      ⟨v, outputBuffer, startSample⟩ hloop).1.trans hsound
  · simp only [HowlingVoice.renderNextBlock_eq, hsound]
    intro hnone
    rcases (HowlingVoice.renderLoop_voice playingSound numSamples.toNat
      ⟨v, outputBuffer, startSample⟩).2.2.2.2 with h | ⟨h1, h2, -⟩
    · rw [hnone] at h
      exact absurd h.symm (by rw [hsound]; exact Option.some_ne_none _)
    · exact ⟨h1, h2⟩

theorem triggeredVoice_adsr : (triggeredVoice.adsr : Envelope) = sustainedEnvelope := by
  show Envelope.noteOn (Envelope.setParameters (Envelope.setSampleRate restingEnvelope 44100)
    ⟨0, 0, 1, 2 / 44100⟩) = sustainedEnvelope
  simp [Envelope.noteOn, Envelope.setParameters, Envelope.setSampleRate,
    Envelope.recalculateRates, Envelope.getRate, restingEnvelope, sustainedEnvelope]
  norm_num

/-- The envelope of the triggered example voice after "note off" and four samples: the
release of two samples is over and the envelope is idle. -/
theorem releasedEnvelope_finished :
    Envelope.isActive
      ((fun e => (Envelope.getNextSample e).2)^[4] (Envelope.noteOff triggeredVoice.adsr)) =
      false := by
  rw [triggeredVoice_adsr]
  have h1 : Envelope.noteOff sustainedEnvelope =
      { sustainedEnvelope with state := EnvelopeStage.release } := by
    simp [Envelope.noteOff, sustainedEnvelope]
  have h2 : (Envelope.getNextSample { sustainedEnvelope with state := EnvelopeStage.release }).2 =
      { sustainedEnvelope with state := EnvelopeStage.release, envelopeVal := 1 / 2 } := by
    simp [Envelope.getNextSample, sustainedEnvelope]
    norm_num
  have h3 : (Envelope.getNextSample
      { sustainedEnvelope with state := EnvelopeStage.release, envelopeVal := 1 / 2 }).2 =
      { sustainedEnvelope with state := EnvelopeStage.idle, envelopeVal := 0 } := by
    simp [Envelope.getNextSample, sustainedEnvelope, Envelope.goToNextState, Envelope.reset]
  have h4 : (Envelope.getNextSample
      { sustainedEnvelope with state := EnvelopeStage.idle, envelopeVal := 0 }).2 =
      { sustainedEnvelope with state := EnvelopeStage.idle, envelopeVal := 0 } := by
    simp [Envelope.getNextSample]
  simp only [Function.iterate_succ, Function.iterate_zero, Function.comp_apply, id_eq, h1, h2,
    h3, h4]
  rfl

/-- C23 (as amended) on the triggered example voice, which loops. -/
theorem C23_tail_off_keeps_voice_witness :
    triggeredVoice.currentlyPlayingSound = some loopingSound ∧
    triggeredVoice.isLooping = true ∧
    (triggeredVoice.renderNextBlock silentBuffer 0 4).1.currentlyPlayingSound =
      some loopingSound :=
  ⟨rfl, rfl,
    (C23_tail_off_keeps_voice triggeredVoice loopingSound 0 silentBuffer 0 4 rfl).2.2.2.2.1 rfl⟩

/-- C23 fails as stated: the triggered example voice receives `stopNote` with tail-off and
renders a block of four samples, in which its release of two samples ends: the envelope is
no longer active, and the voice still has its current sound, after this block and after
the next one, throughout which the envelope is finished. -/
theorem C23_counterexample :
    Envelope.isActive
      ((triggeredVoice.stopNote 0 true).renderNextBlock silentBuffer 0 4).1.adsr = false ∧
    ((triggeredVoice.stopNote 0 true).renderNextBlock silentBuffer 0 4).1.currentlyPlayingSound =
      some loopingSound ∧
    ((((triggeredVoice.stopNote 0 true).renderNextBlock silentBuffer 0 4).1.renderNextBlock
      silentBuffer 0 4).1.currentlyPlayingSound = some loopingSound) := by
  have hl : (triggeredVoice.stopNote 0 true).isLooping = true := rfl
  have hs : (triggeredVoice.stopNote 0 true).currentlyPlayingSound = some loopingSound := rfl
  obtain ⟨k1, k2⟩ := HowlingVoice.renderLoop_looping loopingSound 4
    ⟨triggeredVoice.stopNote 0 true, silentBuffer, 0⟩ hl
  have hr : (triggeredVoice.stopNote 0 true).renderNextBlock silentBuffer 0 4 =
      ((HowlingVoice.renderLoop loopingSound 4
          ⟨triggeredVoice.stopNote 0 true, silentBuffer, 0⟩).voice,
        (HowlingVoice.renderLoop loopingSound 4
          ⟨triggeredVoice.stopNote 0 true, silentBuffer, 0⟩).outputBuffer) := rfl
  have hloop2 : (HowlingVoice.renderLoop loopingSound 4
      ⟨triggeredVoice.stopNote 0 true, silentBuffer, 0⟩).voice.isLooping = true :=
    (HowlingVoice.renderLoop_voice loopingSound 4
      ⟨triggeredVoice.stopNote 0 true, silentBuffer, 0⟩).2.2.1.trans hl
  rw [hr]
  refine ⟨?_, k1.trans hs, ?_⟩
  · show Envelope.isActive (HowlingVoice.renderLoop loopingSound 4
      ⟨triggeredVoice.stopNote 0 true, silentBuffer, 0⟩).voice.adsr = false
    rw [k2]
    exact releasedEnvelope_finished
  · simp only [HowlingVoice.renderNextBlock_eq, k1.trans hs]
    exact ((HowlingVoice.renderLoop_looping loopingSound (4 : Int).toNat
      ⟨_, _, 0⟩ hloop2).1).trans (k1.trans hs)


/-! ## Voices: reads of the sample data -/

namespace HowlingVoice

variable {L : VoiceLibrary}

end HowlingVoice

end Wolf
